import Mathlib

/-!
# Product catalog: writer and reader services

A shallow embedding of the Go services under `products/` and `notifications/`:
the event wire format (`encoding/json` driven by the struct tags of
`models.Product` and `models.ProductEvent`), the writer's `ProductsService`
and `KafkaBroker`, and the reader's `Consumer` and `KafkaConsumer`.

Go values are modelled as follows.

* A `string` or `[]byte` is a list of bytes, each byte a natural number below 256.
* An `int` is an `Int` (64-bit range where a conversion checks it).
* A nil-able pointer is an `Option`.
* An `error` result is an `Option` of an error value (`none` is `nil`).
* Calls into collaborators (repository, broker, handler, logger) are recorded
  in explicit traces.
-/

namespace Go

/-- A Go string or byte slice: its bytes, in order. -/
abbrev Bytes := List Nat

/-- Every element is a byte. -/
def Bytes.WF (s : Bytes) : Prop := ∀ b ∈ s, b < 256

/-! ## unicode/utf8 -/

/-- Go: `utf8.RuneError`, U+FFFD. -/
def RuneError : Nat := 0xFFFD

/-- Go: `utf8.MaxRune`. -/
def MaxRune : Nat := 0x10FFFF

/-- A continuation byte `10xxxxxx`. -/
def isCont (b : Nat) : Bool := 0x80 ≤ b && b ≤ 0xBF

/-- Go: `acceptRanges[...].lo`: the least second byte allowed after leading byte `p0`. -/
def acceptLo (p0 : Nat) : Nat := if p0 = 0xE0 then 0xA0 else if p0 = 0xF0 then 0x90 else 0x80

/-- Go: `acceptRanges[...].hi`: the greatest second byte allowed after leading byte `p0`. -/
def acceptHi (p0 : Nat) : Nat := if p0 = 0xED then 0x9F else if p0 = 0xF4 then 0x8F else 0xBF

/-- The two-byte case of `DecodeRune`, after leading byte `p0`. -/
def decodeRune2 (p0 : Nat) : Bytes → Nat × Nat
  | b1 :: _ =>
    if isCont b1 then ((p0 % 32) * 64 + b1 % 64, 2) else (RuneError, 1)
  | [] => (RuneError, 1)

/-- The three-byte case of `DecodeRune`, after leading byte `p0`. -/
def decodeRune3 (p0 : Nat) : Bytes → Nat × Nat
  | b1 :: b2 :: _ =>
    if acceptLo p0 ≤ b1 ∧ b1 ≤ acceptHi p0 then
      if isCont b2 then ((p0 % 16) * 4096 + (b1 % 64) * 64 + b2 % 64, 3)
      else (RuneError, 1)
    else (RuneError, 1)
  | _ => (RuneError, 1)

/-- The four-byte case of `DecodeRune`, after leading byte `p0`. -/
def decodeRune4 (p0 : Nat) : Bytes → Nat × Nat
  | b1 :: b2 :: b3 :: _ =>
    if acceptLo p0 ≤ b1 ∧ b1 ≤ acceptHi p0 then
      if isCont b2 then
        if isCont b3 then
          ((p0 % 8) * 262144 + (b1 % 64) * 4096 + (b2 % 64) * 64 + b3 % 64, 4)
        else (RuneError, 1)
      else (RuneError, 1)
    else (RuneError, 1)
  | _ => (RuneError, 1)

/-- Go: `utf8.DecodeRune(p)`: the first rune of `p` and its width in bytes;
`(RuneError, 0)` on empty input and `(RuneError, 1)` on an invalid encoding.
Masks and shifts on bytes are written with `%` and `*`. -/
def decodeRune : Bytes → Nat × Nat
  | [] => (RuneError, 0)
  | p0 :: rest =>
    if p0 < 0x80 then (p0, 1)
    else if p0 < 0xC2 then (RuneError, 1)
    else if p0 < 0xE0 then decodeRune2 p0 rest
    else if p0 < 0xF0 then decodeRune3 p0 rest
    else if p0 < 0xF5 then decodeRune4 p0 rest
    else (RuneError, 1)

/-- Go: `utf8.EncodeRune`: the UTF-8 encoding of rune `r`; surrogates and
values above `MaxRune` encode as `RuneError`. -/
def encodeRune (r : Nat) : Bytes :=
  if r ≤ 0x7F then [r]
  else if r ≤ 0x7FF then [0xC0 + r / 64, 0x80 + r % 64]
  else if r > MaxRune ∨ (0xD800 ≤ r ∧ r ≤ 0xDFFF) then [0xEF, 0xBF, 0xBD]
  else if r ≤ 0xFFFF then [0xE0 + r / 4096, 0x80 + (r / 64) % 64, 0x80 + r % 64]
  else [0xF0 + r / 262144, 0x80 + (r / 4096) % 64, 0x80 + (r / 64) % 64, 0x80 + r % 64]

/-- The bytes of a string literal: the UTF-8 encoding of its characters. -/
def str (s : String) : Bytes := s.data.flatMap (fun c => encodeRune c.toNat)

/-- Go: `utf8.Valid` with a recursion budget: every position decodes to a
rune other than an invalid-encoding `RuneError`. -/
def validUTF8Aux : Nat → Bytes → Bool
  | _, [] => true
  | 0, _ :: _ => false
  | fuel + 1, b :: rest =>
    if (decodeRune (b :: rest)).2 ≤ 1 ∧ 0x80 ≤ b then false
    else validUTF8Aux fuel ((b :: rest).drop (decodeRune (b :: rest)).2)

/-- Go: `utf8.Valid(s)`. -/
def validUTF8 (s : Bytes) : Bool := validUTF8Aux s.length s

/-- Go: `utf8.RuneCountInString` with a recursion budget: the number of
decoding steps that consume `s`, a byte that starts no valid encoding
counting as one rune of width one. -/
def runeCountAux : Nat → Bytes → Nat
  | _, [] => 0
  | 0, _ :: _ => 0
  | fuel + 1, b :: rest => 1 + runeCountAux fuel ((b :: rest).drop (decodeRune (b :: rest)).2)

/-- Go: `utf8.RuneCountInString(s)`. -/
def runeCount (s : Bytes) : Nat := runeCountAux s.length s

end Go

/-! ## encoding/json: the scanner

`json.Unmarshal` first validates the whole input with the scanner of
`scanner.go` and then decodes values guided by the destination type. The
model runs the same state machine once, byte by byte, and lets it also build
the syntax tree the type-directed decoder then reads. -/

namespace Json

open Go

/-- A parsed JSON value. Strings keep the raw bytes between their quotes and
numbers keep their literal: the destination type decides how to read them. -/
inductive Value where
  | null
  | bool (b : Bool)
  | num (lit : Bytes)
  | str (raw : Bytes)
  | arr (items : List Value)
  | obj (members : List (Bytes × Value))

/-- The scanner's step functions (`stateBeginValue`, `stateInString`, ...). -/
inductive Step where
  | beginValueOrEmpty | beginValue | beginStringOrEmpty | beginString
  | endValue | endTop
  | inString | inStringEsc | inStringEscU | inStringEscU1 | inStringEscU12 | inStringEscU123
  | neg | one | zero | dot | dot0 | e | eSign | e0
  | t | tr | tru | f | fa | fal | fals | n | nu | nul
  | error
  deriving DecidableEq, Repr

/-- An entry of the scanner's parse stack (`parseObjectKey`, `parseObjectValue`,
`parseArrayValue`), carrying what has been read of the composite so far. -/
inductive Frame where
  | objectKey (done : List (Bytes × Value)) (key : Bytes)
  | objectValue (done : List (Bytes × Value)) (key : Bytes)
  | arrayValue (done : List Value)

/-- Scanner state: current step function, parse stack, the bytes of the
literal being read, and the finished top-level value. -/
structure Scanner where
  step : Step
  parseState : List Frame
  tok : Bytes
  result : Option Value

/-- Go: `maxNestingDepth`. -/
def maxNestingDepth : Nat := 10000

/-- Go: `scanner.reset`. -/
def Scanner.reset : Scanner :=
  { step := Step.beginValue, parseState := [], tok := [], result := none }

/-- Go: `isSpace`. -/
def isSpace (c : Nat) : Bool := c = 0x20 || c = 0x09 || c = 0x0D || c = 0x0A

def isDigit (c : Nat) : Bool := 0x30 ≤ c && c ≤ 0x39

def isHex (c : Nat) : Bool :=
  isDigit c || (0x61 ≤ c && c ≤ 0x66) || (0x41 ≤ c && c ≤ 0x46)

def Scanner.fail (s : Scanner) : Scanner := { s with step := Step.error }

/-- A value has been read completely: hand it to the enclosing composite (or
make it the result) and continue with `stateEndValue`. -/
def Scanner.finish (s : Scanner) (v : Value) : Scanner :=
  match s.parseState with
  | [] => { s with step := Step.endValue, tok := [], result := some v }
  | Frame.objectKey done _ :: rest =>
    match v with
    | Value.str k =>
      { s with step := Step.endValue, tok := [], parseState := Frame.objectKey done k :: rest }
    | _ => s.fail
  | Frame.objectValue done key :: rest =>
    { s with step := Step.endValue, tok := [],
             parseState := Frame.objectValue (done ++ [(key, v)]) key :: rest }
  | Frame.arrayValue done :: rest =>
    { s with step := Step.endValue, tok := [],
             parseState := Frame.arrayValue (done ++ [v]) :: rest }

/-- Go: `pushParseState`, refusing input nested deeper than `maxNestingDepth`. -/
def Scanner.push (s : Scanner) (fr : Frame) (next : Step) : Scanner :=
  if s.parseState.length + 1 > maxNestingDepth then s.fail
  else { s with step := next, parseState := fr :: s.parseState }

/-- Go: `stateEndValue`. -/
def Scanner.endValue (s : Scanner) (c : Nat) : Scanner :=
  match s.parseState with
  | [] => if isSpace c then { s with step := Step.endTop } else s.fail
  | Frame.objectKey done key :: rest =>
    if isSpace c then { s with step := Step.endValue }
    else if c = 0x3A then
      { s with step := Step.beginValue, parseState := Frame.objectValue done key :: rest }
    else s.fail
  | Frame.objectValue done key :: rest =>
    if isSpace c then { s with step := Step.endValue }
    else if c = 0x2C then
      { s with step := Step.beginString, parseState := Frame.objectKey done key :: rest }
    else if c = 0x7D then
      Scanner.finish { s with parseState := rest } (Value.obj done)
    else s.fail
  | Frame.arrayValue done :: rest =>
    if isSpace c then { s with step := Step.endValue }
    else if c = 0x2C then { s with step := Step.beginValue }
    else if c = 0x5D then
      Scanner.finish { s with parseState := rest } (Value.arr done)
    else s.fail

/-- Go: `stateBeginValue`. -/
def Scanner.beginValue (s : Scanner) (c : Nat) : Scanner :=
  if isSpace c then s
  else if c = 0x7B then s.push (Frame.objectKey [] []) Step.beginStringOrEmpty
  else if c = 0x5B then s.push (Frame.arrayValue []) Step.beginValueOrEmpty
  else if c = 0x22 then { s with step := Step.inString, tok := [] }
  else if c = 0x2D then { s with step := Step.neg, tok := [c] }
  else if c = 0x30 then { s with step := Step.zero, tok := [c] }
  else if c = 0x74 then { s with step := Step.t }
  else if c = 0x66 then { s with step := Step.f }
  else if c = 0x6E then { s with step := Step.n }
  else if 0x31 ≤ c ∧ c ≤ 0x39 then { s with step := Step.one, tok := [c] }
  else s.fail

/-- A number literal ended at `c`: deliver it, then treat `c` as following a value. -/
def Scanner.endNumber (s : Scanner) (c : Nat) : Scanner :=
  (s.finish (Value.num s.tok)).endValue c

/-- Go: `stateE0` (also the tail of `stateESign`). -/
def Scanner.stateE0 (s : Scanner) (c : Nat) : Scanner :=
  if isDigit c then { s with step := Step.e0, tok := s.tok ++ [c] } else s.endNumber c

/-- Go: `state0` (after a leading `0`, and the tail of `state1`). -/
def Scanner.state0 (s : Scanner) (c : Nat) : Scanner :=
  if c = 0x2E then { s with step := Step.dot, tok := s.tok ++ [c] }
  else if c = 0x65 ∨ c = 0x45 then { s with step := Step.e, tok := s.tok ++ [c] }
  else s.endNumber c

/-- One more literal byte `want` is expected; `next` is the following step. -/
def Scanner.expect (s : Scanner) (c want : Nat) (next : Step) : Scanner :=
  if c = want then { s with step := next } else s.fail

/-- One scanner transition on input byte `c`: `s.step(s, c)`. -/
def Scanner.next (s : Scanner) (c : Nat) : Scanner :=
  match s.step with
  | Step.error => s
  | Step.beginValue => s.beginValue c
  | Step.beginValueOrEmpty =>
    if isSpace c then s
    else if c = 0x5D then s.endValue c
    else s.beginValue c
  | Step.beginStringOrEmpty =>
    if isSpace c then s
    else if c = 0x7D then
      match s.parseState with
      | Frame.objectKey done key :: rest =>
        Scanner.endValue { s with parseState := Frame.objectValue done key :: rest } c
      | _ => s.fail
    else if c = 0x22 then { s with step := Step.inString, tok := [] }
    else s.fail
  | Step.beginString =>
    if isSpace c then s
    else if c = 0x22 then { s with step := Step.inString, tok := [] }
    else s.fail
  | Step.endValue => s.endValue c
  | Step.endTop => if isSpace c then s else s.fail
  | Step.inString =>
    if c = 0x22 then s.finish (Value.str s.tok)
    else if c = 0x5C then { s with step := Step.inStringEsc, tok := s.tok ++ [c] }
    else if c < 0x20 then s.fail
    else { s with tok := s.tok ++ [c] }
  | Step.inStringEsc =>
    if c = 0x62 ∨ c = 0x66 ∨ c = 0x6E ∨ c = 0x72 ∨ c = 0x74 ∨ c = 0x5C ∨ c = 0x2F ∨ c = 0x22 then
      { s with step := Step.inString, tok := s.tok ++ [c] }
    else if c = 0x75 then { s with step := Step.inStringEscU, tok := s.tok ++ [c] }
    else s.fail
  | Step.inStringEscU =>
    if isHex c then { s with step := Step.inStringEscU1, tok := s.tok ++ [c] } else s.fail
  | Step.inStringEscU1 =>
    if isHex c then { s with step := Step.inStringEscU12, tok := s.tok ++ [c] } else s.fail
  | Step.inStringEscU12 =>
    if isHex c then { s with step := Step.inStringEscU123, tok := s.tok ++ [c] } else s.fail
  | Step.inStringEscU123 =>
    if isHex c then { s with step := Step.inString, tok := s.tok ++ [c] } else s.fail
  | Step.neg =>
    if c = 0x30 then { s with step := Step.zero, tok := s.tok ++ [c] }
    else if 0x31 ≤ c ∧ c ≤ 0x39 then { s with step := Step.one, tok := s.tok ++ [c] }
    else s.fail
  | Step.one =>
    if isDigit c then { s with tok := s.tok ++ [c] } else s.state0 c
  | Step.zero => s.state0 c
  | Step.dot =>
    if isDigit c then { s with step := Step.dot0, tok := s.tok ++ [c] } else s.fail
  | Step.dot0 =>
    if isDigit c then { s with tok := s.tok ++ [c] }
    else if c = 0x65 ∨ c = 0x45 then { s with step := Step.e, tok := s.tok ++ [c] }
    else s.endNumber c
  | Step.e =>
    if c = 0x2B ∨ c = 0x2D then { s with step := Step.eSign, tok := s.tok ++ [c] }
    else if isDigit c then { s with step := Step.e0, tok := s.tok ++ [c] }
    else s.fail
  | Step.eSign =>
    if isDigit c then { s with step := Step.e0, tok := s.tok ++ [c] } else s.fail
  | Step.e0 => s.stateE0 c
  | Step.t => s.expect c 0x72 Step.tr
  | Step.tr => s.expect c 0x75 Step.tru
  | Step.tru => if c = 0x65 then s.finish (Value.bool true) else s.fail
  | Step.f => s.expect c 0x61 Step.fa
  | Step.fa => s.expect c 0x6C Step.fal
  | Step.fal => s.expect c 0x73 Step.fals
  | Step.fals => if c = 0x65 then s.finish (Value.bool false) else s.fail
  | Step.n => s.expect c 0x75 Step.nu
  | Step.nu => s.expect c 0x6C Step.nul
  | Step.nul => if c = 0x6C then s.finish Value.null else s.fail

/-- Run the scanner over a byte sequence. -/
def Scanner.run (s : Scanner) (data : Bytes) : Scanner := data.foldl Scanner.next s

/-- Go: `scanner.eof`: the value read, if the input was exactly one complete
JSON value (a pending top-level number is ended by a virtual space). -/
def Scanner.eof (s : Scanner) : Option Value :=
  match s.step with
  | Step.error => none
  | Step.endTop => s.result
  | _ =>
    let s1 := s.next 0x20
    match s1.step, s1.parseState with
    | Step.endTop, [] => s1.result
    | _, _ => none

/-- Go: `checkValid(data, &d.scan)`, returning the syntax tree on success and
`none` for a `*json.SyntaxError`. -/
def parse (data : Bytes) : Option Value := (Scanner.reset.run data).eof

end Json

/-! ## time

A `time.Time` is modelled by what it presents in its own location: the
calendar date and clock reading, the zone offset in seconds east of UTC, and
the optional monotonic clock reading that `time.Now` attaches. -/

namespace GoTime

open Go

/-- Go: `time.Time`. -/
structure Time where
  year : Int
  month : Nat
  day : Nat
  hour : Nat
  minute : Nat
  second : Nat
  nsec : Nat
  offset : Int
  mono : Option Int
  deriving DecidableEq, Repr

/-- Go: the zero `time.Time{}`, January 1, year 1, 00:00:00 UTC. -/
def zero : Time :=
  { year := 1, month := 1, day := 1, hour := 0, minute := 0, second := 0, nsec := 0,
    offset := 0, mono := none }

/-- Go: `isLeap`. -/
def isLeap (year : Int) : Bool := year % 4 = 0 && (year % 100 ≠ 0 || year % 400 = 0)

/-- Go: `daysIn(m, year)`. -/
def daysIn (month : Nat) (year : Int) : Nat :=
  if month = 2 then (if isLeap year then 29 else 28)
  else if month = 4 ∨ month = 6 ∨ month = 9 ∨ month = 11 then 30
  else 31

/-- The value is a calendar date and clock reading that a `time.Time` can present. -/
def Time.WF (t : Time) : Prop :=
  1 ≤ t.month ∧ t.month ≤ 12 ∧ 1 ≤ t.day ∧ t.day ≤ daysIn t.month t.year ∧
  t.hour < 24 ∧ t.minute < 60 ∧ t.second < 60 ∧ t.nsec < 1000000000

instance (t : Time) : Decidable t.WF := by unfold Time.WF; infer_instance

/-- Days from 1970-01-01 to the given proleptic Gregorian date. -/
def daysFromCivil (year : Int) (month day : Nat) : Int :=
  let y : Int := if month ≤ 2 then year - 1 else year
  let era : Int := y / 400
  let yoe : Int := y - era * 400
  let mp : Int := if month ≤ 2 then (month : Int) + 9 else (month : Int) - 3
  let doy : Int := (153 * mp + 2) / 5 + (day : Int) - 1
  let doe : Int := yoe * 365 + yoe / 4 - yoe / 100 + doy
  era * 146097 + doe - 719468

/-- Go: `t.UnixNano()` without the 64-bit wrap: nanoseconds since the Unix
epoch of the instant the value denotes. -/
def Time.unixNano (t : Time) : Int :=
  (daysFromCivil t.year t.month t.day * 86400 + (t.hour : Int) * 3600 + (t.minute : Int) * 60
    + (t.second : Int) - t.offset) * 1000000000 + (t.nsec : Int)

/-- Go: `t.Equal(u)`: the two values denote the same instant, whatever their
locations and monotonic readings. -/
def Time.Equal (t u : Time) : Prop := t.unixNano = u.unixNano

instance (t u : Time) : Decidable (t.Equal u) := by unfold Time.Equal; infer_instance

/-- The value without its monotonic clock reading (Go: `t.Round(0)`). -/
def Time.stripMonotonic (t : Time) : Time := { t with mono := none }

/-- Decimal digit for a value below ten. -/
def digit (n : Nat) : Nat := 0x30 + n % 10

/-- Go: `appendInt(b, x, 2)` for `0 ≤ x < 100`. -/
def pad2 (n : Nat) : Bytes := [digit (n / 10), digit n]

/-- Go: `appendInt(b, x, 4)` for `0 ≤ x < 10000`. -/
def pad4 (n : Nat) : Bytes := [digit (n / 1000), digit (n / 100), digit (n / 10), digit n]

/-- The last `k` decimal digits of `n`, most significant first. -/
def padDigits : Nat → Nat → Bytes
  | 0, _ => []
  | k + 1, n => padDigits k (n / 10) ++ [digit n]

/-- The nine digits of a nanosecond count. -/
def nano9 (n : Nat) : Bytes := padDigits 9 n

/-- Drop trailing `'0'` bytes. -/
def trimZeros (ds : Bytes) : Bytes := (ds.reverse.dropWhile (· = 0x30)).reverse

/-- Go: `appendNano` with the `.999999999` layout: nothing for zero, else a
point and the nine digits with trailing zeros trimmed. -/
def appendNano (nsec : Nat) : Bytes :=
  if nsec = 0 then [] else 0x2E :: trimZeros (nano9 nsec)

/-- Go: the zone suffix of `appendFormatRFC3339`: `Z` for offset zero, else
the sign and the offset in whole minutes (seconds are dropped, rounding
toward zero) as `hh:mm`. -/
def appendZone (offset : Int) : Bytes :=
  if offset = 0 then [0x5A]
  else
    let zone : Int := Int.tdiv offset 60
    let sign : Nat := if zone < 0 then 0x2D else 0x2B
    let z : Nat := zone.natAbs
    sign :: (pad2 (z / 60) ++ [0x3A] ++ pad2 (z % 60))

/-- Go: `t.appendStrictRFC3339`: the RFC 3339 text with nanoseconds, or an
error when the year is outside `[0,9999]` or the zone hour outside `[0,23]`. -/
def appendStrictRFC3339 (t : Time) : Option Bytes :=
  if t.year < 0 ∨ 9999 < t.year then none
  else if 24 ≤ (Int.tdiv t.offset 60).natAbs / 60 then none
  else
    some (pad4 t.year.toNat ++ [0x2D] ++ pad2 t.month ++ [0x2D] ++ pad2 t.day ++ [0x54]
      ++ pad2 t.hour ++ [0x3A] ++ pad2 t.minute ++ [0x3A] ++ pad2 t.second
      ++ appendNano t.nsec ++ appendZone t.offset)

/-- Go: `Time.MarshalJSON`: the quoted strict RFC 3339 text. -/
def MarshalJSON (t : Time) : Option Bytes :=
  (appendStrictRFC3339 t).map (fun b => [0x22] ++ b ++ [0x22])

/-- Go: the `parseUint` closure of `parseRFC3339`: all bytes are digits and
the value lies in `[min, max]`. -/
def parseUint (s : Bytes) (min max : Nat) : Option Nat :=
  if s.all Json.isDigit then
    let x := s.foldl (fun acc c => acc * 10 + (c - 0x30)) 0
    if min ≤ x ∧ x ≤ max then some x else none
  else none

/-- Go: `parseNanoseconds` on the digits after the point: the first nine
digits, scaled to nanoseconds. -/
def parseNanoseconds (digits : Bytes) : Nat :=
  let ds := digits.take 9
  ds.foldl (fun acc c => acc * 10 + (c - 0x30)) 0 * 10 ^ (9 - ds.length)

/-- Go: the zone part of `parseRFC3339`: `Z`, or a sign and `hh:mm`. -/
def parseZone (s : Bytes) : Option Int :=
  match s with
  | [z] => if z = 0x5A then some 0 else none
  | [sg, h1, h2, c, m1, m2] =>
    match parseUint [h1, h2] 0 23, parseUint [m1, m2] 0 59 with
    | some hr, some mm =>
      if (sg = 0x2D ∨ sg = 0x2B) ∧ c = 0x3A then
        if sg = 0x2D then some (-(((hr * 60 + mm) * 60 : Nat) : Int))
        else some (((hr * 60 + mm) * 60 : Nat) : Int)
      else none
    | _, _ => none
  | _ => none

/-- Go: the fractional-second digits `parseRFC3339` reads after the seconds:
a point followed by at least one digit, or nothing. -/
def fracDigits (rest : Bytes) : Bytes :=
  match rest with
  | p :: d :: more =>
    if p = 0x2E ∧ Json.isDigit d then d :: more.takeWhile Json.isDigit else []
  | _ => []

/-- Go: `parseRFC3339`, the parser `Time.UnmarshalJSON` tries first, for
`YYYY-MM-DDTHH:MM:SS[.fraction](Z|±hh:mm)`. When it rejects a text, the
library retries with the layout parser `Parse(RFC3339, ...)`, which accepts a
few more spellings (for instance a one-digit hour); those are rejected here. -/
def parseRFC3339 (s : Bytes) : Option Time :=
  match s with
  | y1 :: y2 :: y3 :: y4 :: d1 :: mo1 :: mo2 :: d2 :: dd1 :: dd2 :: tt :: h1 :: h2 :: c1 ::
      mi1 :: mi2 :: c2 :: s1 :: s2 :: rest =>
    match parseUint [y1, y2, y3, y4] 0 9999, parseUint [mo1, mo2] 1 12 with
    | some year, some month =>
      match parseUint [dd1, dd2] 1 (daysIn month year), parseUint [h1, h2] 0 23,
            parseUint [mi1, mi2] 0 59, parseUint [s1, s2] 0 59 with
      | some day, some hour, some min, some sec =>
        if d1 = 0x2D ∧ d2 = 0x2D ∧ tt = 0x54 ∧ c1 = 0x3A ∧ c2 = 0x3A then
          let frac : Bytes := fracDigits rest
          let tail : Bytes := if frac = [] then rest else rest.drop (frac.length + 1)
          match parseZone tail with
          | some off =>
            some { year := year, month := month, day := day, hour := hour, minute := min,
                   second := sec, nsec := parseNanoseconds frac, offset := off, mono := none }
          | none => none
        else none
      | _, _, _, _ => none
    | _, _ => none
  | _ => none

/-- Go: `Time.UnmarshalJSON(data)` on the raw bytes of a JSON string value
(the bytes between the quotes are parsed as they stand, without unescaping). -/
def UnmarshalJSON (raw : Bytes) : Option Time := parseRFC3339 raw

end GoTime

/-! ## encoding/json: literals -/

namespace Json

open Go

/-- Value of a hexadecimal digit. -/
def hexVal (c : Nat) : Option Nat :=
  if 0x30 ≤ c ∧ c ≤ 0x39 then some (c - 0x30)
  else if 0x61 ≤ c ∧ c ≤ 0x66 then some (c - 0x61 + 10)
  else if 0x41 ≤ c ∧ c ≤ 0x46 then some (c - 0x41 + 10)
  else none

/-- Go: `getu4`: the rune of a leading `\uXXXX` escape, if there is one. -/
def getu4 : Bytes → Option Nat
  | 0x5C :: 0x75 :: h1 :: h2 :: h3 :: h4 :: _ =>
    match hexVal h1, hexVal h2, hexVal h3, hexVal h4 with
    | some a, some b, some c, some d => some (a * 4096 + b * 256 + c * 16 + d)
    | _, _, _, _ => none
  | _ => none

/-- Go: `utf16.IsSurrogate`. -/
def isSurrogate (r : Nat) : Bool := 0xD800 ≤ r && r < 0xE000

/-- Go: `utf16.DecodeRune`: the rune of a surrogate pair, or U+FFFD. -/
def utf16DecodeRune (r1 r2 : Nat) : Nat :=
  if 0xD800 ≤ r1 ∧ r1 < 0xDC00 ∧ 0xDC00 ≤ r2 ∧ r2 < 0xE000 then
    (r1 - 0xD800) * 1024 + (r2 - 0xDC00) + 0x10000
  else RuneError

/-- Go: one iteration of the main loop of `unquoteBytes`: the bytes written
and the input left, or `none` when the text is not a valid string body. An
escape is resolved; any other rune is decoded and re-encoded, which coerces
invalid UTF-8 to U+FFFD. -/
def unquoteStep : Bytes → Option (Bytes × Bytes)
  | [] => none
  | c :: rest =>
    if c = 0x5C then
      match rest with
      | [] => none
      | e :: rest1 =>
        if e = 0x22 ∨ e = 0x5C ∨ e = 0x2F ∨ e = 0x27 then some ([e], rest1)
        else if e = 0x62 then some ([0x08], rest1)
        else if e = 0x66 then some ([0x0C], rest1)
        else if e = 0x6E then some ([0x0A], rest1)
        else if e = 0x72 then some ([0x0D], rest1)
        else if e = 0x74 then some ([0x09], rest1)
        else if e = 0x75 then
          match getu4 (c :: rest) with
          | none => none
          | some rr =>
            if isSurrogate rr then
              match getu4 (rest1.drop 4) with
              | some rr1 =>
                if utf16DecodeRune rr rr1 ≠ RuneError then
                  some (encodeRune (utf16DecodeRune rr rr1), rest1.drop 10)
                else some (encodeRune RuneError, rest1.drop 4)
              | none => some (encodeRune RuneError, rest1.drop 4)
            else some (encodeRune rr, rest1.drop 4)
        else none
    else if c = 0x22 ∨ c < 0x20 then none
    else if c < 0x80 then some ([c], rest)
    else
      some (encodeRune (decodeRune (c :: rest)).1, (c :: rest).drop (decodeRune (c :: rest)).2)

/-- Go: the main loop of `unquoteBytes` over the bytes between the quotes. -/
def unquoteAux : Nat → Bytes → Option Bytes
  | _, [] => some []
  | 0, _ :: _ => none
  | fuel + 1, c :: rest =>
    match unquoteStep (c :: rest) with
    | none => none
    | some (out, rest1) => (unquoteAux fuel rest1).map (out ++ ·)

/-- Go: `unquoteBytes` applied to a string literal whose body is `raw`. -/
def unquote (raw : Bytes) : Option Bytes := unquoteAux raw.length raw

/-- Value of a non-empty run of decimal digits. -/
def parseDigits (ds : Bytes) : Option Nat :=
  if ds ≠ [] ∧ ds.all isDigit then some (ds.foldl (fun acc c => acc * 10 + (c - 0x30)) 0)
  else none

/-- Go: `strconv.ParseInt(lit, 10, 64)` on a JSON number literal: it must be
an optionally negated run of digits whose value fits in 64 bits. -/
def parseInt (lit : Bytes) : Option Int :=
  match lit with
  | [] => none
  | c :: ds =>
    if c = 0x2D then
      match parseDigits ds with
      | some n => if n ≤ 2 ^ 63 then some (-(n : Int)) else none
      | none => none
    else
      match parseDigits (c :: ds) with
      | some n => if n < 2 ^ 63 then some (n : Int) else none
      | none => none

/-- Go: `foldName` on a key, as far as it can matter for ASCII field names:
ASCII letters fold to upper case, and so do U+017F (to `S`) and U+212A (to `K`). -/
def foldName : Bytes → Bytes
  | [] => []
  | 0xC5 :: 0xBF :: rest => 0x53 :: foldName rest
  | 0xE2 :: 0x84 :: 0xAA :: rest => 0x4B :: foldName rest
  | c :: rest => (if 0x61 ≤ c ∧ c ≤ 0x7A then c - 0x20 else c) :: foldName rest

/-- Decimal digits of a natural number, most significant first. -/
def natDigitsAux : Nat → Nat → Bytes → Bytes
  | 0, _, acc => acc
  | fuel + 1, n, acc =>
    if n < 10 then (0x30 + n) :: acc
    else natDigitsAux fuel (n / 10) ((0x30 + n % 10) :: acc)

/-- Decimal digits of a natural number. -/
def natDigits (n : Nat) : Bytes := natDigitsAux (n + 1) n []

/-- Go: `strconv.AppendInt(b, n, 10)`. -/
def appendInt (n : Int) : Bytes :=
  if n < 0 then 0x2D :: natDigits n.natAbs else natDigits n.natAbs

/-- Go: `htmlSafeSet`: the ASCII bytes `appendString` copies unescaped. -/
def htmlSafe (b : Nat) : Bool :=
  0x20 ≤ b && b < 0x80 && b ≠ 0x22 && b ≠ 0x5C && b ≠ 0x3C && b ≠ 0x3E && b ≠ 0x26

/-- Lower-case hexadecimal digit. -/
def hexDigit (n : Nat) : Nat := if n % 16 < 10 then 0x30 + n % 16 else 0x61 + (n % 16 - 10)

/-- Go: one iteration of the loop of `appendString(dst, src, true)` on input
`b :: rest`: the bytes written and the input left. Invalid UTF-8 bytes are
written as the escape of U+FFFD. -/
def escapeStep (b : Nat) (rest : Bytes) : Bytes × Bytes :=
  if b < 0x80 then
    if htmlSafe b then ([b], rest)
    else if b = 0x5C ∨ b = 0x22 then ([0x5C, b], rest)
    else if b = 0x08 then ([0x5C, 0x62], rest)
    else if b = 0x0C then ([0x5C, 0x66], rest)
    else if b = 0x0A then ([0x5C, 0x6E], rest)
    else if b = 0x0D then ([0x5C, 0x72], rest)
    else if b = 0x09 then ([0x5C, 0x74], rest)
    else ([0x5C, 0x75, 0x30, 0x30, hexDigit (b / 16), hexDigit b], rest)
  else if (decodeRune (b :: rest)).1 = RuneError ∧ (decodeRune (b :: rest)).2 = 1 then
    ([0x5C, 0x75, 0x66, 0x66, 0x66, 0x64], rest)
  else if (decodeRune (b :: rest)).1 = 0x2028 ∨ (decodeRune (b :: rest)).1 = 0x2029 then
    ([0x5C, 0x75, 0x32, 0x30, 0x32, hexDigit (decodeRune (b :: rest)).1],
     (b :: rest).drop (decodeRune (b :: rest)).2)
  else ((b :: rest).take (decodeRune (b :: rest)).2, (b :: rest).drop (decodeRune (b :: rest)).2)

/-- Go: the loop of `appendString(dst, src, true)`: the escaped body of the
JSON string for `src`. -/
def escapeAux : Nat → Bytes → Bytes
  | _, [] => []
  | 0, _ :: _ => []
  | fuel + 1, b :: rest => (escapeStep b rest).1 ++ escapeAux fuel (escapeStep b rest).2

/-- Go: `appendString(dst, src, true)`: the quoted, escaped JSON string. -/
def appendString (src : Bytes) : Bytes := [0x22] ++ escapeAux src.length src ++ [0x22]

end Json

/-! ## models

`products/internal/models`. The reader imports `notifications/internal/models`,
whose `ProductEvent` and `Product` declare the same wire schema; both services
are modelled with the one pair of types below. -/

namespace Models

open Go

/-- Go: `models.Product`, with JSON members `id`, `name`, `description`,
`price` (each `omitempty`) and `created_at`. -/
structure Product where
  ID : Bytes
  Name : Bytes
  Description : Bytes
  Price : Int
  CreatedAt : GoTime.Time
  deriving DecidableEq, Repr

/-- Go: `models.ProductCreated`. -/
def ProductCreated : Bytes := str "product_created"

/-- Go: `models.ProductDeleted`. -/
def ProductDeleted : Bytes := str "product_deleted"

/-- Go: `models.ProductEvent`, with JSON members `event_type`, `product`
(a pointer) and `timestamp`. -/
structure ProductEvent where
  EventType : Bytes
  Product : Option Product
  Timestamp : GoTime.Time
  deriving DecidableEq, Repr

/-- The zero `Product{}`. -/
def Product.zero : Product :=
  { ID := [], Name := [], Description := [], Price := 0, CreatedAt := GoTime.zero }

/-- The zero `ProductEvent{}` that `var event models.ProductEvent` declares. -/
def ProductEvent.zero : ProductEvent :=
  { EventType := [], Product := none, Timestamp := GoTime.zero }

/-- The event as its JSON text states it: the timestamps without their
monotonic clock readings. -/
def ProductEvent.onWire (ev : ProductEvent) : ProductEvent :=
  { EventType := ev.EventType,
    Product := ev.Product.map (fun p => { p with CreatedAt := p.CreatedAt.stripMonotonic }),
    Timestamp := ev.Timestamp.stripMonotonic }

/-- The value is one a Go `Product` can hold: strings of bytes, a 64-bit
price and a proper `time.Time`. -/
def Product.WF (p : Product) : Prop :=
  Bytes.WF p.ID ∧ Bytes.WF p.Name ∧ Bytes.WF p.Description ∧
  -(2 : Int) ^ 63 ≤ p.Price ∧ p.Price < (2 : Int) ^ 63 ∧ p.CreatedAt.WF

/-- The value is one a Go `ProductEvent` can hold. -/
def ProductEvent.WF (ev : ProductEvent) : Prop :=
  Bytes.WF ev.EventType ∧ (∀ p, ev.Product = some p → p.WF) ∧ ev.Timestamp.WF

/-- Every string of the event is valid UTF-8. -/
def ProductEvent.ValidText (ev : ProductEvent) : Prop :=
  validUTF8 ev.EventType = true ∧
  ∀ p, ev.Product = some p →
    validUTF8 p.ID = true ∧ validUTF8 p.Name = true ∧ validUTF8 p.Description = true

/-- Every timestamp of the event has a zone offset of whole minutes. -/
def ProductEvent.WholeMinuteZones (ev : ProductEvent) : Prop :=
  ev.Timestamp.offset % 60 = 0 ∧ ∀ p, ev.Product = some p → p.CreatedAt.offset % 60 = 0

/-- Two products agree: same id, name, description and price, and creation
times denoting the same instant. -/
def Product.Same (a b : Product) : Prop :=
  a.ID = b.ID ∧ a.Name = b.Name ∧ a.Description = b.Description ∧ a.Price = b.Price ∧
  a.CreatedAt.Equal b.CreatedAt

/-- Two events are equal in the sense of the round-trip law: same event type,
same product fields, and timestamps denoting the same instants. -/
def ProductEvent.Same (a b : ProductEvent) : Prop :=
  a.EventType = b.EventType ∧
  (match a.Product, b.Product with
   | none, none => True
   | some p, some q => p.Same q
   | _, _ => False) ∧
  a.Timestamp.Equal b.Timestamp

instance (a b : Product) : Decidable (a.Same b) := by unfold Product.Same; infer_instance

instance (a b : ProductEvent) : Decidable (a.Same b) := by
  unfold ProductEvent.Same
  cases a.Product <;> cases b.Product <;> infer_instance

end Models

/-! ## encoding/json: decoding into and encoding from the models -/

namespace Json

open Go Models

/-- The errors `json.Unmarshal` returns. -/
inductive UnmarshalError where
  /-- Go: `*json.SyntaxError`: the input is not one JSON value. -/
  | syntaxError
  /-- Go: `*json.UnmarshalTypeError`: a JSON value of kind `value` cannot be
  stored in the Go field `field`. -/
  | type (value : String) (field : String)
  /-- The error of `Time.UnmarshalJSON` for member `field`. -/
  | time (field : String)
  deriving DecidableEq, Repr

/-- The `Value` description of an `UnmarshalTypeError`. -/
def Value.kind : Value → String
  | Value.null => "null"
  | Value.bool _ => "bool"
  | Value.num _ => "number"
  | Value.str _ => "string"
  | Value.arr _ => "array"
  | Value.obj _ => "object"

/-- Go: `d.saveError`: only the first error is kept. -/
def saveError (saved : Option UnmarshalError) (err : UnmarshalError) : Option UnmarshalError :=
  match saved with
  | some e => some e
  | none => some err

/-- Store a JSON value in a Go `string` field: a string is unquoted and
stored, `null` leaves the field alone, anything else is a type error that is
saved while decoding goes on. -/
def storeString (field : String) (v : Value) (cur : Bytes) (saved : Option UnmarshalError) :
    Bytes × Option UnmarshalError :=
  match v with
  | Value.null => (cur, saved)
  | Value.str raw =>
    match unquote raw with
    | some s => (s, saved)
    | none => (cur, saveError saved UnmarshalError.syntaxError)
  | other => (cur, saveError saved (UnmarshalError.type other.kind field))

/-- Store a JSON value in a Go `int` field: a number must pass
`strconv.ParseInt`; `null` leaves the field alone. -/
def storeInt (field : String) (v : Value) (cur : Int) (saved : Option UnmarshalError) :
    Int × Option UnmarshalError :=
  match v with
  | Value.null => (cur, saved)
  | Value.num lit =>
    match parseInt lit with
    | some n => (n, saved)
    | none => (cur, saveError saved (UnmarshalError.type "number" field))
  | other => (cur, saveError saved (UnmarshalError.type other.kind field))

/-- Store a JSON value in a `time.Time` field through `Time.UnmarshalJSON`:
`null` leaves the field alone, a string must parse as RFC 3339, and any
failure ends decoding at once. -/
def storeTime (field : String) (v : Value) (cur : GoTime.Time) :
    Except UnmarshalError GoTime.Time :=
  match v with
  | Value.null => Except.ok cur
  | Value.str raw =>
    match GoTime.UnmarshalJSON raw with
    | some t => Except.ok t
    | none => Except.error (UnmarshalError.time field)
  | _ => Except.error (UnmarshalError.time field)

/-- The unquoted, case-folded name of an object key. -/
def keyName (rawKey : Bytes) : Bytes := foldName ((unquote rawKey).getD rawKey)

/-- Decode one member of a JSON object into a `Product`. Keys select fields
by name ignoring case; unknown keys are skipped. -/
def decodeProductMember (st : Product × Option UnmarshalError) (m : Bytes × Value) :
    Except UnmarshalError (Product × Option UnmarshalError) :=
  let (p, saved) := st
  let key := keyName m.1
  if key = foldName (str "id") then
    let r := storeString "Product.id" m.2 p.ID saved
    Except.ok ({ p with ID := r.1 }, r.2)
  else if key = foldName (str "name") then
    let r := storeString "Product.name" m.2 p.Name saved
    Except.ok ({ p with Name := r.1 }, r.2)
  else if key = foldName (str "description") then
    let r := storeString "Product.description" m.2 p.Description saved
    Except.ok ({ p with Description := r.1 }, r.2)
  else if key = foldName (str "price") then
    let r := storeInt "Product.price" m.2 p.Price saved
    Except.ok ({ p with Price := r.1 }, r.2)
  else if key = foldName (str "created_at") then
    match storeTime "Product.created_at" m.2 p.CreatedAt with
    | Except.ok t => Except.ok ({ p with CreatedAt := t }, saved)
    | Except.error e => Except.error e
  else Except.ok (p, saved)

/-- Decode the members of a JSON object into a `Product`, in input order. -/
def decodeProductMembers :
    List (Bytes × Value) → Product × Option UnmarshalError →
    Except UnmarshalError (Product × Option UnmarshalError)
  | [], st => Except.ok st
  | m :: ms, st =>
    match decodeProductMember st m with
    | Except.ok st1 => decodeProductMembers ms st1
    | Except.error e => Except.error e

/-- Store a JSON value in the `*Product` field: `null` sets the pointer to
nil, an object is decoded into the pointed-to product (allocated when the
pointer is nil), anything else allocates and saves a type error. -/
def storeProduct (v : Value) (cur : Option Product) (saved : Option UnmarshalError) :
    Except UnmarshalError (Option Product × Option UnmarshalError) :=
  match v with
  | Value.null => Except.ok (none, saved)
  | Value.obj members =>
    match decodeProductMembers members (cur.getD Product.zero, saved) with
    | Except.ok (p, saved1) => Except.ok (some p, saved1)
    | Except.error e => Except.error e
  | other =>
    Except.ok (some (cur.getD Product.zero),
      saveError saved (UnmarshalError.type other.kind "ProductEvent.product"))

/-- Decode one member of the top-level JSON object into a `ProductEvent`. -/
def decodeEventMember (st : ProductEvent × Option UnmarshalError) (m : Bytes × Value) :
    Except UnmarshalError (ProductEvent × Option UnmarshalError) :=
  let (ev, saved) := st
  let key := keyName m.1
  if key = foldName (str "event_type") then
    let r := storeString "ProductEvent.event_type" m.2 ev.EventType saved
    Except.ok ({ ev with EventType := r.1 }, r.2)
  else if key = foldName (str "product") then
    match storeProduct m.2 ev.Product saved with
    | Except.ok (p, saved1) => Except.ok ({ ev with Product := p }, saved1)
    | Except.error e => Except.error e
  else if key = foldName (str "timestamp") then
    match storeTime "ProductEvent.timestamp" m.2 ev.Timestamp with
    | Except.ok t => Except.ok ({ ev with Timestamp := t }, saved)
    | Except.error e => Except.error e
  else Except.ok (ev, saved)

/-- Decode the members of the top-level JSON object, in input order. -/
def decodeEventMembers :
    List (Bytes × Value) → ProductEvent × Option UnmarshalError →
    Except UnmarshalError (ProductEvent × Option UnmarshalError)
  | [], st => Except.ok st
  | m :: ms, st =>
    match decodeEventMember st m with
    | Except.ok st1 => decodeEventMembers ms st1
    | Except.error e => Except.error e

/-- Go: `d.value` at the top level with a `*ProductEvent` destination: `null`
stores nothing, an object is decoded member by member, any other value is a
type error. The result is the filled event, or the error `Unmarshal` returns. -/
def decodeEvent (v : Value) (ev : ProductEvent) : Except UnmarshalError ProductEvent :=
  match v with
  | Value.null => Except.ok ev
  | Value.obj members =>
    match decodeEventMembers members (ev, none) with
    | Except.ok (ev1, none) => Except.ok ev1
    | Except.ok (_, some e) => Except.error e
    | Except.error e => Except.error e
  | other => Except.error (UnmarshalError.type other.kind "ProductEvent")

/-- Go: `json.Unmarshal(message, &event)` for `var event models.ProductEvent`:
the decoded event, or the returned error. -/
def Unmarshal (data : Bytes) : Except UnmarshalError ProductEvent :=
  match parse data with
  | none => Except.error UnmarshalError.syntaxError
  | some v => decodeEvent v ProductEvent.zero

/-- Join object members with commas. -/
def joinMembers : List Bytes → Bytes
  | [] => []
  | [m] => m
  | m :: ms => m ++ [0x2C] ++ joinMembers ms

/-- One object member as `json.Marshal` writes it: the quoted name, a colon
and the encoded value. -/
def member (name : String) (value : Bytes) : Bytes :=
  [0x22] ++ str name ++ [0x22, 0x3A] ++ value

/-- Go: the JSON object `json.Marshal` writes for a `models.Product`: members
in field order, each `omitempty` member left out when its field is the empty
string or zero; `none` when `CreatedAt.MarshalJSON` fails. -/
def marshalProduct (p : Product) : Option Bytes :=
  match GoTime.MarshalJSON p.CreatedAt with
  | none => none
  | some createdAt =>
    some ([0x7B] ++ joinMembers (
      (if p.ID = [] then [] else [member "id" (appendString p.ID)]) ++
      (if p.Name = [] then [] else [member "name" (appendString p.Name)]) ++
      (if p.Description = [] then [] else [member "description" (appendString p.Description)]) ++
      (if p.Price = 0 then [] else [member "price" (appendInt p.Price)]) ++
      [member "created_at" createdAt]) ++ [0x7D])

/-- Go: `json.Marshal(event)` for `event *models.ProductEvent`: the encoded
bytes, or `none` when a timestamp cannot be encoded (a `*json.MarshalerError`). -/
def Marshal (ev : ProductEvent) : Option Bytes :=
  let product : Option Bytes :=
    match ev.Product with
    | none => some (str "null")
    | some p => marshalProduct p
  match product, GoTime.MarshalJSON ev.Timestamp with
  | some pj, some ts =>
    some ([0x7B] ++ joinMembers [member "event_type" (appendString ev.EventType),
      member "product" pj, member "timestamp" ts] ++ [0x7D])
  | _, _ => none

/-- Text that a JSON string can hold as it stands: no control byte, quote or backslash. -/
def PlainText (bs : Bytes) : Prop := ∀ x ∈ bs, 0x20 ≤ x ∧ x ≠ 0x22 ∧ x ≠ 0x5C

/-- The bytes `bs`, met where an object member's value is expected and
followed by a comma or closing brace `c`, are scanned as the value `v`,
provided the scanner may still nest `depth` levels deeper. -/
def ScansAs (depth : Nat) (bs : Bytes) (v : Value) : Prop :=
  ∀ (done : List (Bytes × Value)) (key : Bytes) (rest : List Frame) (tok : Bytes)
    (res : Option Value) (c : Nat),
    rest.length + 1 + depth ≤ maxNestingDepth → (c = 0x2C ∨ c = 0x7D) →
    Scanner.run ⟨Step.beginValue, Frame.objectValue done key :: rest, tok, res⟩ (bs ++ [c]) =
      Scanner.endValue
        ⟨Step.endValue, Frame.objectValue (done ++ [(key, v)]) key :: rest, [], res⟩ c

/-- One member to encode: its name, its encoded value and the value the
scanner reads for it. -/
abbrev MemberSpec := String × Bytes × Value

/-- The members `marshalProduct` writes for `p`, whose `created_at` text is `rfc`. -/
def productMembers (p : Product) (rfc : Bytes) : List MemberSpec :=
  (if p.ID = [] then [] else
    [("id", appendString p.ID, Value.str (escapeAux p.ID.length p.ID))]) ++
  (if p.Name = [] then [] else
    [("name", appendString p.Name, Value.str (escapeAux p.Name.length p.Name))]) ++
  (if p.Description = [] then [] else
    [("description", appendString p.Description,
      Value.str (escapeAux p.Description.length p.Description))]) ++
  (if p.Price = 0 then [] else [("price", appendInt p.Price, Value.num (appendInt p.Price))]) ++
  [("created_at", [0x22] ++ rfc ++ [0x22], Value.str rfc)]

/-- The value of the first member whose key, as written, is `name`. -/
def lookupMember (name : Bytes) : List (Bytes × Value) → Option Value
  | [] => none
  | m :: rest => if m.1 = name then some m.2 else lookupMember name rest

/-- The value of member `name` of a JSON object; `none` when the member is
missing or the value is not an object. -/
def Value.get (v : Value) (name : String) : Option Value :=
  match v with
  | Value.obj members => lookupMember (Go.str name) members
  | _ => none

/-- The kind of member `name` of a JSON object, when it has that member. -/
def Value.memberKind (v : Value) (name : String) : Option String :=
  (v.get name).map Value.kind

/-- The wire schema of an event as the specification lists it: the text is a
JSON object with members `event_type` (a string), `product` (an object) and
`timestamp` (a string), and the product object has members `id`, `name`,
`description` (strings), `price` (a number) and `created_at` (a string). -/
def hasWireSchema (b : Bytes) : Bool :=
  match parse b with
  | none => false
  | some v =>
    match v.get "product" with
    | none => false
    | some p =>
      v.memberKind "event_type" == some "string" && p.kind == "object" &&
      v.memberKind "timestamp" == some "string" &&
      p.memberKind "id" == some "string" && p.memberKind "name" == some "string" &&
      p.memberKind "description" == some "string" && p.memberKind "price" == some "number" &&
      p.memberKind "created_at" == some "string"

end Json

/-! ## Errors, call outcomes and logs -/

namespace Go

/-- One failed check of the struct validator behind gin's bindings: the
namespace of the field (such as `CreateProductDTO.Name`), the field and the
tag of the check that failed. -/
structure FieldError where
  ns : String
  field : String
  tag : String
  deriving DecidableEq, Repr

/-- A Go `error` value, by origin. -/
inductive Error where
  /-- An error returned by `json.Unmarshal`. -/
  | unmarshal (e : Json.UnmarshalError)
  /-- The error `json.Marshal` returns when a `MarshalJSON` method fails. -/
  | marshal
  /-- An error made by `errors.New` or by `fmt.Errorf` without `%w`. -/
  | new (msg : String)
  /-- Go: `fmt.Errorf(msg + ": %w", inner)`. -/
  | wrap (msg : String) (inner : Error)
  /-- Go: `context.Canceled`. -/
  | canceled
  /-- Go: `context.DeadlineExceeded`. -/
  | deadlineExceeded
  /-- Go: `*apperrors.ErrorNotFound`. -/
  | notFound (id : Bytes)
  /-- Go: a `kafka.Error` with the given code. -/
  | kafka (code : Int)
  /-- Go: `validator.ValidationErrors`, the failed checks in field order. -/
  | validation (errs : List FieldError)
  deriving DecidableEq, Repr

/-- How a Go call ends: it returns a value or it panics. -/
inductive Outcome (α : Type) where
  | ret (a : α)
  | panic
  deriving DecidableEq, Repr

/-- A field of a structured log entry. -/
inductive Field where
  | string (key : String) (value : Bytes)
  | int (key : String) (value : Int)
  | time (key : String) (value : GoTime.Time)
  | error (err : Error)
  deriving DecidableEq, Repr

/-- One `zap` log entry: level, message and fields. -/
structure LogEntry where
  level : String
  msg : String
  fields : List Field
  deriving DecidableEq, Repr

end Go

instance instDecidableEqExcept {ε α : Type} [DecidableEq ε] [DecidableEq α] :
    DecidableEq (Except ε α) := fun x y =>
  match x, y with
  | Except.ok a, Except.ok b =>
    if h : a = b then isTrue (by rw [h]) else isFalse (fun h1 => h (Except.ok.inj h1))
  | Except.error a, Except.error b =>
    if h : a = b then isTrue (by rw [h]) else isFalse (fun h1 => h (Except.error.inj h1))
  | Except.ok _, Except.error _ => isFalse (fun h => Except.noConfusion h)
  | Except.error _, Except.ok _ => isFalse (fun h => Except.noConfusion h)

/-! ## notifications: service and consumer -/

namespace Notifications

open Go Models

/-- Modelled from the spec: the package `notifications/internal/models` is
not among the source files. The specification gives the inbound wire format
the same schema as the outbound one (`event_type`, `product` with `id`,
`name`, `description`, `price`, `created_at`, and `timestamp`), and the
reader reads `EventType`, `Product.Name`, `Product.ID`, `Product.Price` and
`Product.CreatedAt`; the reader's `models.ProductEvent` is taken to be the
writer's. -/
abbrev models.ProductEvent := Models.ProductEvent

/-- Modelled from the spec: the reader's `models.ProductCreated`, the event
type `product_created` of the wire format. -/
abbrev models.ProductCreated : Bytes := Models.ProductCreated

/-- Modelled from the spec: the reader's `models.ProductDeleted`, the event
type `product_deleted` of the wire format. -/
abbrev models.ProductDeleted : Bytes := Models.ProductDeleted

/-- Go: `notificationService.HandleProductEvent`: log the event by type and
return nil. Reading a field of `pEvent.Product` panics when the pointer is nil. -/
def HandleProductEvent (pEvent : models.ProductEvent) : List LogEntry × Outcome (Option Error) :=
  if pEvent.EventType = models.ProductCreated then
    match pEvent.Product with
    | none => ([], Outcome.panic)
    | some p =>
      ([{ level := "info", msg := "PRODUCT CREATED",
          fields := [Field.string "name" p.Name, Field.string "id" p.ID,
                     Field.int "price" p.Price, Field.time "created_at" p.CreatedAt] }],
       Outcome.ret none)
  else if pEvent.EventType = models.ProductDeleted then
    match pEvent.Product with
    | none => ([], Outcome.panic)
    | some p =>
      ([{ level := "info", msg := "PRODUCT DELETED",
          fields := [Field.string "name" p.Name, Field.string "id" p.ID,
                     Field.time "created_at" p.CreatedAt] }],
       Outcome.ret none)
  else
    ([{ level := "warn", msg := "UNKNOWN EVENT TYPE",
        fields := [Field.string "event_type" pEvent.EventType] }],
     Outcome.ret none)

/-- Go: the `service.NotificationService` interface: an implementation of
`HandleProductEvent`, seen as what it answers for each event. -/
abbrev NotificationService := models.ProductEvent → Outcome (Option Error)

/-- What one run of the consumer's message callback did. -/
structure CallbackRun where
  /-- The arguments of the calls to `HandleProductEvent`, in order. -/
  calls : List models.ProductEvent
  /-- The entries the callback itself logged. -/
  logged : List LogEntry
  /-- What the callback returned. -/
  result : Outcome (Option Error)
  deriving DecidableEq, Repr

/-- Go: the closure `Consumer.Start` passes to `broker.Consume`: decode the
message, return the decode error, or hand the event to the service and return
what it returns. -/
def Consumer.callback (service : NotificationService) (message : Bytes) : CallbackRun :=
  match Json.Unmarshal message with
  | Except.error err =>
    { calls := [],
      logged := [{ level := "error", msg := "Failed to unmarshal event",
                   fields := [Field.error (Error.unmarshal err)] }],
      result := Outcome.ret (some (Error.unmarshal err)) }
  | Except.ok event =>
    { calls := [event], logged := [], result := service event }

/-- The payload of the specification's scenario: a `product_created` event for
product `p1` named `Widget` with price 500. -/
def widgetPayload : Bytes :=
  str "\x7b\"event_type\":\"product_created\",\"product\":\x7b\"id\":\"p1\",\"name\":\"Widget\",\"price\":500\x7d\x7d"

/-- The event `widgetPayload` decodes to. -/
def widgetEvent : models.ProductEvent :=
  { EventType := ProductCreated,
    Product := some { ID := str "p1", Name := str "Widget", Description := [], Price := 500,
                      CreatedAt := GoTime.zero },
    Timestamp := GoTime.zero }

end Notifications

/-! ## notifications: the Kafka consumer

`KafkaConsumer.Consume` runs one pump goroutine and `workerCount` worker
goroutines that meet on the unbuffered channel `tasks`. The model is a
transition system: a state records where each goroutine stands, and an action
is one step of one goroutine or of the environment (the context being
cancelled, a poll returning). -/

namespace Notifications

open Go

/-- What `k.consumer.ReadMessage(100 * time.Millisecond)` returned. The
consumer is the Kafka client's `*kafka.Consumer`, whose `ReadMessage` returns
no error other than a `kafka.Error`: the timeout error when no message came
in time, or the error of the event or message it polled. -/
inductive PollResult where
  /-- A message with the given value, and a nil error. -/
  | message (value : Bytes)
  /-- A `kafka.Error` with the given code; the code does not look at the
  message returned with it, if any. -/
  | kafkaError (code : Int)
  /-- A nil message and a nil error. -/
  | nothing
  deriving DecidableEq, Repr

/-- Go: `kafka.ErrTimedOut` (librdkafka's `RD_KAFKA_RESP_ERR__TIMED_OUT`). -/
def ErrTimedOut : Int := -185

/-- Where a worker goroutine stands. -/
inductive WorkerStatus where
  /-- Blocked in `for msg := range tasks`, waiting to receive. -/
  | idle
  /-- Inside `handler(msg.Value)` for the message received. -/
  | handling (msg : Bytes)
  /-- Left the loop because `tasks` was closed; `wg.Done()` has run. -/
  | exited
  deriving DecidableEq, Repr

/-- A worker goroutine: where it stands, the messages it received from
`tasks` and the messages whose handler call it completed, both in order. -/
structure Worker where
  status : WorkerStatus
  received : List Bytes
  completed : List Bytes
  deriving DecidableEq, Repr

/-- Which `return` statement of `Consume` was taken. -/
inductive ReturnPath where
  /-- The `return fmt.Errorf("failed to subscribe ...")` after `Subscribe` failed. -/
  | subscribe
  /-- One of the two `return ctx.Err()` after `ctx.Done()` fired. -/
  | cancelled
  deriving DecidableEq, Repr

/-- Where the pump goroutine (the caller of `Consume`) stands. -/
inductive PumpPC where
  /-- In `for range workerCount`, with `left` iterations to go; with none left,
  about to call `Subscribe`. -/
  | spawning (left : Nat)
  /-- At the outer `select` of the loop. -/
  | loopTop
  /-- Inside `ReadMessage`. -/
  | polling
  /-- At the inner `select`, holding `msg` to send on `tasks`. -/
  | handoff (msg : Bytes)
  /-- Took a `ctx.Done()` case; about to `close(tasks)`. -/
  | closing
  /-- Inside `k.wg.Wait()`. -/
  | waiting
  /-- Returned through `path` with error `err`. -/
  | returned (path : ReturnPath) (err : Option Error)
  deriving DecidableEq, Repr

/-- The arguments and collaborators of one `Consume` call: the worker count,
the configured topic, what `Subscribe` answers and the message handler. -/
structure ConsumeConfig where
  workerCount : Int
  topic : Bytes
  subscribeErr : Option Error
  handler : Bytes → Outcome (Option Error)

/-- The state of one `Consume` call. -/
structure ConsumeState where
  pc : PumpPC
  /-- The worker goroutines started so far. -/
  workers : List Worker
  /-- The counter of `k.wg`. -/
  wg : Int
  /-- Whether `tasks` has been closed. -/
  closed : Bool
  /-- Go: `ctx.Err()`: nil until the context is done. -/
  ctxErr : Option Error
  /-- A goroutine panicked: the process is gone. -/
  crashed : Bool
  logged : List LogEntry
  deriving DecidableEq, Repr

/-- One step of the system. -/
inductive Action where
  /-- The pump takes its next step, where that step is its own to take:
  start a worker, subscribe, evaluate the outer `select`, take the
  `ctx.Done()` case of the inner `select`, close `tasks`, leave `wg.Wait()`. -/
  | pump
  /-- `ReadMessage` returns. -/
  | poll (r : PollResult)
  /-- The send case of the inner `select`: worker `i` receives the message. -/
  | send (i : Nat)
  /-- The context becomes done with the given `ctx.Err()`
  (`context.Canceled` for an explicit cancel). -/
  | ctxDone (err : Error)
  /-- The handler call of worker `i` ends. -/
  | handlerReturn (i : Nat)
  /-- Worker `i` finds `tasks` closed and returns. -/
  | workerExit (i : Nat)
  deriving DecidableEq, Repr

/-- The state in which `Consume` is entered, on a consumer whose wait group is at zero. -/
def ConsumeState.init (cfg : ConsumeConfig) : ConsumeState :=
  { pc := PumpPC.spawning cfg.workerCount.toNat, workers := [], wg := 0, closed := false,
    ctxErr := none, crashed := false, logged := [] }

/-- The entry both `ctx.Done()` cases log. -/
def stoppingEntry : LogEntry :=
  { level := "info", msg := "Stopping Kafka consumer...", fields := [] }

/-- The entry logged after a successful `Subscribe`. -/
def startedEntry (topic : Bytes) : LogEntry :=
  { level := "info", msg := "Started consuming messages from topic",
    fields := [Field.string "topic" topic] }

/-- The entry logged for a poll error other than a timeout. -/
def consumerErrorEntry (code : Int) : LogEntry :=
  { level := "error", msg := "Consumer error", fields := [Field.error (Error.kafka code)] }

/-- The entry a worker logs when the handler returns an error. -/
def processErrorEntry (err : Error) (msg : Bytes) : LogEntry :=
  { level := "error", msg := "Failed to process message",
    fields := [Field.error err, Field.string "message" msg] }

/-- Go: `KafkaConsumer.Consume`, the caller's goroutine: its next step where
that step is its own to take. In order: `k.wg.Add(1)` and `go func()` once per
worker; `Subscribe`, returning the wrapped error on failure; the outer
`select` on `ctx.Done()` with `ReadMessage` as default; the `ctx.Done()` case
of the inner `select`; `close(tasks)`; `k.wg.Wait()` and `return ctx.Err()`. -/
def pumpStep (cfg : ConsumeConfig) (s : ConsumeState) : Option ConsumeState :=
  match s.pc with
  | PumpPC.spawning (left + 1) =>
    some { s with pc := PumpPC.spawning left, wg := s.wg + 1,
                  workers := s.workers ++ [{ status := WorkerStatus.idle, received := [],
                                             completed := [] }] }
  | PumpPC.spawning 0 =>
    match cfg.subscribeErr with
    | some err =>
      some { s with pc := PumpPC.returned ReturnPath.subscribe
                      (some (Error.wrap "failed to subscribe to topic" err)) }
    | none =>
      some { s with pc := PumpPC.loopTop, logged := s.logged ++ [startedEntry cfg.topic] }
  | PumpPC.loopTop =>
    if s.ctxErr.isSome then
      some { s with pc := PumpPC.closing, logged := s.logged ++ [stoppingEntry] }
    else some { s with pc := PumpPC.polling }
  | PumpPC.handoff _ =>
    if s.ctxErr.isSome then
      some { s with pc := PumpPC.closing, logged := s.logged ++ [stoppingEntry] }
    else none
  | PumpPC.closing => some { s with pc := PumpPC.waiting, closed := true }
  | PumpPC.waiting =>
    if s.wg = 0 then some { s with pc := PumpPC.returned ReturnPath.cancelled s.ctxErr }
    else none
  | _ => none

/-- Go: `KafkaConsumer.Consume` when `ReadMessage` returns `r`: a message goes to the
inner `select`; on an error the type assertion `err.(kafka.Error)` holds, a
timeout is retried silently and any other code after logging; a nil message
with a nil error is retried. -/
def pollStep (s : ConsumeState) (r : PollResult) : Option ConsumeState :=
  match s.pc with
  | PumpPC.polling =>
    match r with
    | PollResult.message value => some { s with pc := PumpPC.handoff value }
    | PollResult.kafkaError code =>
      if code = ErrTimedOut then some { s with pc := PumpPC.loopTop }
      else some { s with pc := PumpPC.loopTop, logged := s.logged ++ [consumerErrorEntry code] }
    | PollResult.nothing => some { s with pc := PumpPC.loopTop }
  | _ => none

/-- Go: `case tasks <- msg` of `KafkaConsumer.Consume` meeting the
`for msg := range tasks` of worker `i`: the worker, waiting to receive on the
open channel, takes the message and the pump goes back to the outer `select`. -/
def sendStep (s : ConsumeState) (i : Nat) : Option ConsumeState :=
  match s.pc, s.workers.get? i with
  | PumpPC.handoff msg, some w =>
    if w.status = WorkerStatus.idle ∧ s.closed = false then
      some { s with pc := PumpPC.loopTop,
                    workers := s.workers.set i { w with status := WorkerStatus.handling msg,
                                                        received := w.received ++ [msg] } }
    else none
  | _, _ => none

/-- Go: the worker goroutine of `KafkaConsumer.Consume` when `handler(msg.Value)`
ends for worker `i`: a returned error is logged and the worker goes back to
receiving; a panic takes the process down. -/
def handlerReturnStep (cfg : ConsumeConfig) (s : ConsumeState) (i : Nat) : Option ConsumeState :=
  match s.workers.get? i with
  | some w =>
    match w.status with
    | WorkerStatus.handling msg =>
      match cfg.handler msg with
      | Outcome.panic => some { s with crashed := true }
      | Outcome.ret err =>
        some { s with
          workers := s.workers.set i { w with status := WorkerStatus.idle,
                                              completed := w.completed ++ [msg] },
          logged := match err with
            | some e => s.logged ++ [processErrorEntry e msg]
            | none => s.logged }
    | _ => none
  | none => none

/-- Go: the worker goroutine of `KafkaConsumer.Consume` when worker `i`,
waiting to receive, finds `tasks` closed: its loop ends and the deferred
`k.wg.Done()` runs. -/
def workerExitStep (s : ConsumeState) (i : Nat) : Option ConsumeState :=
  match s.workers.get? i with
  | some w =>
    if w.status = WorkerStatus.idle ∧ s.closed = true then
      some { s with workers := s.workers.set i { w with status := WorkerStatus.exited },
                    wg := s.wg - 1 }
    else none
  | none => none

/-- One step: the state after action `a`, or `none` when `a` cannot happen
in `s`. Nothing happens after a panic. -/
def step (cfg : ConsumeConfig) (s : ConsumeState) (a : Action) : Option ConsumeState :=
  if s.crashed then none
  else
    match a with
    | Action.pump => pumpStep cfg s
    | Action.poll r => pollStep s r
    | Action.send i => sendStep s i
    | Action.ctxDone err =>
      match s.ctxErr with
      | none => some { s with ctxErr := some err }
      | some _ => none
    | Action.handlerReturn i => handlerReturnStep cfg s i
    | Action.workerExit i => workerExitStep s i

/-- The state after a sequence of actions, when each can happen in turn. -/
def run (cfg : ConsumeConfig) : ConsumeState → List Action → Option ConsumeState
  | s, [] => some s
  | s, a :: rest =>
    match step cfg s a with
    | some s1 => run cfg s1 rest
    | none => none

/-- The number of workers that have not exited. -/
def liveCount : List Worker → Nat
  | [] => 0
  | w :: ws => (if w.status = WorkerStatus.exited then 0 else 1) + liveCount ws

/-- A worker's record is consistent: it has completed the handler call for
every message it received, except the one it is handling. -/
def Worker.OK (w : Worker) : Prop :=
  match w.status with
  | WorkerStatus.handling msg => w.received = w.completed ++ [msg]
  | _ => w.received = w.completed

/-- The iterations of the spawn loop still to run. -/
def PumpPC.spawnLeft : PumpPC → Nat
  | PumpPC.spawning left => left
  | _ => 0

/-- The invariant of `Consume`: worker records are consistent, the wait group
counts the workers that have not exited, the workers started and still to
start add up to the worker count, and the pump is past `close(tasks)` only
with the context done and past `wg.Wait()` only with the counter at zero. -/
def ConsumeState.Inv (cfg : ConsumeConfig) (s : ConsumeState) : Prop :=
  (∀ w ∈ s.workers, w.OK) ∧
  s.wg = (liveCount s.workers : Int) ∧
  s.workers.length + s.pc.spawnLeft = cfg.workerCount.toNat ∧
  (s.pc = PumpPC.closing → s.ctxErr.isSome = true) ∧
  (s.pc = PumpPC.waiting → s.ctxErr.isSome = true ∧ s.closed = true) ∧
  (∀ err, s.pc = PumpPC.returned ReturnPath.cancelled err →
    s.ctxErr.isSome = true ∧ s.closed = true ∧ s.wg = 0 ∧ err = s.ctxErr)

/-- Go: the `k.wg.Wait()` that opens `KafkaConsumer.Close` returns in state `s`. -/
def closeWaitReturns (s : ConsumeState) : Prop := s.wg = 0

/-- The handoffs of a run: for each step in which the pump's message went
through `tasks`, the index of the worker that received it and the message,
in order. -/
def handoffs (cfg : ConsumeConfig) : ConsumeState → List Action → List (Nat × Bytes)
  | _, [] => []
  | s, a :: rest =>
    match step cfg s a with
    | none => []
    | some s1 =>
      match a, s.pc with
      | Action.send i, PumpPC.handoff msg => (i, msg) :: handoffs cfg s1 rest
      | _, _ => handoffs cfg s1 rest

/-- The messages handed to worker `i` in a run, in order. -/
def handedTo (cfg : ConsumeConfig) (s : ConsumeState) (acts : List Action) (i : Nat) :
    List Bytes :=
  ((handoffs cfg s acts).filter (fun p => p.1 = i)).map (fun p => p.2)

/-- The messages worker `i` received; none when no such worker was started. -/
def receivedBy (ws : List Worker) (i : Nat) : List Bytes :=
  match ws.get? i with
  | some w => w.received
  | none => []

/-- Whether the action is a poll that returns a message: 1 if so. -/
def Action.pulls : Action → Nat
  | Action.poll (PollResult.message _) => 1
  | _ => 0

/-- The number of messages pulled from the broker in a run. -/
def pulled : List Action → Nat
  | [] => 0
  | a :: rest => a.pulls + pulled rest

/-- Whether the worker is inside a handler call. -/
def Worker.handling (w : Worker) : Bool :=
  match w.status with
  | WorkerStatus.handling _ => true
  | _ => false

/-- The number of workers inside a handler call. -/
def handlingCount : List Worker → Nat
  | [] => 0
  | w :: ws => (if w.handling then 1 else 0) + handlingCount ws

/-- The number of handler calls that have finished. -/
def completedCount : List Worker → Nat
  | [] => 0
  | w :: ws => w.completed.length + completedCount ws

/-- The number of messages the pump holds at the inner `select`. -/
def PumpPC.held : PumpPC → Nat
  | PumpPC.handoff _ => 1
  | _ => 0

/-- One for a pump that holds a message or has left the loop through a
`ctx.Done()` case, where it may have dropped the message it held. -/
def PumpPC.slack : PumpPC → Nat
  | PumpPC.handoff _ => 1
  | PumpPC.closing => 1
  | PumpPC.waiting => 1
  | PumpPC.returned ReturnPath.cancelled _ => 1
  | _ => 0

/-- The flow bound: of the `n` messages pulled so far, every finished or
running handler call and the message the pump holds account for one each,
and at most one more message is unaccounted for. -/
def ConsumeState.Flow (s : ConsumeState) (n : Nat) : Prop :=
  completedCount s.workers + handlingCount s.workers + s.pc.held ≤ n ∧
  n ≤ completedCount s.workers + handlingCount s.workers + s.pc.slack

/-- A worker has exited only with the channel closed, and the channel is
closed only with the pump in `wg.Wait()` or returned through a `ctx.Done()` case. -/
def ConsumeState.Closing (s : ConsumeState) : Prop :=
  (∀ w ∈ s.workers, w.status = WorkerStatus.exited → s.closed = true) ∧
  (s.closed = true →
    s.pc = PumpPC.waiting ∨ ∃ err, s.pc = PumpPC.returned ReturnPath.cancelled err)

/-- The pump has subscribed and entered its loop, or left it through a
`ctx.Done()` case. -/
def PumpPC.pastSubscribe : PumpPC → Bool
  | PumpPC.spawning _ => false
  | PumpPC.returned ReturnPath.subscribe _ => false
  | _ => true

/-- The connection is in use: the pump is inside `ReadMessage` or a worker is
inside a handler call. -/
def ConsumeState.busy (s : ConsumeState) : Bool :=
  decide (s.pc = PumpPC.polling) || s.workers.any Worker.handling

/-- The pump will not poll again and no worker is or will be handling: the
context is done, the pump is neither inside `ReadMessage` nor holding a
message, and no worker is inside a handler call. -/
def ConsumeState.Quiet (s : ConsumeState) : Prop :=
  s.ctxErr.isSome = true ∧ s.pc ≠ PumpPC.polling ∧ (∀ msg, s.pc ≠ PumpPC.handoff msg) ∧
  ∀ w ∈ s.workers, w.handling = false

end Notifications

/-! ## products: service and broker -/

namespace Products

open Go Models

/-- Go: `models.CreateProductDTO`. -/
structure CreateProductDTO where
  Name : Bytes
  Description : Bytes
  Price : Int
  deriving DecidableEq, Repr

/-- Go: `models.ListProductsDTO`. -/
structure ListProductsDTO where
  Page : Int
  Limit : Int
  deriving DecidableEq, Repr

/-- The arguments of one call to `MessageBroker.Send`. -/
structure SendCall where
  topic : Bytes
  message : Bytes
  key : Bytes
  deriving DecidableEq, Repr

/-- Go: the `services.MessageBroker` interface, seen as what `Send` answers
for each call (`none` is a nil error). -/
abbrev MessageBroker := SendCall → Option Error

/-- Go: the `services.ProductsRepository` interface. Each method answers the
Go result pair: a nil-able product pointer (or slice, or count) and an error. -/
structure ProductsRepository where
  Count : Int × Option Error
  Create : CreateProductDTO → Option Product × Option Error
  Delete : Bytes → Option Product × Option Error
  List : ListProductsDTO → Option (List Product) × Option Error

/-- What one call of `trySendProductEvent` did. -/
structure SendRun where
  /-- The calls to `broker.Send`, in order. -/
  sends : List SendCall
  /-- The entries logged. -/
  logged : List LogEntry
  /-- Whether the call returned or panicked. -/
  outcome : Outcome Unit
  deriving DecidableEq, Repr

/-- Go: `ProductsService.trySendProductEvent`. `now` is what `time.Now()`
returns. The event is encoded; on an encoding error the function logs and
returns without sending; otherwise it sends with the empty topic and the
product id as key, and logs a send error. Reading `product.ID` panics when
the pointer is nil. -/
def trySendProductEvent (broker : MessageBroker) (now : GoTime.Time)
    (product : Option Product) (eventType : Bytes) : SendRun :=
  match Json.Marshal { EventType := eventType, Product := product, Timestamp := now } with
  | none =>
    match product with
    | none => { sends := [], logged := [], outcome := Outcome.panic }
    | some p =>
      { sends := [],
        logged := [{ level := "error", msg := "failed to marshal product event",
                     fields := [Field.error Error.marshal, Field.string "product_id" p.ID,
                                Field.string "event_type" eventType] }],
        outcome := Outcome.ret () }
  | some msg =>
    match product with
    | none => { sends := [], logged := [], outcome := Outcome.panic }
    | some p =>
      match broker { topic := [], message := msg, key := p.ID } with
      | some err =>
        { sends := [{ topic := [], message := msg, key := p.ID }],
          logged := [{ level := "error", msg := "failed to send product event",
                       fields := [Field.error err, Field.string "product_id" p.ID,
                                  Field.string "event_type" eventType] }],
          outcome := Outcome.ret () }
      | none =>
        { sends := [{ topic := [], message := msg, key := p.ID }], logged := [],
          outcome := Outcome.ret () }

/-- What one call of a `ProductsService` method did. -/
structure ServiceRun where
  /-- The calls to `broker.Send`, in order. -/
  sends : List SendCall
  /-- How often `metrics.ProductsCreated.Inc()` ran. -/
  created : Nat
  /-- How often `metrics.ProductsDeleted.Inc()` ran. -/
  deleted : Nat
  /-- The entries logged. -/
  logged : List LogEntry
  /-- The returned `(*models.Product, error)` pair, or a panic. -/
  result : Outcome (Option Product × Option Error)
  deriving DecidableEq, Repr

/-- Go: `ProductsService.Create`. -/
def ProductsService.Create (repo : ProductsRepository) (broker : MessageBroker)
    (now : GoTime.Time) (productDTO : CreateProductDTO) : ServiceRun :=
  match repo.Create productDTO with
  | (_, some err) =>
    { sends := [], created := 0, deleted := 0, logged := [],
      result := Outcome.ret (none, some err) }
  | (product, none) =>
    let r := trySendProductEvent broker now product ProductCreated
    { sends := r.sends, created := 1, deleted := 0, logged := r.logged,
      result := match r.outcome with
        | Outcome.ret _ => Outcome.ret (product, none)
        | Outcome.panic => Outcome.panic }

/-- Go: `ProductsService.Delete`. -/
def ProductsService.Delete (repo : ProductsRepository) (broker : MessageBroker)
    (now : GoTime.Time) (id : Bytes) : ServiceRun :=
  match repo.Delete id with
  | (_, some err) =>
    { sends := [], created := 0, deleted := 0, logged := [],
      result := Outcome.ret (none, some err) }
  | (product, none) =>
    let r := trySendProductEvent broker now product ProductDeleted
    { sends := r.sends, created := 0, deleted := 1, logged := r.logged,
      result := match r.outcome with
        | Outcome.ret _ => Outcome.ret (product, none)
        | Outcome.panic => Outcome.panic }

/-- Go: `kafka.Message` as `KafkaBroker.Send` builds it. -/
structure KafkaMessage where
  topic : Bytes
  partition : Int
  value : Bytes
  key : Bytes
  timestamp : GoTime.Time
  deriving DecidableEq, Repr

/-- Go: `kafka.PartitionAny`. -/
def PartitionAny : Int := -1

/-- Go: an initialized `*kafka.Producer`, seen as what `Produce` answers when
asked to enqueue a message (`none` is a nil error: the message was enqueued). -/
abbrev Producer := KafkaMessage → Option Error

/-- Go: `messaging.KafkaBroker`: the producer pointer (nil-able) and the
configured default topic. -/
structure KafkaBroker where
  producer : Option Producer
  topic : Bytes

/-- What one call of `KafkaBroker.Send` did. -/
structure ProduceRun where
  /-- The messages passed to `producer.Produce`, in order. -/
  produced : List KafkaMessage
  /-- How many delivery reports were received from `deliveryChan`. -/
  deliveryReads : Nat
  /-- The returned error. -/
  result : Option Error
  deriving DecidableEq, Repr

/-- Go: the `kafkaMessage` that `KafkaBroker.Send` builds: the target topic
is the default topic unless the `topic` argument is non-empty; the partition
is `PartitionAny`; value and key are the arguments. -/
def KafkaBroker.kafkaMessage (b : KafkaBroker) (now : GoTime.Time) (topic message key : Bytes) :
    KafkaMessage :=
  { topic := if topic ≠ [] then topic else b.topic, partition := PartitionAny,
    value := message, key := key, timestamp := now }

/-- Go: `KafkaBroker.Send`. `now` is what `time.Now()` returns. The delivery
channel handed to `Produce` is never received from. -/
def KafkaBroker.Send (b : KafkaBroker) (now : GoTime.Time) (topic message key : Bytes) :
    ProduceRun :=
  match b.producer with
  | none =>
    { produced := [], deliveryReads := 0,
      result := some (Error.new "kafka producer is not initialized") }
  | some producer =>
    match producer (b.kafkaMessage now topic message key) with
    | some err =>
      { produced := [b.kafkaMessage now topic message key], deliveryReads := 0,
        result := some (Error.wrap "failed to produce message" err) }
    | none =>
      { produced := [b.kafkaMessage now topic message key], deliveryReads := 0, result := none }

/-! ### The service's listing and the broker's shutdown -/

/-- One call to the repository made by `ProductsService.List`. -/
inductive RepoCall where
  /-- Go: `p.repo.Count(ctx)`. -/
  | count
  /-- Go: `p.repo.List(ctx, listDTO)`. -/
  | list (listDTO : ListProductsDTO)
  deriving DecidableEq, Repr

/-- What one call of `ProductsService.List` did. -/
structure ListRun where
  /-- The calls to the repository, in order. -/
  repoCalls : List RepoCall
  /-- The calls to `broker.Send`, in order. -/
  sends : List SendCall
  /-- The returned `([]models.Product, int, error)` triple. -/
  result : Option (List Product) × Int × Option Error
  deriving DecidableEq, Repr

/-- Go: `ProductsService.List`: count first, returning `(nil, 0, err)` when
that fails; then list, returning `(nil, 0, err)` when that fails; otherwise
the listed products and the count. -/
def ProductsService.List (repo : ProductsRepository) (_broker : MessageBroker)
    (listDTO : ListProductsDTO) : ListRun :=
  match repo.Count with
  | (_, some err) =>
    { repoCalls := [RepoCall.count], sends := [], result := (none, 0, some err) }
  | (total, none) =>
    match repo.List listDTO with
    | (_, some err) =>
      { repoCalls := [RepoCall.count, RepoCall.list listDTO], sends := [],
        result := (none, 0, some err) }
    | (products, none) =>
      { repoCalls := [RepoCall.count, RepoCall.list listDTO], sends := [],
        result := (products, total, none) }

/-- One call `KafkaBroker.Close` makes on its producer. -/
inductive ProducerCall where
  /-- Go: `producer.Flush(timeoutMs)`. -/
  | flush (timeoutMs : Int)
  /-- Go: `producer.Close()`. -/
  | close
  deriving DecidableEq, Repr

/-- What one call of `KafkaBroker.Close` did. -/
structure CloseRun where
  /-- The calls on the producer, in order. -/
  calls : List ProducerCall
  /-- The returned error. -/
  result : Option Error
  deriving DecidableEq, Repr

/-- Go: `KafkaBroker.Close`. `flush` is what `producer.Flush` answers for a
timeout: the number of events still not flushed; the code drops that answer. -/
def KafkaBroker.Close (b : KafkaBroker) (_flush : Int → Int) : CloseRun :=
  match b.producer with
  | some _ => { calls := [ProducerCall.flush 5000, ProducerCall.close], result := none }
  | none => { calls := [], result := none }

/-! ### apperrors and utils -/

/-- Go: `(*ErrorNotFound).Error`: `fmt.Sprintf("product with id %s not found", e.ID)`. -/
def ErrorNotFound.Error (id : Bytes) : Bytes := str "product with id " ++ id ++ str " not found"

/-- Go: `apperrors.IsNotFoundError`: `errors.As` finds an `*ErrorNotFound` in
the chain of wrapped errors. -/
def IsNotFoundError : Error → Bool
  | Error.notFound _ => true
  | Error.wrap _ inner => IsNotFoundError inner
  | _ => false

end Products

namespace Go

/-- Join lines with a newline between them. -/
def joinLines : List Bytes → Bytes
  | [] => []
  | [l] => l
  | l :: ls => l ++ [0x0A] ++ joinLines ls

/-- Go: `(*fieldError).Error` of the validator:
`Key: '<namespace>' Error:Field validation for '<field>' failed on the '<tag>' tag`. -/
def FieldError.message (fe : FieldError) : Bytes :=
  str "Key: '" ++ str fe.ns ++ str "' Error:Field validation for '" ++ str fe.field ++
    str "' failed on the '" ++ str fe.tag ++ str "' tag"

/-- Go: `err.Error()`. The text of an error made by a library other than the
validator (`encoding/json`, `context`, the Kafka client) is what `lib`
answers for it; `errors.New` gives its message, a `%w` wrapper prefixes the
wrapped text, `*ErrorNotFound` and the validator format their own. -/
def Error.message (lib : Error → Bytes) : Error → Bytes
  | Error.new msg => str msg
  | Error.wrap msg inner => str msg ++ str ": " ++ Error.message lib inner
  | Error.notFound id => Products.ErrorNotFound.Error id
  | Error.validation errs => joinLines (errs.map FieldError.message)
  | e => lib e

end Go

/-! ## products: the HTTP handlers -/

namespace Products

open Go Models

/-- Go's `int` arithmetic wraps around in 64 bits. -/
def wrapInt (x : Int) : Int := (x + 2 ^ 63) % 2 ^ 64 - 2 ^ 63

/-- Go: `utils.CalculateTotalPages`. The sum wraps around as Go's `int`
does and `/` truncates toward zero. -/
def CalculateTotalPages (total pageSize : Int) : Int :=
  if total = 0 ∨ pageSize = 0 then 0
  else wrapInt (Int.tdiv (wrapInt (wrapInt (total + pageSize) - 1)) pageSize)

/-! ### Bindings: the checks the struct tags ask for -/

/-- Go: `models.DeleteProductDTO`. -/
structure DeleteProductDTO where
  ID : Bytes
  deriving DecidableEq, Repr

/-- The checks of one field in tag order, each with whether it passes: the
validator reports the first that fails and goes on to the next field. -/
def firstFailure (ns field : String) (checks : List (String × Bool)) : List FieldError :=
  match checks.find? (fun c => !c.2) with
  | some c => [{ ns := ns, field := field, tag := c.1 }]
  | none => []

/-- The binding tags of `models.CreateProductDTO`: `Name` is
`required,min=3,max=50`, `Description` is `max=200`, `Price` is
`required,gt=0`. `required` fails on the zero value; `min` and `max` of a
string count its runes. -/
def validateCreate (dto : CreateProductDTO) : List FieldError :=
  firstFailure "CreateProductDTO.Name" "Name"
    [("required", decide (dto.Name ≠ [])), ("min", decide (3 ≤ runeCount dto.Name)),
     ("max", decide (runeCount dto.Name ≤ 50))] ++
  firstFailure "CreateProductDTO.Description" "Description"
    [("max", decide (runeCount dto.Description ≤ 200))] ++
  firstFailure "CreateProductDTO.Price" "Price"
    [("required", decide (dto.Price ≠ 0)), ("gt", decide (0 < dto.Price))]

/-- A lower-case hexadecimal digit. -/
def isLowerHex (b : Nat) : Bool := (0x30 ≤ b && b ≤ 0x39) || (0x61 ≤ b && b ≤ 0x66)

/-- The validator's `uuid` tag: the whole text matches
`^[0-9a-f]{8}-[0-9a-f]{4}-[0-9a-f]{4}-[0-9a-f]{4}-[0-9a-f]{12}$`. -/
def isUUID (s : Bytes) : Bool :=
  s.length == 36 &&
  (List.range 36).all (fun i =>
    if i = 8 ∨ i = 13 ∨ i = 18 ∨ i = 23 then s.getD i 0 == 0x2D else isLowerHex (s.getD i 0))

/-- The binding tag of `models.DeleteProductDTO`: `ID` is `required,uuid`. -/
def validateDelete (dto : DeleteProductDTO) : List FieldError :=
  firstFailure "DeleteProductDTO.ID" "ID"
    [("required", decide (dto.ID ≠ [])), ("uuid", isUUID dto.ID)]

/-- Go: `c.ShouldBindJSON(&createDTO)`: decode the request body into the DTO,
then run the validator. `decoded` is what decoding the body gave: the
decoder's error, or the DTO it filled. -/
def ShouldBindJSON (decoded : Except Error CreateProductDTO) : Except Error CreateProductDTO :=
  match decoded with
  | Except.error err => Except.error err
  | Except.ok dto =>
    match validateCreate dto with
    | [] => Except.ok dto
    | errs => Except.error (Error.validation errs)

/-- Go: `c.ShouldBindUri(&deleteDTO)`: the DTO takes the `id` parameter of
the route, then the validator runs. -/
def ShouldBindUri (id : Bytes) : Except Error DeleteProductDTO :=
  match validateDelete { ID := id } with
  | [] => Except.ok { ID := id }
  | errs => Except.error (Error.validation errs)

/-- Go: `c.ShouldBindQuery(&listDTO)`. `parsed` is what reading `page` and
`limit` from the query as integers gave: the conversion error, or the DTO.
`models.ListProductsDTO` has no binding tags, so the validator passes. -/
def ShouldBindQuery (parsed : Except Error ListProductsDTO) : Except Error ListProductsDTO :=
  parsed

/-! ### The handlers -/

/-- Go: `http.StatusOK`. -/
def StatusOK : Nat := 200

/-- Go: `http.StatusCreated`. -/
def StatusCreated : Nat := 201

/-- Go: `http.StatusBadRequest`. -/
def StatusBadRequest : Nat := 400

/-- Go: `http.StatusNotFound`. -/
def StatusNotFound : Nat := 404

/-- Go: `http.StatusInternalServerError`. -/
def StatusInternalServerError : Nat := 500

/-- The `gin.H` value a handler passes to `c.JSON`. -/
inductive Body where
  /-- Go: `gin.H{"success": false, "error": error}`. -/
  | failure (error : Bytes)
  /-- Go: `gin.H{"success": true, "data": data}`. -/
  | product (data : Option Product)
  /-- Go: `gin.H{"success": true, "data": data, "total": total, "page": page,
  "size": size, "pages": pages}`. -/
  | page (data : Option (List Product)) (total page size pages : Int)
  deriving DecidableEq, Repr

/-- Go: the `handlers.ProductService` interface, seen as what each method
answers for its argument. -/
structure ProductService where
  Create : CreateProductDTO → Option Product × Option Error
  Delete : Bytes → Option Product × Option Error
  List : ListProductsDTO → Option (List Product) × Int × Option Error

/-- What one call of a handler did: the arguments of its calls to the
service, the entries it logged, and the status and body it passed to `c.JSON`. -/
structure HandlerRun (α : Type) where
  calls : List α
  logged : List LogEntry
  status : Nat
  body : Body
  deriving DecidableEq, Repr

/-- An error-level log entry with the error as its only field. -/
def errorEntry (msg : String) (err : Error) : LogEntry :=
  { level := "error", msg := msg, fields := [Field.error err] }

/-- Go: `ProductsHandler.Create`. -/
def ProductsHandler.Create (pService : ProductService) (lib : Error → Bytes)
    (decoded : Except Error CreateProductDTO) : HandlerRun CreateProductDTO :=
  match ShouldBindJSON decoded with
  | Except.error err =>
    { calls := [], logged := [errorEntry "CreateProductDTO binding error:" err],
      status := StatusBadRequest, body := Body.failure (err.message lib) }
  | Except.ok createDTO =>
    match pService.Create createDTO with
    | (_, some err) =>
      { calls := [createDTO], logged := [errorEntry "Error creating product:" err],
        status := StatusInternalServerError, body := Body.failure (str "Internal Server Error") }
    | (product, none) =>
      { calls := [createDTO], logged := [], status := StatusCreated,
        body := Body.product product }

/-- Go: `ProductsHandler.Delete`. -/
def ProductsHandler.Delete (pService : ProductService) (lib : Error → Bytes) (id : Bytes) :
    HandlerRun Bytes :=
  match ShouldBindUri id with
  | Except.error err =>
    { calls := [], logged := [errorEntry "DeleteProductDTO binding error:" err],
      status := StatusBadRequest, body := Body.failure (err.message lib) }
  | Except.ok deleteDTO =>
    match pService.Delete deleteDTO.ID with
    | (_, some err) =>
      if IsNotFoundError err then
        { calls := [deleteDTO.ID], logged := [], status := StatusNotFound,
          body := Body.failure (err.message lib) }
      else
        { calls := [deleteDTO.ID], logged := [errorEntry "Error deleting product:" err],
          status := StatusInternalServerError,
          body := Body.failure (str "Internal Server Error") }
    | (product, none) =>
      { calls := [deleteDTO.ID], logged := [], status := StatusOK, body := Body.product product }

/-- Go: the two `if` statements of `ProductsHandler.List` that put the page
and the limit in range: a page below 1 becomes 1; a limit below 1 becomes 20
and one above 100 becomes 100. -/
def normalise (listDTO : ListProductsDTO) : ListProductsDTO :=
  { Page := if listDTO.Page < 1 then 1 else listDTO.Page,
    Limit := if listDTO.Limit < 1 then 20
             else if listDTO.Limit > 100 then 100 else listDTO.Limit }

/-- Go: `ProductsHandler.List`. -/
def ProductsHandler.List (pService : ProductService) (lib : Error → Bytes)
    (parsed : Except Error ListProductsDTO) : HandlerRun ListProductsDTO :=
  match ShouldBindQuery parsed with
  | Except.error err =>
    { calls := [], logged := [errorEntry "ListProductsDTO binding error:" err],
      status := StatusBadRequest, body := Body.failure (err.message lib) }
  | Except.ok bound =>
    match pService.List (normalise bound) with
    | (_, _, some err) =>
      { calls := [normalise bound], logged := [errorEntry "Error listing products:" err],
        status := StatusInternalServerError, body := Body.failure (str "InternalServerError") }
    | (products, total, none) =>
      { calls := [normalise bound], logged := [], status := StatusOK,
        body := Body.page products total (normalise bound).Page (normalise bound).Limit
          (CalculateTotalPages total (normalise bound).Limit) }

end Products

/-! ## Sample values -/

namespace Samples

open Go Models Products

/-- A time with a zone five hours west of UTC, a fraction of a second and a
monotonic clock reading. -/
def sampleTime : GoTime.Time :=
  { year := 2024, month := 5, day := 17, hour := 13, minute := 4, second := 59,
    nsec := 120000000, offset := -18000, mono := some 5 }

/-- A product with a non-ASCII name, an empty description and a price. -/
def sampleProduct : Product :=
  { ID := str "p1", Name := str "Widgét <b>", Description := [], Price := 500,
    CreatedAt := sampleTime }

/-- A `product_created` event for `sampleProduct`. -/
def sampleEvent : ProductEvent :=
  { EventType := ProductCreated, Product := some sampleProduct,
    Timestamp := { sampleTime with offset := 0, nsec := 0 } }

/-- An event whose type is the single byte `0xFF`, which is not valid UTF-8. -/
def invalidTextEvent : ProductEvent :=
  { EventType := [0xFF], Product := none, Timestamp := GoTime.zero }

/-- An event whose timestamp is midnight in a zone thirty seconds east of
UTC (Go: `time.FixedZone("", 30)`). -/
def subMinuteZoneEvent : ProductEvent :=
  { EventType := ProductCreated, Product := none,
    Timestamp := { GoTime.zero with year := 2020, offset := 30 } }

/-- A product with an empty description and a zero price. -/
def bareProduct : Product :=
  { ID := str "p1", Name := str "Widget", Description := [], Price := 0,
    CreatedAt := { GoTime.zero with year := 2024 } }

/-- A `product_created` event for `bareProduct`. -/
def bareEvent : ProductEvent :=
  { EventType := ProductCreated, Product := some bareProduct,
    Timestamp := { GoTime.zero with year := 2024 } }

/-- A product with every field set. -/
def fullProduct : Product :=
  { ID := str "p2", Name := str "Gadget", Description := str "A gadget", Price := 250,
    CreatedAt := { GoTime.zero with year := 2024 } }

/-- A `product_deleted` event for `fullProduct`. -/
def fullEvent : ProductEvent :=
  { EventType := ProductDeleted, Product := some fullProduct,
    Timestamp := { GoTime.zero with year := 2024 } }

/-- A product whose creation time lies in the year 10000. -/
def lateProduct : Product :=
  { ID := str "p1", Name := str "Widget", Description := [], Price := 500,
    CreatedAt := { GoTime.zero with year := 10000 } }

/-- A repository whose `Create` and `Delete` succeed with product `p`. -/
def repoReturning (p : Product) : ProductsRepository :=
  { Count := (0, none), Create := fun _ => (some p, none), Delete := fun _ => (some p, none),
    List := fun _ => (some [], none) }

/-- A repository whose `Create` and `Delete` fail with error `e`. -/
def repoFailing (e : Error) : ProductsRepository :=
  { Count := (0, some e), Create := fun _ => (none, some e), Delete := fun _ => (none, some e),
    List := fun _ => (none, some e) }

/-- A broker whose `Send` succeeds. -/
def brokerOk : MessageBroker := fun _ => none

/-- A request to create a product. -/
def sampleDTO : CreateProductDTO := { Name := str "Widget", Description := [], Price := 500 }

/-- A broker with an initialized producer that accepts every message and
the default topic `products`. -/
def sampleKafkaBroker : KafkaBroker := { producer := some (fun _ => none), topic := str "products" }

open Notifications

/-- A sample configuration: one worker, a subscription that succeeds and a
handler that returns nil. -/
def sampleConfig : ConsumeConfig :=
  { workerCount := 1, topic := str "products", subscribeErr := none,
    handler := fun _ => Outcome.ret none }

/-- A run of `sampleConfig`: one message is polled and handed to the worker,
the context is cancelled while the handler runs, the handler returns, the
pump closes the channel, the worker exits and `Consume` returns. -/
def sampleRun : List Action :=
  [Action.pump, Action.pump, Action.pump, Action.poll (PollResult.message (str "m")),
   Action.send 0, Action.ctxDone Error.canceled, Action.handlerReturn 0, Action.pump,
   Action.pump, Action.workerExit 0, Action.pump]

/-- The state `sampleRun` ends in. -/
def sampleFinal : ConsumeState :=
  { pc := PumpPC.returned ReturnPath.cancelled (some Error.canceled),
    workers := [{ status := WorkerStatus.exited, received := [str "m"], completed := [str "m"] }],
    wg := 0, closed := true, ctxErr := some Error.canceled, crashed := false,
    logged := [startedEntry (str "products"), stoppingEntry] }

/-- The state of `sampleConfig` after the worker is started, the topic
subscribed and the pump has entered `ReadMessage`. -/
def pollingState : ConsumeState :=
  { pc := PumpPC.polling,
    workers := [{ status := WorkerStatus.idle, received := [], completed := [] }],
    wg := 1, closed := false, ctxErr := none, crashed := false,
    logged := [startedEntry (str "products")] }

/-- Go: `kafka.ErrTransport` (librdkafka's `RD_KAFKA_RESP_ERR__TRANSPORT`). -/
def ErrTransport : Int := -195

/-- A configuration whose subscription fails: one worker is asked for. -/
def failingConfig : ConsumeConfig :=
  { workerCount := 1, topic := str "products", subscribeErr := some (Error.new "broker down"),
    handler := fun _ => Outcome.ret none }

/-- The state in which `Consume` returns for `failingConfig`. -/
def failingFinal : ConsumeState :=
  { pc := PumpPC.returned ReturnPath.subscribe
      (some (Error.wrap "failed to subscribe to topic" (Error.new "broker down"))),
    workers := [{ status := WorkerStatus.idle, received := [], completed := [] }],
    wg := 1, closed := false, ctxErr := none, crashed := false, logged := [] }

/-- A payload that is valid JSON and has no `product` member. -/
def noProductPayload : Bytes := str "\x7b\"event_type\":\"product_created\"\x7d"

/-- A payload that is valid JSON and whose `product` member is `null`. -/
def nullProductPayload : Bytes :=
  str "\x7b\"event_type\":\"product_deleted\",\"product\":null\x7d"

/-- A payload whose event type is neither `product_created` nor `product_deleted`. -/
def unknownTypePayload : Bytes :=
  str "\x7b\"event_type\":\"product_updated\",\"product\":\x7b\"id\":\"p1\"\x7d\x7d"

/-- The event `unknownTypePayload` decodes to. -/
def unknownTypeEvent : ProductEvent :=
  { EventType := str "product_updated", Product := some { Product.zero with ID := str "p1" },
    Timestamp := GoTime.zero }

/-- The message callback of `Consumer.Start` over the logging notification
service, as the handler `Consume` receives. -/
def loggingCallback (message : Bytes) : Outcome (Option Error) :=
  (Consumer.callback (fun ev => (HandleProductEvent ev).2) message).result

/-- A configuration with one worker whose handler is `loggingCallback`. -/
def callbackConfig : ConsumeConfig :=
  { workerCount := 1, topic := str "products", subscribeErr := none, handler := loggingCallback }

/-- A handler's service that succeeds: it creates and deletes `fullProduct`
and lists two products out of a total of two. -/
def sampleService : ProductService :=
  { Create := fun _ => (some fullProduct, none), Delete := fun _ => (some fullProduct, none),
    List := fun _ => (some [fullProduct, bareProduct], 2, none) }

/-- A handler's service whose every method fails with error `e`. -/
def failingService (e : Error) : ProductService :=
  { Create := fun _ => (none, some e), Delete := fun _ => (none, some e),
    List := fun _ => (none, 0, some e) }

/-- The product id of the handler's tests. -/
def sampleID : Bytes := str "8f293f9f-9bd0-4294-bd17-4fb80aa2650a"

/-- The id of the handler's test that is cut short: not a UUID. -/
def shortID : Bytes := str "8f293f9f-9bd0-4294-bd17-4fb80"

/-- A repository that counts two products and lists them. -/
def listingRepo : ProductsRepository :=
  { Count := (2, none), Create := fun _ => (some fullProduct, none),
    Delete := fun _ => (some fullProduct, none),
    List := fun _ => (some [fullProduct, bareProduct], none) }

/-- A repository that counts two products and whose `List` fails with error `e`. -/
def listFailingRepo (e : Error) : ProductsRepository :=
  { Count := (2, none), Create := fun _ => (some fullProduct, none),
    Delete := fun _ => (some fullProduct, none), List := fun _ => (none, some e) }

/-- A broker whose producer was never initialized. -/
def nilKafkaBroker : KafkaBroker := { producer := none, topic := str "products" }

/-- A broker whose `Send` fails with error `e`. -/
def brokerFailing (e : Error) : MessageBroker := fun _ => some e

/-- A configuration with one worker whose handler fails on every message. -/
def erringConfig : ConsumeConfig :=
  { workerCount := 1, topic := str "products", subscribeErr := none,
    handler := fun _ => Outcome.ret (some (Error.new "bad message")) }

/-- A run of `erringConfig`: two messages are polled in turn, each is handed
to the worker and its handler call fails. -/
def erringRun : List Action :=
  [Action.pump, Action.pump, Action.pump, Action.poll (PollResult.message (str "m1")),
   Action.send 0, Action.handlerReturn 0, Action.pump,
   Action.poll (PollResult.message (str "m2")), Action.send 0, Action.handlerReturn 0]

/-- The state `erringRun` ends in. -/
def erringFinal : ConsumeState :=
  { pc := PumpPC.loopTop,
    workers := [{ status := WorkerStatus.idle, received := [str "m1", str "m2"],
                  completed := [str "m1", str "m2"] }],
    wg := 1, closed := false, ctxErr := none, crashed := false,
    logged := [startedEntry (str "products"),
               processErrorEntry (Error.new "bad message") (str "m1"),
               processErrorEntry (Error.new "bad message") (str "m2")] }

/-- A configuration without workers. -/
def zeroConfig : ConsumeConfig :=
  { workerCount := 0, topic := str "products", subscribeErr := none,
    handler := fun _ => Outcome.ret none }

/-- A run of `zeroConfig`: the pump subscribes and enters `ReadMessage`, then
the context is cancelled. -/
def zeroRun : List Action := [Action.pump, Action.pump, Action.ctxDone Error.canceled]

/-- The state `zeroRun` ends in: the pump is inside `ReadMessage`. -/
def zeroFinal : ConsumeState :=
  { pc := PumpPC.polling, workers := [], wg := 0, closed := false,
    ctxErr := some Error.canceled, crashed := false, logged := [startedEntry (str "products")] }

/-- A run of `sampleConfig` that fills the pipeline: one message is inside
the worker's handler call and the pump holds a second one. -/
def busyRun : List Action :=
  [Action.pump, Action.pump, Action.pump, Action.poll (PollResult.message (str "m1")),
   Action.send 0, Action.pump, Action.poll (PollResult.message (str "m2"))]

/-- The state `busyRun` ends in. -/
def busyFinal : ConsumeState :=
  { pc := PumpPC.handoff (str "m2"),
    workers := [{ status := WorkerStatus.handling (str "m1"), received := [str "m1"],
                  completed := [] }],
    wg := 1, closed := false, ctxErr := none, crashed := false,
    logged := [startedEntry (str "products")] }

end Samples

/-! # Theorems -/

/-! ## UTF-8 decoding and encoding -/

section Utf8

open Go

theorem decodeRune_size_pos (b : Nat) (rest : Bytes) : 1 ≤ (decodeRune (b :: rest)).2 := by
  rw [decodeRune]
  split_ifs
  · simp
  · simp
  · unfold decodeRune2; split <;> (try split_ifs) <;> simp
  · unfold decodeRune3; split <;> (try split_ifs) <;> simp
  · unfold decodeRune4; split <;> (try split_ifs) <;> simp
  · simp

theorem decodeRune_multibyte (b : Nat) (rest : Bytes) (c size : Nat)
    (h : decodeRune (b :: rest) = (c, size)) (hs : 2 ≤ size) :
    ∃ chunk tail, b :: rest = chunk ++ tail ∧ chunk.length = size ∧ encodeRune c = chunk ∧
      (∀ x ∈ chunk, 0x80 ≤ x) ∧ (∀ t, decodeRune (chunk ++ t) = (c, size)) := by
  rw [decodeRune] at h
  split_ifs at h with h1 h2 h3 h4 h5
  · simp at h; omega
  · simp at h; omega
  · match rest, h with
    | [], h => simp [decodeRune2] at h; omega
    | b1 :: tl, h =>
      simp only [decodeRune2, isCont] at h
      split_ifs at h with hc
      · simp at hc
        simp only [Prod.mk.injEq] at h
        obtain ⟨hc1, hc2⟩ := h
        subst hc1 hc2
        refine ⟨[b, b1], tl, rfl, rfl, ?_, ?_, ?_⟩
        · unfold encodeRune MaxRune
          rw [if_neg (by omega), if_pos (by omega)]
          congr 1
          · omega
          · congr 1; omega
        · intro x hx; simp at hx; omega
        · intro t
          simp [decodeRune, decodeRune2, isCont, h1, h2, h3, hc]
      · simp at h; omega
  · match rest, h with
    | [], h => simp [decodeRune3] at h; omega
    | [_], h => simp [decodeRune3] at h; omega
    | b1 :: b2 :: tl, h =>
      simp only [decodeRune3, isCont] at h
      split_ifs at h with hc hc2
      · simp at hc2
        simp only [Prod.mk.injEq] at h
        obtain ⟨e1, e2⟩ := h
        subst e1 e2
        have hlo : 0x80 ≤ b1 ∧ b1 ≤ 0xBF ∧ (b = 0xE0 → 0xA0 ≤ b1) ∧ (b = 0xED → b1 ≤ 0x9F) := by
          unfold acceptLo acceptHi at hc
          split_ifs at hc <;> omega
        refine ⟨[b, b1, b2], tl, rfl, rfl, ?_, ?_, ?_⟩
        · unfold encodeRune MaxRune
          rw [if_neg (by omega), if_neg (by omega), if_neg (by omega), if_pos (by omega)]
          congr 1
          · omega
          · congr 1
            · omega
            · congr 1; omega
        · intro x hx; simp at hx; omega
        · intro t
          simp [decodeRune, decodeRune3, isCont, h1, h2, h3, h4, hc, hc2]
      · simp at h; omega
      · simp at h; omega
  · match rest, h with
    | [], h => simp [decodeRune4] at h; omega
    | [_], h => simp [decodeRune4] at h; omega
    | [_, _], h => simp [decodeRune4] at h; omega
    | b1 :: b2 :: b3 :: tl, h =>
      simp only [decodeRune4, isCont] at h
      split_ifs at h with hc hc2 hc3
      · simp at hc2 hc3
        simp only [Prod.mk.injEq] at h
        obtain ⟨e1, e2⟩ := h
        subst e1 e2
        have hlo : 0x80 ≤ b1 ∧ b1 ≤ 0xBF ∧ (b = 0xF0 → 0x90 ≤ b1) ∧ (b = 0xF4 → b1 ≤ 0x8F) := by
          unfold acceptLo acceptHi at hc
          split_ifs at hc <;> omega
        refine ⟨[b, b1, b2, b3], tl, rfl, rfl, ?_, ?_, ?_⟩
        · unfold encodeRune MaxRune
          rw [if_neg (by omega), if_neg (by omega), if_neg (by omega), if_neg (by omega)]
          congr 1
          · omega
          · congr 1
            · omega
            · congr 1
              · omega
              · congr 1; omega
        · intro x hx; simp at hx; omega
        · intro t
          simp [decodeRune, decodeRune4, isCont, h1, h2, h3, h4, h5, hc, hc2, hc3]
      · simp at h; omega
      · simp at h; omega
      · simp at h; omega
  · simp at h; omega

end Utf8

/-! ## JSON strings: escaping, unquoting and scanning -/

section JsonStrings

open Go Json

theorem hexVal_hexDigit (n : Nat) : hexVal (hexDigit n) = some (n % 16) := by
  have h : n % 16 < 16 := Nat.mod_lt _ (by decide)
  unfold hexDigit hexVal
  split_ifs <;> first | omega | (congr 1; omega)

theorem isHex_hexDigit (n : Nat) : isHex (hexDigit n) = true := by
  have h : n % 16 < 16 := Nat.mod_lt _ (by decide)
  unfold hexDigit isHex isDigit
  split_ifs <;> simp <;> omega

theorem unquoteAux_nil (f : Nat) : unquoteAux f [] = some [] := by
  cases f <;> rfl

theorem escapeAux_nil (f : Nat) : escapeAux f [] = [] := by
  cases f <;> rfl

theorem getu4_eq (h1 h2 h3 h4 : Nat) (rest : Bytes) (a b c d : Nat)
    (e1 : hexVal h1 = some a) (e2 : hexVal h2 = some b) (e3 : hexVal h3 = some c)
    (e4 : hexVal h4 = some d) :
    getu4 (0x5C :: 0x75 :: h1 :: h2 :: h3 :: h4 :: rest) = some (a * 4096 + b * 256 + c * 16 + d) := by
  simp [getu4, e1, e2, e3, e4]

theorem unquoteStep_u4 (h1 h2 h3 h4 r : Nat) (rest : Bytes)
    (hg : getu4 (0x5C :: 0x75 :: h1 :: h2 :: h3 :: h4 :: rest) = some r)
    (hs : isSurrogate r = false) :
    unquoteStep (0x5C :: 0x75 :: h1 :: h2 :: h3 :: h4 :: rest) = some (encodeRune r, rest) := by
  simp [unquoteStep, hg, hs]

/-- One iteration of the encoder's escaping loop, undone by one iteration of
the decoder's unquoting loop, when the input starts with a valid rune. -/
theorem unquoteStep_escapeStep (b : Nat) (rest : Bytes)
    (hv : ¬ ((decodeRune (b :: rest)).2 ≤ 1 ∧ 0x80 ≤ b)) :
    ∃ chunk, b :: rest = chunk ++ (escapeStep b rest).2 ∧
      (escapeStep b rest).2.length < (b :: rest).length ∧
      (decodeRune (b :: rest)).2 = chunk.length ∧
      ∀ tail, unquoteStep ((escapeStep b rest).1 ++ tail) = some (chunk, tail) := by
  by_cases hb : b < 0x80
  · have hd : (decodeRune (b :: rest)).2 = 1 := by simp [decodeRune, hb]
    refine ⟨[b], ?_, ?_, ?_, ?_⟩
    · simp only [escapeStep, if_pos hb]; split_ifs <;> rfl
    · simp only [escapeStep, if_pos hb]; split_ifs <;> simp
    · simp [hd]
    · intro tail
      simp only [escapeStep, if_pos hb]
      split_ifs with c1 c2 c3 c4 c5 c6 c7
      · simp [htmlSafe] at c1
        have n1 : ¬ b = 0x5C := by omega
        have n2 : ¬ (b = 0x22 ∨ b < 0x20) := by omega
        simp only [List.cons_append, List.nil_append, unquoteStep, if_neg n1, if_neg n2, if_pos hb]
      · rcases c2 with c2 | c2 <;> subst c2 <;> simp [unquoteStep]
      · subst c3; simp [unquoteStep]
      · subst c4; simp [unquoteStep]
      · subst c5; simp [unquoteStep]
      · subst c6; simp [unquoteStep]
      · subst c7; simp [unquoteStep]
      · have hg := getu4_eq 0x30 0x30 (hexDigit (b / 16)) (hexDigit b) tail 0 0 ((b / 16) % 16) (b % 16)
          (by decide) (by decide) (hexVal_hexDigit _) (hexVal_hexDigit _)
        have hr : 0 * 4096 + 0 * 256 + (b / 16) % 16 * 16 + b % 16 = b := by omega
        rw [hr] at hg
        have := unquoteStep_u4 _ _ _ _ _ _ hg (by simp [isSurrogate]; omega)
        rw [show encodeRune b = [b] from by simp [encodeRune]; omega] at this
        simpa using this
  · have hsz : 2 ≤ (decodeRune (b :: rest)).2 := by
      have := decodeRune_size_pos b rest
      omega
    obtain ⟨chunk, tl, e1, e2, e3, e4, e5⟩ :=
      decodeRune_multibyte b rest (decodeRune (b :: rest)).1 (decodeRune (b :: rest)).2 rfl hsz
    generalize hc : (decodeRune (b :: rest)).1 = c at *
    generalize hsize : (decodeRune (b :: rest)).2 = size at *
    have hdrop : (b :: rest).drop size = tl := by
      rw [e1, ← e2]; simp
    have htake : (b :: rest).take size = chunk := by
      rw [e1, ← e2]; simp
    have hes : escapeStep b rest =
        if c = 0x2028 ∨ c = 0x2029 then
          ([0x5C, 0x75, 0x32, 0x30, 0x32, hexDigit c], tl)
        else (chunk, tl) := by
      simp only [escapeStep, if_neg hb, hc, hsize, hdrop, htake]
      rw [if_neg (by omega)]
    rw [hes]
    refine ⟨chunk, ?_, ?_, e2.symm, ?_⟩
    · split_ifs <;> exact e1
    · have : tl.length < (b :: rest).length := by rw [e1]; simp; omega
      split_ifs <;> exact this
    · intro tail
      split_ifs with c1
      · have hg : getu4 (0x5C :: 0x75 :: 0x32 :: 0x30 :: 0x32 :: hexDigit c :: tail)
            = some c := by
          have := getu4_eq 0x32 0x30 0x32 (hexDigit c) tail 2 0 2 _
            (by decide) (by decide) (by decide) (hexVal_hexDigit _)
          rw [this]
          congr 1
          rcases c1 with c1 | c1 <;> rw [c1]
        have := unquoteStep_u4 _ _ _ _ _ _ hg (by rcases c1 with c1 | c1 <;> rw [c1] <;> decide)
        rw [e3] at this
        simpa using this
      · match chunk, e1, e2, e3, e4, e5 with
        | [], _, e2, _, _, _ => simp at e2; omega
        | c0 :: ctl, e1, e2, e3, e4, e5 =>
          have hc0 : c0 = b := by
            have := congrArg List.head? e1
            simp at this
            exact this.symm
          subst hc0
          have hd := e5 tail
          simp only [List.cons_append] at hd ⊢
          have n1 : ¬ c0 = 0x5C := by omega
          have n2 : ¬ (c0 = 0x22 ∨ c0 < 0x20) := by omega
          simp only [unquoteStep, if_neg n1, if_neg n2, if_neg hb, hd, e3]
          rw [← e2]
          simp

theorem escapeAux_cons (f b : Nat) (rest : Bytes) :
    escapeAux (f + 1) (b :: rest) = (escapeStep b rest).1 ++ escapeAux f (escapeStep b rest).2 := rfl

theorem unquoteAux_cons (f c : Nat) (rest : Bytes) :
    unquoteAux (f + 1) (c :: rest) =
      match unquoteStep (c :: rest) with
      | none => none
      | some (out, rest1) => (unquoteAux f rest1).map (out ++ ·) := rfl

theorem validUTF8Aux_cons (fv b : Nat) (rest : Bytes)
    (h : validUTF8Aux (fv + 1) (b :: rest) = true) :
    ¬ ((decodeRune (b :: rest)).2 ≤ 1 ∧ 0x80 ≤ b) ∧
    validUTF8Aux fv ((b :: rest).drop (decodeRune (b :: rest)).2) = true := by
  rw [validUTF8Aux] at h
  split_ifs at h with h1
  exact ⟨h1, h⟩

theorem escapeStep_fst_ne_nil (b : Nat) (rest : Bytes) : (escapeStep b rest).1 ≠ [] := by
  unfold escapeStep
  split_ifs <;> simp
  have := decodeRune_size_pos b rest
  omega

/-- The decoder's unquoting loop undoes the encoder's escaping loop on valid UTF-8. -/
theorem unquoteAux_escapeAux (fuel : Nat) : ∀ (s : Bytes) (fuelv fuel2 : Nat),
    s.length ≤ fuel → validUTF8Aux fuelv s = true → (escapeAux fuel s).length ≤ fuel2 →
    unquoteAux fuel2 (escapeAux fuel s) = some s := by
  induction fuel with
  | zero =>
    intro s fuelv fuel2 hl _ _
    have : s = [] := List.eq_nil_of_length_eq_zero (by omega)
    subst this
    rw [escapeAux_nil, unquoteAux_nil]
  | succ f ih =>
    intro s fuelv fuel2 hl hv hl2
    match s, hl, hv, hl2 with
    | [], _, _, _ => rw [escapeAux_nil, unquoteAux_nil]
    | b :: rest, hl, hv, hl2 =>
      match fuelv, hv with
      | 0, hv => simp [validUTF8Aux] at hv
      | fv + 1, hv =>
        obtain ⟨hv1, hv2⟩ := validUTF8Aux_cons fv b rest hv
        obtain ⟨chunk, e1, e2, e3, e4⟩ := unquoteStep_escapeStep b rest hv1
        rw [escapeAux_cons] at hl2 ⊢
        have hne := escapeStep_fst_ne_nil b rest
        match hout : (escapeStep b rest).1 with
        | [] => exact absurd hout hne
        | o :: os =>
          rw [hout] at hl2
          simp only [List.length_append, List.length_cons] at hl2
          match fuel2, hl2 with
          | 0, hl2 => omega
          | f2 + 1, hl2 =>
            have h4 := e4 (escapeAux f (escapeStep b rest).2)
            rw [hout] at h4
            simp only [List.cons_append] at h4 ⊢
            rw [unquoteAux_cons, h4]
            simp only
            have hdrop : (b :: rest).drop (decodeRune (b :: rest)).2 = (escapeStep b rest).2 := by
              rw [e3]
              conv => lhs; rw [e1]
              simp
            rw [hdrop] at hv2
            have hlen : (escapeStep b rest).2.length ≤ f := by
              simp only [List.length_cons] at e2 hl
              omega
            rw [ih _ fv f2 hlen hv2 (by omega)]
            simp only [Option.map_some']
            rw [← e1]

/-- Go: `unquoteBytes(appendString(s))` is `s` for every valid UTF-8 string. -/
theorem unquote_escape (s : Bytes) (hv : validUTF8 s = true) :
    unquote (escapeAux s.length s) = some s :=
  unquoteAux_escapeAux s.length s s.length _ (le_refl _) hv (le_refl _)

/-! ### The scanner on an escaped string body -/

theorem next_inString_plain (ps : List Frame) (tok : Bytes) (res : Option Value) (c : Nat)
    (h1 : 0x20 ≤ c) (h2 : c ≠ 0x22) (h3 : c ≠ 0x5C) :
    Scanner.next ⟨Step.inString, ps, tok, res⟩ c = ⟨Step.inString, ps, tok ++ [c], res⟩ := by
  simp [Scanner.next, h2, h3]
  omega

theorem run_inString_plain (chunk : Bytes) : ∀ (ps : List Frame) (tok : Bytes) (res : Option Value),
    PlainText chunk →
    Scanner.run ⟨Step.inString, ps, tok, res⟩ chunk = ⟨Step.inString, ps, tok ++ chunk, res⟩ := by
  induction chunk with
  | nil => intro ps tok res _; simp [Scanner.run]
  | cons c cs ih =>
    intro ps tok res h
    have hc := h c (by simp)
    simp only [Scanner.run, List.foldl_cons] at ih ⊢
    rw [next_inString_plain ps tok res c hc.1 hc.2.1 hc.2.2]
    rw [ih ps (tok ++ [c]) res (fun x hx => h x (by simp [hx]))]
    simp

theorem run_inString_u4 (ps : List Frame) (tok : Bytes) (res : Option Value) (h1 h2 h3 h4 : Nat)
    (e1 : isHex h1 = true) (e2 : isHex h2 = true) (e3 : isHex h3 = true) (e4 : isHex h4 = true) :
    Scanner.run ⟨Step.inString, ps, tok, res⟩ [0x5C, 0x75, h1, h2, h3, h4] =
      ⟨Step.inString, ps, tok ++ [0x5C, 0x75, h1, h2, h3, h4], res⟩ := by
  simp [Scanner.run, Scanner.next, e1, e2, e3, e4]

theorem run_inString_escapeStep (b : Nat) (rest : Bytes) (ps : List Frame) (tok : Bytes)
    (res : Option Value) :
    Scanner.run ⟨Step.inString, ps, tok, res⟩ (escapeStep b rest).1 =
      ⟨Step.inString, ps, tok ++ (escapeStep b rest).1, res⟩ := by
  by_cases hb : b < 0x80
  · simp only [escapeStep, if_pos hb]
    split_ifs with c1 c2 c3 c4 c5 c6 c7
    · simp [htmlSafe] at c1
      simp only [Scanner.run, List.foldl_cons, List.foldl_nil]
      rw [next_inString_plain ps tok res b (by omega) (by omega) (by omega)]
    · rcases c2 with c2 | c2 <;> subst c2 <;> simp [Scanner.run, Scanner.next]
    · simp [Scanner.run, Scanner.next]
    · simp [Scanner.run, Scanner.next]
    · simp [Scanner.run, Scanner.next]
    · simp [Scanner.run, Scanner.next]
    · simp [Scanner.run, Scanner.next]
    · exact run_inString_u4 ps tok res _ _ _ _ (by decide) (by decide)
        (isHex_hexDigit _) (isHex_hexDigit _)
  · simp only [escapeStep, if_neg hb]
    split_ifs with c1 c2
    · exact run_inString_u4 ps tok res _ _ _ _ (by decide) (by decide) (by decide) (by decide)
    · exact run_inString_u4 ps tok res _ _ _ _ (by decide) (by decide) (by decide)
        (isHex_hexDigit _)
    · have hs : 2 ≤ (decodeRune (b :: rest)).2 := by
        have := decodeRune_size_pos b rest
        by_contra hcon
        have h1 : (decodeRune (b :: rest)).2 = 1 := by omega
        have h2 : (decodeRune (b :: rest)).1 = RuneError := by
          have hcases : ∀ p : Nat × Nat, p = decodeRune (b :: rest) → p.2 = 1 → p.1 = RuneError := by
            intro p hp
            rw [decodeRune, if_neg hb] at hp
            split_ifs at hp
            · subst hp; simp
            · unfold decodeRune2 at hp; split at hp <;> (try split_ifs at hp) <;> subst hp <;> simp
            · unfold decodeRune3 at hp; split at hp <;> (try split_ifs at hp) <;> subst hp <;> simp
            · unfold decodeRune4 at hp; split at hp <;> (try split_ifs at hp) <;> subst hp <;> simp
            · subst hp; simp
          exact hcases _ rfl h1
        exact c1 ⟨h2, h1⟩
      obtain ⟨chunk, tl, e1, e2, _, e4, _⟩ :=
        decodeRune_multibyte b rest (decodeRune (b :: rest)).1 (decodeRune (b :: rest)).2 rfl hs
      have htake : (b :: rest).take (decodeRune (b :: rest)).2 = chunk := by
        rw [← e2]
        conv => lhs; rw [e1]
        simp
      rw [htake]
      exact run_inString_plain chunk ps tok res
        (fun x hx => by have := e4 x hx; exact ⟨by omega, by omega, by omega⟩)

theorem run_inString_escapeAux (fuel : Nat) : ∀ (s : Bytes) (ps : List Frame) (tok : Bytes)
    (res : Option Value),
    Scanner.run ⟨Step.inString, ps, tok, res⟩ (escapeAux fuel s) =
      ⟨Step.inString, ps, tok ++ escapeAux fuel s, res⟩ := by
  induction fuel with
  | zero =>
    intro s ps tok res
    cases s <;> simp [escapeAux, Scanner.run]
  | succ f ih =>
    intro s ps tok res
    cases s with
    | nil => simp [escapeAux, Scanner.run]
    | cons b rest =>
      rw [escapeAux_cons]
      unfold Scanner.run at ih ⊢
      rw [List.foldl_append]
      have := run_inString_escapeStep b rest ps tok res
      unfold Scanner.run at this
      rw [this, ih]
      simp

end JsonStrings

/-! ## JSON integers -/

section JsonNumbers

open Go Json

/-- Value of a run of decimal digits, as the parsers accumulate it. -/
theorem digitsValue_append (ds : Bytes) (x a : Nat) :
    (ds ++ [x]).foldl (fun acc c => acc * 10 + (c - 0x30)) a =
      ds.foldl (fun acc c => acc * 10 + (c - 0x30)) a * 10 + (x - 0x30) := by
  simp [List.foldl_append]

theorem natDigitsAux_spec (fuel : Nat) : ∀ (n : Nat) (acc : Bytes), n < fuel →
    ∃ d ds, natDigitsAux fuel n acc = d :: ds ++ acc ∧ 0x30 ≤ d ∧ d ≤ 0x39 ∧ (1 ≤ n → 0x31 ≤ d) ∧
      (∀ x ∈ ds, isDigit x = true) ∧
      (d :: ds).foldl (fun acc c => acc * 10 + (c - 0x30)) 0 = n := by
  induction fuel with
  | zero => intro n acc h; omega
  | succ f ih =>
    intro n acc h
    rw [natDigitsAux]
    split_ifs with h10
    · exact ⟨0x30 + n, [], by simp, by omega, by omega, by omega, by simp, by simp⟩
    · obtain ⟨d, ds, e1, e2, e3, e4, e5, e6⟩ := ih (n / 10) ((0x30 + n % 10) :: acc) (by omega)
      refine ⟨d, ds ++ [0x30 + n % 10], ?_, e2, e3, ?_, ?_, ?_⟩
      · rw [e1]; simp
      · intro _; exact e4 (by omega)
      · intro x hx
        rcases List.mem_append.mp hx with hx | hx
        · exact e5 x hx
        · simp at hx; subst hx; simp [isDigit]; omega
      · rw [← List.cons_append, digitsValue_append, e6]
        omega

theorem natDigits_spec (n : Nat) :
    ∃ d ds, natDigits n = d :: ds ∧ 0x30 ≤ d ∧ d ≤ 0x39 ∧ (1 ≤ n → 0x31 ≤ d) ∧
      (∀ x ∈ ds, isDigit x = true) ∧
      (d :: ds).foldl (fun acc c => acc * 10 + (c - 0x30)) 0 = n := by
  obtain ⟨d, ds, e1, e⟩ := natDigitsAux_spec (n + 1) n [] (by omega)
  exact ⟨d, ds, by rw [natDigits, e1]; simp, e⟩

theorem parseDigits_natDigits (n : Nat) : parseDigits (natDigits n) = some n := by
  obtain ⟨d, ds, e1, e2, e3, _, e5, e6⟩ := natDigits_spec n
  rw [e1, parseDigits, if_pos]
  · rw [e6]
  · refine ⟨by simp, ?_⟩
    simp only [List.all_cons, Bool.and_eq_true, List.all_eq_true]
    exact ⟨by simp [isDigit]; omega, e5⟩

/-- Go: `strconv.ParseInt` reads back what `strconv.AppendInt` wrote, for every 64-bit value. -/
theorem parseInt_appendInt (n : Int) (h1 : -(2 : Int) ^ 63 ≤ n) (h2 : n < (2 : Int) ^ 63) :
    parseInt (appendInt n) = some n := by
  unfold appendInt
  split_ifs with hneg
  · simp only [parseInt, if_pos, parseDigits_natDigits]
    rw [if_pos]
    · congr 1; omega
    · have : ((n.natAbs : Nat) : Int) ≤ 2 ^ 63 := by omega
      exact_mod_cast this
  · obtain ⟨d, ds, e1, e2, e3, _, e5, e6⟩ := natDigits_spec n.natAbs
    have hp := parseDigits_natDigits n.natAbs
    rw [e1] at hp ⊢
    simp only [parseInt]
    rw [if_neg (by omega), hp]
    simp only
    rw [if_pos]
    · congr 1; omega
    · have : ((n.natAbs : Nat) : Int) < 2 ^ 63 := by omega
      exact_mod_cast this

end JsonNumbers

/-! ## RFC 3339 timestamps -/

section Timestamps

open Go Json GoTime

theorem isDigit_digit (n : Nat) : isDigit (digit n) = true := by
  simp [isDigit, digit]; omega

theorem parseUint_pad2 (n lo hi : Nat) (h : n < 100) (h1 : lo ≤ n) (h2 : n ≤ hi) :
    parseUint [digit (n / 10), digit n] lo hi = some n := by
  have hv : (0 * 10 + (digit (n / 10) - 0x30)) * 10 + (digit n - 0x30) = n := by
    simp only [digit]; omega
  simp only [parseUint, List.all_cons, isDigit_digit, List.all_nil, Bool.and_self, if_true,
    List.foldl_cons, List.foldl_nil, hv]
  rw [if_pos ⟨h1, h2⟩]

theorem parseUint_pad4 (n : Nat) (h : n < 10000) :
    parseUint [digit (n / 1000), digit (n / 100), digit (n / 10), digit n] 0 9999 = some n := by
  have hv : (((0 * 10 + (digit (n / 1000) - 0x30)) * 10 + (digit (n / 100) - 0x30)) * 10
      + (digit (n / 10) - 0x30)) * 10 + (digit n - 0x30) = n := by
    simp only [digit]; omega
  simp only [parseUint, List.all_cons, isDigit_digit, List.all_nil, Bool.and_self, if_true,
    List.foldl_cons, List.foldl_nil, hv]
  rw [if_pos ⟨by omega, by omega⟩]

theorem trimZeros_append (ds : Bytes) (x : Nat) :
    trimZeros (ds ++ [x]) = if x = 0x30 then trimZeros ds else ds ++ [x] := by
  unfold trimZeros
  rw [List.reverse_append]
  simp only [List.reverse_cons, List.reverse_nil, List.nil_append, List.singleton_append]
  rw [List.dropWhile_cons]
  split_ifs with h1 h2 h2
  · rfl
  · simp at h1; exact absurd h1 h2
  · simp at h1; exact absurd h2 h1
  · simp

/-- The digits kept by `trimZeros`, scaled back, have the value of all the digits. -/
theorem trimZeros_value (ds : Bytes) :
    (trimZeros ds).foldl (fun acc c => acc * 10 + (c - 0x30)) 0
        * 10 ^ (ds.length - (trimZeros ds).length)
      = ds.foldl (fun acc c => acc * 10 + (c - 0x30)) 0 ∧
    (trimZeros ds).length ≤ ds.length ∧
    (∀ x ∈ trimZeros ds, x ∈ ds) ∧
    (ds.foldl (fun acc c => acc * 10 + (c - 0x30)) 0 ≠ 0 → trimZeros ds ≠ []) := by
  induction ds using List.reverseRecOn with
  | nil => simp [trimZeros]
  | append_singleton ds x ih =>
    obtain ⟨ih1, ih2, ih3, ih4⟩ := ih
    rw [trimZeros_append]
    split_ifs with hx
    · subst hx
      refine ⟨?_, by simp; omega, fun y hy => by simp [ih3 y hy], ?_⟩
      · rw [digitsValue_append, ← ih1]
        simp only [List.length_append, List.length_singleton]
        have : ds.length + 1 - (trimZeros ds).length = (ds.length - (trimZeros ds).length) + 1 := by
          omega
        rw [this, pow_succ]
        ring
      · rw [digitsValue_append]
        intro h
        apply ih4
        intro h0
        rw [h0] at h
        simp at h
    · refine ⟨by simp, le_refl _, fun y hy => hy, by simp⟩

theorem padDigits_value (k : Nat) : ∀ n : Nat,
    (padDigits k n).foldl (fun acc c => acc * 10 + (c - 0x30)) 0 = n % 10 ^ k ∧
    (padDigits k n).length = k ∧ ∀ x ∈ padDigits k n, isDigit x = true := by
  induction k with
  | zero => intro n; simp [padDigits, Nat.mod_one]
  | succ k ih =>
    intro n
    obtain ⟨e1, e2, e3⟩ := ih (n / 10)
    rw [padDigits, digitsValue_append, e1]
    refine ⟨?_, by simp [e2], ?_⟩
    · have : digit n - 0x30 = n % 10 := by simp [digit]
      rw [this, pow_succ', Nat.mod_mul]
      omega
    · intro x hx
      rcases List.mem_append.mp hx with hx | hx
      · exact e3 x hx
      · simp at hx; subst hx; exact isDigit_digit n

theorem nano9_value (n : Nat) (h : n < 1000000000) :
    (nano9 n).foldl (fun acc c => acc * 10 + (c - 0x30)) 0 = n := by
  rw [nano9, (padDigits_value 9 n).1]
  exact Nat.mod_eq_of_lt h

theorem parseNanoseconds_trim (n : Nat) (h : n < 1000000000) :
    parseNanoseconds (trimZeros (nano9 n)) = n := by
  obtain ⟨e1, e2, _, _⟩ := trimZeros_value (nano9 n)
  have hl : (nano9 n).length = 9 := (padDigits_value 9 n).2.1
  rw [hl] at e1 e2
  unfold parseNanoseconds
  rw [List.take_of_length_le e2, e1, nano9_value n h]

theorem takeWhile_digits_append (ds zone : Bytes) (hd : ∀ x ∈ ds, isDigit x = true)
    (hz : ∀ z ∈ zone.head?, isDigit z = false) :
    (ds ++ zone).takeWhile isDigit = ds := by
  induction ds with
  | nil =>
    cases zone with
    | nil => rfl
    | cons z zs => simp [List.takeWhile_cons, hz z (by simp)]
  | cons d ds ih =>
    simp only [List.cons_append, List.takeWhile_cons, hd d (by simp), if_true]
    rw [ih (fun x hx => hd x (by simp [hx]))]

/-- The fractional digits `parseRFC3339` finds after the seconds are the ones
`appendNano` wrote, and they read back as the nanoseconds. -/
theorem frac_roundtrip (n : Nat) (h : n < 1000000000) (zone : Bytes) (z0 : Nat) (zs : Bytes)
    (hz : zone = z0 :: zs) (hz1 : isDigit z0 = false) (hz2 : z0 ≠ 0x2E) :
    parseNanoseconds (fracDigits (appendNano n ++ zone)) = n ∧
    (if fracDigits (appendNano n ++ zone) = [] then appendNano n ++ zone
      else (appendNano n ++ zone).drop ((fracDigits (appendNano n ++ zone)).length + 1)) = zone := by
  subst hz
  by_cases h0 : n = 0
  · have : fracDigits ([] ++ z0 :: zs) = [] := by
      cases zs with
      | nil => rfl
      | cons z1 zs => simp [fracDigits, hz2]
    simp only [appendNano, if_pos h0, this, if_true]
    simp [parseNanoseconds, h0]
  · obtain ⟨_, _, e3, e4⟩ := trimZeros_value (nano9 n)
    have hne := e4 (by rw [nano9_value n h]; exact h0)
    have hdig : ∀ x ∈ trimZeros (nano9 n), isDigit x = true :=
      fun x hx => (padDigits_value 9 n).2.2 x (e3 x hx)
    simp only [appendNano, if_neg h0]
    match htr : trimZeros (nano9 n), hne, hdig with
    | [], hne, _ => exact absurd rfl hne
    | d :: ds, _, hdig =>
      have hfd : fracDigits (0x2E :: (d :: ds) ++ z0 :: zs) = d :: ds := by
        simp only [fracDigits, List.cons_append, hdig d (by simp), and_self, if_true]
        rw [takeWhile_digits_append ds (z0 :: zs) (fun x hx => hdig x (by simp [hx]))
          (by simp [hz1])]
      rw [hfd]
      refine ⟨?_, ?_⟩
      · rw [← htr]; exact parseNanoseconds_trim n h
      · simp

theorem parseZone_appendZone (off : Int) (h60 : off % 60 = 0)
    (h24 : (Int.tdiv off 60).natAbs / 60 < 24) : parseZone (appendZone off) = some off := by
  obtain ⟨k, hk⟩ : ∃ k : Int, off = 60 * k := ⟨off / 60, by omega⟩
  subst hk
  have htd : Int.tdiv (60 * k) 60 = k := Int.mul_tdiv_cancel_left k (by decide)
  rw [htd] at h24
  by_cases h0 : 60 * k = 0
  · rw [h0]; rfl
  · obtain ⟨m, hm⟩ : ∃ m : Nat, k.natAbs = m := ⟨_, rfl⟩
    rw [hm] at h24
    have hm60 : m % 60 < 60 := Nat.mod_lt _ (by decide)
    simp only [appendZone, if_neg h0, htd, hm, pad2, List.cons_append, List.nil_append,
      List.singleton_append, parseZone]
    rw [parseUint_pad2 _ 0 23 (by omega) (by omega) (by omega),
        parseUint_pad2 _ 0 59 (by omega) (by omega) (by omega)]
    by_cases hneg : k < 0
    · simp only [if_pos hneg, true_or, and_self, if_true, Option.some.injEq]
      omega
    · simp only [if_neg hneg, or_true, and_self, if_true, Option.some.injEq]
      rw [if_neg (by decide)]
      simp only [Option.some.injEq]
      omega

theorem appendZone_head (off : Int) :
    ∃ z0 zs, appendZone off = z0 :: zs ∧ isDigit z0 = false ∧ z0 ≠ 0x2E ∧
      0x20 ≤ z0 ∧ z0 ≠ 0x22 ∧ z0 ≠ 0x5C := by
  unfold appendZone
  split_ifs with h0
  · exact ⟨0x5A, [], rfl, by decide, by decide, by decide, by decide, by decide⟩
  · simp only
    split_ifs
    · exact ⟨0x2D, _, rfl, by decide, by decide, by decide, by decide, by decide⟩
    · exact ⟨0x2B, _, rfl, by decide, by decide, by decide, by decide, by decide⟩


/-- Go: `parseRFC3339` reads back the text `appendStrictRFC3339` wrote: the same
calendar fields and, when the zone offset is a whole number of minutes, the
same offset. The monotonic reading is not part of the text. -/
theorem parseRFC3339_appendStrict (t : Time) (b : Bytes) (hwf : t.WF)
    (h60 : t.offset % 60 = 0) (hb : appendStrictRFC3339 t = some b) :
    parseRFC3339 b = some { t with mono := none } := by
  obtain ⟨m1, m2, d1, d2, hh, hmi, hs, hn⟩ := hwf
  unfold appendStrictRFC3339 at hb
  split_ifs at hb with hy hz
  have hy0 : 0 ≤ t.year := by omega
  have hy1 : t.year ≤ 9999 := by omega
  obtain ⟨y, hyy⟩ : ∃ y : Nat, t.year = (y : Int) := ⟨t.year.toNat, by omega⟩
  have hylt : y < 10000 := by omega
  simp only [Option.some.injEq] at hb
  subst hb
  rw [hyy]
  simp only [Int.toNat_ofNat, pad4, pad2, List.cons_append, List.nil_append, List.append_assoc,
    List.singleton_append]
  obtain ⟨z0, zs, hz0, hz1, hz2, _⟩ := appendZone_head t.offset
  obtain ⟨f1, f2⟩ := frac_roundtrip t.nsec hn (appendZone t.offset) z0 zs hz0 hz1 hz2
  have hd30 : daysIn t.month t.year ≤ 31 := by
    unfold daysIn; split_ifs <;> omega
  simp only [parseRFC3339]
  rw [parseUint_pad4 y hylt, parseUint_pad2 t.month 1 12 (by omega) m1 m2]
  simp only
  rw [← hyy, parseUint_pad2 t.day 1 _ (by omega) d1 d2,
      parseUint_pad2 t.hour 0 23 (by omega) (by omega) (by omega),
      parseUint_pad2 t.minute 0 59 (by omega) (by omega) (by omega),
      parseUint_pad2 t.second 0 59 (by omega) (by omega) (by omega)]
  simp only [and_self, if_true]
  rw [f1, f2, parseZone_appendZone t.offset h60 (by omega)]

end Timestamps

/-! ## The scanner on encoded values and objects -/

section JsonScanning

open Go Json

theorem run_append (s : Scanner) (a b : Bytes) :
    Scanner.run s (a ++ b) = Scanner.run (Scanner.run s a) b := by
  simp [Scanner.run, List.foldl_append]

theorem run_cons (s : Scanner) (a : Nat) (b : Bytes) :
    Scanner.run s (a :: b) = Scanner.run (s.next a) b := rfl

theorem run_nil (s : Scanner) : Scanner.run s [] = s := rfl

theorem endValue_comma (done : List (Bytes × Value)) (key : Bytes) (rest : List Frame)
    (res : Option Value) :
    Scanner.endValue ⟨Step.endValue, Frame.objectValue done key :: rest, [], res⟩ 0x2C =
      ⟨Step.beginString, Frame.objectKey done key :: rest, [], res⟩ := by
  simp [Scanner.endValue, isSpace]

theorem endValue_brace (done : List (Bytes × Value)) (key : Bytes) (rest : List Frame)
    (res : Option Value) :
    Scanner.endValue ⟨Step.endValue, Frame.objectValue done key :: rest, [], res⟩ 0x7D =
      Scanner.finish ⟨Step.endValue, rest, [], res⟩ (Value.obj done) := by
  simp [Scanner.endValue, isSpace]

/-- A quoted run of plain text is scanned as a string with that text as its body. -/
theorem run_quoted (body : Bytes) (ps : List Frame) (tok : Bytes) (res : Option Value)
    (st : Step) (hst : st = Step.beginValue ∨ st = Step.beginString ∨ st = Step.beginStringOrEmpty)
    (hbody : ∀ tok1, Scanner.run ⟨Step.inString, ps, tok1, res⟩ body =
      ⟨Step.inString, ps, tok1 ++ body, res⟩) :
    Scanner.run ⟨st, ps, tok, res⟩ ([0x22] ++ body ++ [0x22]) =
      Scanner.finish ⟨Step.inString, ps, body, res⟩ (Value.str body) := by
  have h1 : Scanner.next ⟨st, ps, tok, res⟩ 0x22 = ⟨Step.inString, ps, [], res⟩ := by
    rcases hst with h | h | h <;> subst h <;> simp [Scanner.next, Scanner.beginValue, isSpace]
  rw [List.append_assoc, List.singleton_append, run_cons, h1, run_append, hbody]
  simp [run_cons, run_nil, Scanner.next]

theorem scansAs_quoted (body : Bytes)
    (hbody : ∀ ps tok1 res, Scanner.run ⟨Step.inString, ps, tok1, res⟩ body =
      ⟨Step.inString, ps, tok1 ++ body, res⟩) :
    ScansAs 0 ([0x22] ++ body ++ [0x22]) (Value.str body) := by
  intro done key rest tok res c _ _
  rw [run_append, run_quoted body _ tok res Step.beginValue (Or.inl rfl) (hbody _ · _)]
  simp [run_cons, run_nil, Scanner.next, Scanner.finish]

theorem scansAs_appendString (s : Bytes) :
    ScansAs 0 (appendString s) (Value.str (escapeAux s.length s)) :=
  scansAs_quoted _ (fun ps tok res => run_inString_escapeAux s.length s ps tok res)

theorem scansAs_plain (body : Bytes) (h : PlainText body) :
    ScansAs 0 ([0x22] ++ body ++ [0x22]) (Value.str body) :=
  scansAs_quoted _ (fun ps tok res => run_inString_plain body ps tok res h)

theorem scansAs_null : ScansAs 0 (str "null") Value.null := by
  intro done key rest tok res c _ _
  simp [str, encodeRune, run_cons, run_nil, Scanner.next, Scanner.beginValue, isSpace,
    Scanner.expect, Scanner.finish]

theorem run_digits (ds : Bytes) : ∀ (ps : List Frame) (tok : Bytes) (res : Option Value),
    (∀ x ∈ ds, isDigit x = true) →
    Scanner.run ⟨Step.one, ps, tok, res⟩ ds = ⟨Step.one, ps, tok ++ ds, res⟩ := by
  induction ds with
  | nil => intro ps tok res _; simp [run_nil]
  | cons d ds ih =>
    intro ps tok res h
    have hd := h d (by simp)
    rw [run_cons]
    have : Scanner.next ⟨Step.one, ps, tok, res⟩ d = ⟨Step.one, ps, tok ++ [d], res⟩ := by
      simp [Scanner.next, hd]
    rw [this, ih ps _ res (fun x hx => h x (by simp [hx]))]
    simp

theorem scansAs_appendInt (n : Int) (hn : n ≠ 0) :
    ScansAs 0 (appendInt n) (Value.num (appendInt n)) := by
  intro done key rest tok res c _ hc
  obtain ⟨d, ds, e1, e2, e3, e4, e5, _⟩ := natDigits_spec n.natAbs
  have hd1 : 0x31 ≤ d := e4 (by omega)
  have hend : ∀ lit, Scanner.next ⟨Step.one, Frame.objectValue done key :: rest, lit, res⟩ c =
      Scanner.endValue
        ⟨Step.endValue, Frame.objectValue (done ++ [(key, Value.num lit)]) key :: rest, [], res⟩ c := by
    intro lit
    have hcd : isDigit c = false := by rcases hc with h | h <;> subst h <;> decide
    have h1 : ¬ c = 0x2E := by rcases hc with h | h <;> subst h <;> decide
    have h2 : ¬ (c = 0x65 ∨ c = 0x45) := by rcases hc with h | h <;> subst h <;> decide
    simp [Scanner.next, hcd, Scanner.state0, h1, h2, Scanner.endNumber, Scanner.finish]
  unfold appendInt
  split_ifs with hneg
  · rw [e1]
    simp only [List.cons_append, run_cons, run_append, run_nil]
    have h1 : Scanner.next ⟨Step.beginValue, Frame.objectValue done key :: rest, tok, res⟩ 0x2D =
        ⟨Step.neg, Frame.objectValue done key :: rest, [0x2D], res⟩ := by
      simp [Scanner.next, Scanner.beginValue, isSpace]
    have h2 : Scanner.next ⟨Step.neg, Frame.objectValue done key :: rest, [0x2D], res⟩ d =
        ⟨Step.one, Frame.objectValue done key :: rest, [0x2D, d], res⟩ := by
      have : ¬ d = 0x30 := by omega
      simp [Scanner.next, this, hd1, e3]
    rw [h1, h2, run_digits ds _ _ _ e5, hend]
    simp
  · rw [e1]
    simp only [List.cons_append, run_cons, run_append, run_nil]
    have h1 : Scanner.next ⟨Step.beginValue, Frame.objectValue done key :: rest, tok, res⟩ d =
        ⟨Step.one, Frame.objectValue done key :: rest, [d], res⟩ := by
      have c1 : isSpace d = false := by simp [isSpace]; omega
      have c2 : ¬ d = 0x7B := by omega
      have c3 : ¬ d = 0x5B := by omega
      have c4 : ¬ d = 0x22 := by omega
      have c5 : ¬ d = 0x2D := by omega
      have c6 : ¬ d = 0x30 := by omega
      have c7 : ¬ d = 0x74 := by omega
      have c8 : ¬ d = 0x66 := by omega
      have c9 : ¬ d = 0x6E := by omega
      simp [Scanner.next, Scanner.beginValue, c1, c2, c3, c4, c5, c6, c7, c8, c9, hd1, e3]
    rw [h1, run_digits ds _ _ _ e5, hend]
    simp

theorem scansAs_mono (d1 d2 : Nat) (h : d1 ≤ d2) (bs : Bytes) (v : Value) (hs : ScansAs d1 bs v) :
    ScansAs d2 bs v :=
  fun done key rest tok res c hd hc => hs done key rest tok res c (by omega) hc

/-- Scanning one object member: the quoted name, the colon and the value. -/
theorem run_member (d : Nat) (name : String) (bs : Bytes) (v : Value)
    (hK : PlainText (str name)) (hv : ScansAs d bs v) (st : Step) (hst : st = Step.beginString ∨ st = Step.beginStringOrEmpty)
    (done : List (Bytes × Value)) (k0 : Bytes) (rest : List Frame) (tok : Bytes)
    (res : Option Value) (c : Nat) (hdepth : rest.length + 1 + d ≤ maxNestingDepth)
    (hc : c = 0x2C ∨ c = 0x7D) :
    Scanner.run ⟨st, Frame.objectKey done k0 :: rest, tok, res⟩ (member name bs ++ [c]) =
      Scanner.endValue
        ⟨Step.endValue, Frame.objectValue (done ++ [(str name, v)]) (str name) :: rest, [], res⟩ c := by
  have hsplit : member name bs ++ [c] = ([0x22] ++ str name ++ [0x22]) ++ ([0x3A] ++ (bs ++ [c])) := by
    simp [member]
  rw [hsplit, run_append,
    run_quoted (str name) _ tok res st (by rcases hst with h | h <;> simp [h])
      (fun tok1 => run_inString_plain _ _ tok1 res hK)]
  have h1 : Scanner.finish ⟨Step.inString, Frame.objectKey done k0 :: rest, str name, res⟩
      (Value.str (str name)) = ⟨Step.endValue, Frame.objectKey done (str name) :: rest, [], res⟩ := by
    simp [Scanner.finish]
  have h2 : Scanner.next ⟨Step.endValue, Frame.objectKey done (str name) :: rest, [], res⟩ 0x3A =
      ⟨Step.beginValue, Frame.objectValue done (str name) :: rest, [], res⟩ := by
    simp [Scanner.next, Scanner.endValue, isSpace]
  rw [h1, List.singleton_append, run_cons, h2]
  exact hv done (str name) rest [] res c hdepth hc

theorem run_members (d : Nat) : ∀ (l : List MemberSpec), l ≠ [] →
    (∀ m ∈ l, PlainText (str m.1) ∧ ScansAs d m.2.1 m.2.2) →
    ∀ (st : Step), (st = Step.beginString ∨ st = Step.beginStringOrEmpty) →
    ∀ (done : List (Bytes × Value)) (k0 : Bytes) (rest : List Frame) (tok : Bytes)
      (res : Option Value), rest.length + 1 + d ≤ maxNestingDepth →
    Scanner.run ⟨st, Frame.objectKey done k0 :: rest, tok, res⟩
        (joinMembers (l.map (fun m => member m.1 m.2.1)) ++ [0x7D]) =
      Scanner.finish ⟨Step.endValue, rest, [], res⟩
        (Value.obj (done ++ l.map (fun m => (str m.1, m.2.2)))) := by
  intro l
  induction l with
  | nil => intro h; exact absurd rfl h
  | cons m l ih =>
    intro _ hall st hst done k0 rest tok res hdepth
    obtain ⟨hK, hv⟩ := hall m (by simp)
    cases l with
    | nil =>
      simp only [List.map_cons, List.map_nil, joinMembers]
      rw [run_member d m.1 m.2.1 m.2.2 hK hv st hst done k0 rest tok res 0x7D hdepth (Or.inr rfl),
        endValue_brace]
    | cons m2 l2 =>
      simp only [List.map_cons, joinMembers] at ih ⊢
      rw [List.append_assoc, List.append_assoc, ← List.append_assoc (member m.1 m.2.1), run_append,
        run_member d m.1 m.2.1 m.2.2 hK hv st hst done k0 rest tok res 0x2C hdepth (Or.inl rfl),
        endValue_comma]
      have := ih (by simp) (fun x hx => hall x (by simp [hx])) Step.beginString (Or.inl rfl)
        (done ++ [(str m.1, m.2.2)]) (str m.1) rest [] res hdepth
      simp only [List.append_assoc] at this ⊢
      rw [this]
      simp

/-- An encoded object, met as a member's value, is scanned as the object of its members. -/
theorem scansAs_object (d : Nat) (l : List MemberSpec) (hne : l ≠ [])
    (hall : ∀ m ∈ l, PlainText (str m.1) ∧ ScansAs d m.2.1 m.2.2) :
    ScansAs (d + 1) ([0x7B] ++ joinMembers (l.map (fun m => member m.1 m.2.1)) ++ [0x7D])
      (Value.obj (l.map (fun m => (str m.1, m.2.2)))) := by
  intro done key rest tok res c hdepth _
  have h1 : Scanner.next ⟨Step.beginValue, Frame.objectValue done key :: rest, tok, res⟩ 0x7B =
      ⟨Step.beginStringOrEmpty, Frame.objectKey [] [] :: Frame.objectValue done key :: rest, tok, res⟩ := by
    have : ¬ (rest.length + 1 + 1 > maxNestingDepth) := by omega
    simp [Scanner.next, Scanner.beginValue, isSpace, Scanner.push, this]
  have hm := run_members d l hne hall Step.beginStringOrEmpty (Or.inr rfl) [] []
    (Frame.objectValue done key :: rest) tok res
    (by simp only [List.length_cons, maxNestingDepth] at hdepth ⊢; omega)
  simp only [List.append_assoc, List.singleton_append, run_append, run_cons, run_nil] at hm ⊢
  rw [h1, hm]
  simp [Scanner.next, Scanner.finish]

/-- An encoded object, as the whole input, parses to the object of its members. -/
theorem parse_object (l : List MemberSpec) (hne : l ≠ [])
    (hall : ∀ m ∈ l, PlainText (str m.1) ∧ ScansAs 1 m.2.1 m.2.2) :
    parse ([0x7B] ++ joinMembers (l.map (fun m => member m.1 m.2.1)) ++ [0x7D]) =
      some (Value.obj (l.map (fun m => (str m.1, m.2.2)))) := by
  have h1 : Scanner.next Scanner.reset 0x7B =
      ⟨Step.beginStringOrEmpty, [Frame.objectKey [] []], [], none⟩ := by
    simp [Scanner.reset, Scanner.next, Scanner.beginValue, isSpace, Scanner.push, maxNestingDepth]
  rw [parse, List.append_assoc, List.singleton_append, run_cons, h1,
    run_members 1 l hne hall Step.beginStringOrEmpty (Or.inr rfl) [] [] [] [] none
      (by simp [maxNestingDepth])]
  simp [Scanner.finish, Scanner.eof, Scanner.next, Scanner.endValue, isSpace]

end JsonScanning

/-! ## Decoding what was encoded -/

section JsonRoundTrip

open Go Json Models GoTime

/-! ### The timestamp text -/

theorem plain_digit (n : Nat) : 0x20 ≤ digit n ∧ digit n ≠ 0x22 ∧ digit n ≠ 0x5C := by
  simp only [digit]; omega

theorem plainText_append (a b : Bytes) (ha : PlainText a) (hb : PlainText b) :
    PlainText (a ++ b) := by
  intro x hx
  rcases List.mem_append.mp hx with h | h
  · exact ha x h
  · exact hb x h

theorem plainText_of_digits (ds : Bytes) (h : ∀ x ∈ ds, isDigit x = true) : PlainText ds := by
  intro x hx
  have := h x hx
  simp [isDigit] at this
  omega

theorem plainText_pad2 (n : Nat) : PlainText (pad2 n) := by
  intro x hx
  simp only [pad2, List.mem_cons, List.mem_singleton, List.not_mem_nil, or_false] at hx
  rcases hx with h | h <;> rw [h] <;> exact plain_digit _

theorem plainText_pad4 (n : Nat) : PlainText (pad4 n) := by
  intro x hx
  simp only [pad4, List.mem_cons, List.mem_singleton, List.not_mem_nil, or_false] at hx
  rcases hx with h | h | h | h <;> rw [h] <;> exact plain_digit _

theorem plainText_single (c : Nat) (h1 : 0x20 ≤ c) (h2 : c ≠ 0x22) (h3 : c ≠ 0x5C) :
    PlainText [c] := by
  intro x hx
  simp at hx
  subst hx
  exact ⟨h1, h2, h3⟩

theorem plainText_appendNano (n : Nat) : PlainText (appendNano n) := by
  unfold appendNano
  split_ifs
  · intro x hx; simp at hx
  · have : PlainText (trimZeros (nano9 n)) :=
      plainText_of_digits _ (fun x hx =>
        (padDigits_value 9 n).2.2 x ((trimZeros_value (nano9 n)).2.2.1 x hx))
    exact plainText_append [0x2E] _ (plainText_single _ (by decide) (by decide) (by decide)) this

theorem plainText_appendZone (off : Int) : PlainText (appendZone off) := by
  unfold appendZone
  split_ifs
  · exact plainText_single _ (by decide) (by decide) (by decide)
  · simp only
    have h1 : ∀ z : Int, PlainText [if z < 0 then 0x2D else 0x2B] := by
      intro z; split_ifs <;> exact plainText_single _ (by decide) (by decide) (by decide)
    exact plainText_append [_] _ (h1 _)
      (plainText_append _ _ (plainText_append _ _ (plainText_pad2 _)
        (plainText_single _ (by decide) (by decide) (by decide))) (plainText_pad2 _))

theorem plainText_rfc (t : Time) (b : Bytes) (h : appendStrictRFC3339 t = some b) :
    PlainText b := by
  unfold appendStrictRFC3339 at h
  split_ifs at h
  simp only [Option.some.injEq] at h
  subst h
  have hs : ∀ c, 0x20 ≤ c → c ≠ 0x22 → c ≠ 0x5C → PlainText [c] := plainText_single
  repeat' apply plainText_append
  all_goals first
    | exact plainText_pad4 _
    | exact plainText_pad2 _
    | exact plainText_appendNano _
    | exact plainText_appendZone _
    | exact hs _ (by decide) (by decide) (by decide)

theorem storeTime_rfc (field : String) (t cur : Time) (rfc : Bytes) (hwf : t.WF)
    (h60 : t.offset % 60 = 0) (hb : appendStrictRFC3339 t = some rfc) :
    storeTime field (Value.str rfc) cur = Except.ok { t with mono := none } := by
  simp [storeTime, UnmarshalJSON, parseRFC3339_appendStrict t rfc hwf h60 hb]

theorem storeString_escaped (field : String) (s cur : Bytes) (saved : Option UnmarshalError)
    (hv : validUTF8 s = true) :
    storeString field (Value.str (escapeAux s.length s)) cur saved = (s, saved) := by
  simp [storeString, unquote_escape s hv]

theorem storeInt_appendInt (field : String) (n cur : Int) (saved : Option UnmarshalError)
    (h1 : -(2 : Int) ^ 63 ≤ n) (h2 : n < (2 : Int) ^ 63) :
    storeInt field (Value.num (appendInt n)) cur saved = (n, saved) := by
  simp [storeInt, parseInt_appendInt n h1 h2]

/-! ### The product object -/

theorem marshalProduct_eq (p : Product) (rfc : Bytes)
    (h : appendStrictRFC3339 p.CreatedAt = some rfc) :
    marshalProduct p = some ([0x7B] ++
      joinMembers ((productMembers p rfc).map (fun m => member m.1 m.2.1)) ++ [0x7D]) := by
  simp only [marshalProduct, MarshalJSON, h, Option.map_some', productMembers]
  congr 3
  simp only [List.map_append, List.map_cons, List.map_nil]
  split_ifs <;> rfl

theorem productMembers_ne_nil (p : Product) (rfc : Bytes) : productMembers p rfc ≠ [] := by
  simp [productMembers]

theorem productMembers_scan (p : Product) (rfc : Bytes) (hrfc : PlainText rfc) :
    ∀ m ∈ productMembers p rfc, PlainText (str m.1) ∧ ScansAs 0 m.2.1 m.2.2 := by
  intro m hm
  simp only [productMembers, List.mem_append, List.mem_cons, List.mem_singleton] at hm
  have k1 : PlainText (str "id") := by unfold PlainText; decide
  have k2 : PlainText (str "name") := by unfold PlainText; decide
  have k3 : PlainText (str "description") := by unfold PlainText; decide
  have k4 : PlainText (str "price") := by unfold PlainText; decide
  have k5 : PlainText (str "created_at") := by unfold PlainText; decide
  rcases hm with (((hm | hm) | hm) | hm) | hm
  · split_ifs at hm
    · simp at hm
    · simp at hm; subst hm
      exact ⟨k1, scansAs_appendString _⟩
  · split_ifs at hm
    · simp at hm
    · simp at hm; subst hm
      exact ⟨k2, scansAs_appendString _⟩
  · split_ifs at hm
    · simp at hm
    · simp at hm; subst hm
      exact ⟨k3, scansAs_appendString _⟩
  · split_ifs at hm with h0
    · simp at hm
    · simp at hm; subst hm
      exact ⟨k4, scansAs_appendInt _ h0⟩
  · simp at hm; subst hm
    exact ⟨k5, scansAs_plain _ hrfc⟩

theorem decodeProductMembers_append (a b : List (Bytes × Value))
    (st : Product × Option UnmarshalError) :
    decodeProductMembers (a ++ b) st =
      match decodeProductMembers a st with
      | Except.ok st1 => decodeProductMembers b st1
      | Except.error e => Except.error e := by
  induction a generalizing st with
  | nil => simp [decodeProductMembers]
  | cons m ms ih =>
    simp only [List.cons_append, decodeProductMembers]
    cases decodeProductMember st m with
    | ok st1 => simp [ih]
    | error e => simp

theorem decodeProductMember_id (q : Product) (saved : Option UnmarshalError) (v : Value) :
    decodeProductMember (q, saved) (str "id", v) =
      Except.ok ({ q with ID := (storeString "Product.id" v q.ID saved).1 },
        (storeString "Product.id" v q.ID saved).2) := by
  simp only [decodeProductMember]
  rw [if_pos (by decide)]

theorem decodeProductMember_name (q : Product) (saved : Option UnmarshalError) (v : Value) :
    decodeProductMember (q, saved) (str "name", v) =
      Except.ok ({ q with Name := (storeString "Product.name" v q.Name saved).1 },
        (storeString "Product.name" v q.Name saved).2) := by
  simp only [decodeProductMember]
  rw [if_neg (by decide), if_pos (by decide)]

theorem decodeProductMember_description (q : Product) (saved : Option UnmarshalError) (v : Value) :
    decodeProductMember (q, saved) (str "description", v) =
      Except.ok ({ q with Description :=
          (storeString "Product.description" v q.Description saved).1 },
        (storeString "Product.description" v q.Description saved).2) := by
  simp only [decodeProductMember]
  rw [if_neg (by decide), if_neg (by decide), if_pos (by decide)]

theorem decodeProductMember_price (q : Product) (saved : Option UnmarshalError) (v : Value) :
    decodeProductMember (q, saved) (str "price", v) =
      Except.ok ({ q with Price := (storeInt "Product.price" v q.Price saved).1 },
        (storeInt "Product.price" v q.Price saved).2) := by
  simp only [decodeProductMember]
  rw [if_neg (by decide), if_neg (by decide), if_neg (by decide), if_pos (by decide)]

theorem decodeProductMember_created_at (q : Product) (saved : Option UnmarshalError) (v : Value) :
    decodeProductMember (q, saved) (str "created_at", v) =
      match storeTime "Product.created_at" v q.CreatedAt with
      | Except.ok t => Except.ok ({ q with CreatedAt := t }, saved)
      | Except.error e => Except.error e := by
  simp only [decodeProductMember]
  rw [if_neg (by decide), if_neg (by decide), if_neg (by decide), if_neg (by decide),
    if_pos (by decide)]
  try rfl

/-- Decoding the members written for a product rebuilds the product, with
the creation time as its text states it. -/
theorem decodeProductMembers_roundtrip (p : Product) (rfc : Bytes)
    (hid : validUTF8 p.ID = true) (hname : validUTF8 p.Name = true)
    (hdesc : validUTF8 p.Description = true)
    (hp1 : -(2 : Int) ^ 63 ≤ p.Price) (hp2 : p.Price < (2 : Int) ^ 63)
    (hwf : p.CreatedAt.WF) (h60 : p.CreatedAt.offset % 60 = 0)
    (hb : appendStrictRFC3339 p.CreatedAt = some rfc) :
    decodeProductMembers ((productMembers p rfc).map (fun m => (str m.1, m.2.2)))
        (Product.zero, none) =
      Except.ok ({ p with CreatedAt := { p.CreatedAt with mono := none } }, none) := by
  obtain ⟨id, name, desc, price, created⟩ := p
  simp only at hid hname hdesc hp1 hp2 hwf h60 hb
  simp only [productMembers, List.map_append, decodeProductMembers_append]
  have s1 : decodeProductMembers
      (List.map (fun m : MemberSpec => (str m.1, m.2.2))
        (if id = [] then [] else [("id", appendString id, Value.str (escapeAux id.length id))]))
      (Product.zero, none) = Except.ok ((⟨id, [], [], 0, GoTime.zero⟩ : Product), none) := by
    split_ifs with h
    · subst h; rfl
    · simp only [List.map_cons, List.map_nil, decodeProductMembers, decodeProductMember_id,
        storeString_escaped _ _ _ _ hid]
      rfl
  have s2 : decodeProductMembers
      (List.map (fun m : MemberSpec => (str m.1, m.2.2))
        (if name = [] then [] else
          [("name", appendString name, Value.str (escapeAux name.length name))]))
      ((⟨id, [], [], 0, GoTime.zero⟩ : Product), none) =
        Except.ok ((⟨id, name, [], 0, GoTime.zero⟩ : Product), none) := by
    split_ifs with h
    · subst h; rfl
    · simp only [List.map_cons, List.map_nil, decodeProductMembers, decodeProductMember_name,
        storeString_escaped _ _ _ _ hname]
  have s3 : decodeProductMembers
      (List.map (fun m : MemberSpec => (str m.1, m.2.2))
        (if desc = [] then [] else
          [("description", appendString desc, Value.str (escapeAux desc.length desc))]))
      ((⟨id, name, [], 0, GoTime.zero⟩ : Product), none) =
        Except.ok ((⟨id, name, desc, 0, GoTime.zero⟩ : Product), none) := by
    split_ifs with h
    · subst h; rfl
    · simp only [List.map_cons, List.map_nil, decodeProductMembers,
        decodeProductMember_description, storeString_escaped _ _ _ _ hdesc]
  have s4 : decodeProductMembers
      (List.map (fun m : MemberSpec => (str m.1, m.2.2))
        (if price = 0 then [] else [("price", appendInt price, Value.num (appendInt price))]))
      ((⟨id, name, desc, 0, GoTime.zero⟩ : Product), none) =
        Except.ok ((⟨id, name, desc, price, GoTime.zero⟩ : Product), none) := by
    split_ifs with h
    · subst h; rfl
    · simp only [List.map_cons, List.map_nil, decodeProductMembers, decodeProductMember_price,
        storeInt_appendInt _ _ _ _ hp1 hp2]
  rw [s1]
  simp only
  rw [s2]
  simp only
  rw [s3]
  simp only
  rw [s4]
  simp only [List.map_cons, List.map_nil, decodeProductMembers, decodeProductMember_created_at,
    storeTime_rfc _ _ _ _ hwf h60 hb]

theorem decodeEventMember_event_type (ev : ProductEvent) (saved : Option UnmarshalError)
    (v : Value) :
    decodeEventMember (ev, saved) (str "event_type", v) =
      Except.ok ({ ev with EventType :=
          (storeString "ProductEvent.event_type" v ev.EventType saved).1 },
        (storeString "ProductEvent.event_type" v ev.EventType saved).2) := by
  simp only [decodeEventMember]
  rw [if_pos (by decide)]

theorem decodeEventMember_product (ev : ProductEvent) (saved : Option UnmarshalError)
    (v : Value) :
    decodeEventMember (ev, saved) (str "product", v) =
      match storeProduct v ev.Product saved with
      | Except.ok (p, saved1) => Except.ok ({ ev with Product := p }, saved1)
      | Except.error e => Except.error e := by
  simp only [decodeEventMember]
  rw [if_neg (by decide), if_pos (by decide)]
  try rfl

theorem decodeEventMember_timestamp (ev : ProductEvent) (saved : Option UnmarshalError)
    (v : Value) :
    decodeEventMember (ev, saved) (str "timestamp", v) =
      match storeTime "ProductEvent.timestamp" v ev.Timestamp with
      | Except.ok t => Except.ok ({ ev with Timestamp := t }, saved)
      | Except.error e => Except.error e := by
  simp only [decodeEventMember]
  rw [if_neg (by decide), if_neg (by decide), if_pos (by decide)]
  try rfl

/-- Decoding what `Marshal` wrote gives back the event as its text states it,
for events whose strings are valid UTF-8 and whose zone offsets are whole minutes. -/
theorem unmarshal_marshal (ev : ProductEvent) (b : Bytes) (hwf : ev.WF) (hvt : ev.ValidText)
    (hz : ev.WholeMinuteZones) (hm : Marshal ev = some b) :
    Unmarshal b = Except.ok ev.onWire := by
  obtain ⟨et, prod, ts⟩ := ev
  obtain ⟨_, hpwf, htwf⟩ := hwf
  obtain ⟨hvet, hvp⟩ := hvt
  obtain ⟨hzt, hzp⟩ := hz
  simp only at hpwf htwf hvet hvp hzt hzp
  -- the timestamp text
  cases hrts : appendStrictRFC3339 ts with
  | none => simp [Marshal, MarshalJSON, hrts] at hm
  | some rts =>
    have hts : MarshalJSON ts = some ([0x22] ++ rts ++ [0x22]) := by simp [MarshalJSON, hrts]
    have kE : PlainText (str "event_type") := by unfold PlainText; decide
    have kP : PlainText (str "product") := by unfold PlainText; decide
    have kT : PlainText (str "timestamp") := by unfold PlainText; decide
    have sE := scansAs_mono 0 1 (by decide) _ _ (scansAs_appendString et)
    have sT := scansAs_mono 0 1 (by decide) _ _ (scansAs_plain rts (plainText_rfc ts rts hrts))
    cases prod with
    | none =>
      simp only [Marshal, hts, Option.some.injEq] at hm
      subst hm
      have hp := parse_object
        [("event_type", appendString et, Value.str (escapeAux et.length et)),
         ("product", str "null", Value.null),
         ("timestamp", [0x22] ++ rts ++ [0x22], Value.str rts)] (by simp)
        (by
          intro m hmem
          simp only [List.mem_cons, List.mem_singleton, List.not_mem_nil, or_false] at hmem
          rcases hmem with h | h | h <;> subst h
          · exact ⟨kE, sE⟩
          · exact ⟨kP, scansAs_mono 0 1 (by decide) _ _ scansAs_null⟩
          · exact ⟨kT, sT⟩)
      simp only [List.map_cons, List.map_nil] at hp
      simp only [Unmarshal, hp, decodeEvent, decodeEventMembers, decodeEventMember_event_type,
        decodeEventMember_product, decodeEventMember_timestamp, storeProduct,
        storeString_escaped _ _ _ _ hvet, storeTime_rfc _ _ _ _ htwf hzt hrts]
      rfl
    | some p =>
      obtain ⟨_, _, _, hp1, hp2, hcwf⟩ := hpwf p rfl
      obtain ⟨hvid, hvname, hvdesc⟩ := hvp p rfl
      have hzc := hzp p rfl
      cases hrc : appendStrictRFC3339 p.CreatedAt with
      | none => simp [Marshal, marshalProduct, MarshalJSON, hrc] at hm
      | some rc =>
        simp only [Marshal, marshalProduct_eq p rc hrc, hts, Option.some.injEq] at hm
        subst hm
        have sP := scansAs_object 0 (productMembers p rc) (productMembers_ne_nil p rc)
          (productMembers_scan p rc (plainText_rfc _ _ hrc))
        have hz0 : ProductEvent.zero.Product.getD Product.zero = Product.zero := rfl
        have hp := parse_object
          [("event_type", appendString et, Value.str (escapeAux et.length et)),
           ("product", [0x7B] ++ joinMembers ((productMembers p rc).map
              (fun m => member m.1 m.2.1)) ++ [0x7D],
            Value.obj ((productMembers p rc).map (fun m => (str m.1, m.2.2)))),
           ("timestamp", [0x22] ++ rts ++ [0x22], Value.str rts)] (by simp)
          (by
            intro m hmem
            simp only [List.mem_cons, List.mem_singleton, List.not_mem_nil, or_false] at hmem
            rcases hmem with h | h | h <;> subst h
            · exact ⟨kE, sE⟩
            · exact ⟨kP, sP⟩
            · exact ⟨kT, sT⟩)
        simp only [List.map_cons, List.map_nil] at hp
        simp only [Unmarshal, hp, decodeEvent, decodeEventMembers, decodeEventMember_event_type,
          decodeEventMember_product, decodeEventMember_timestamp, storeProduct,
          storeString_escaped _ _ _ _ hvet, storeTime_rfc _ _ _ _ htwf hzt hrts,
          hz0,
          decodeProductMembers_roundtrip p rc hvid hvname hvdesc hp1 hp2 hcwf hzc hrc]
        rfl

end JsonRoundTrip

/-! ## The consumer callback -/

section ConsumerCallback

open Go Models Notifications

/-- C1. For every payload that does not decode as a product event, the
consumer's message callback returns the decode error (a non-nil error) and
makes no call to `HandleProductEvent`. -/
theorem callback_decode_failure (service : NotificationService) (message : Bytes)
    (h : ∀ ev, Json.Unmarshal message ≠ Except.ok ev) :
    ∃ err, Json.Unmarshal message = Except.error err ∧
      (Consumer.callback service message).result = Outcome.ret (some (Error.unmarshal err)) ∧
      (Consumer.callback service message).calls = [] := by
  cases hdec : Json.Unmarshal message with
  | error err => exact ⟨err, rfl, by simp [Consumer.callback, hdec], by simp [Consumer.callback, hdec]⟩
  | ok ev => exact absurd hdec (h ev)

/-- C1 at the payload `not json` with the logging notification service: the
payload is a syntax error, the callback returns it and the service is not called. -/
theorem callback_decode_failure_witness :
    (∀ ev, Json.Unmarshal (str "not json") ≠ Except.ok ev) ∧
    ∃ err, Json.Unmarshal (str "not json") = Except.error err ∧
      (Consumer.callback (fun ev => (HandleProductEvent ev).2) (str "not json")).result
        = Outcome.ret (some (Error.unmarshal err)) ∧
      (Consumer.callback (fun ev => (HandleProductEvent ev).2) (str "not json")).calls = [] :=
  have hne : ∀ ev, Json.Unmarshal (str "not json") ≠ Except.ok ev := by
    have h0 : Json.Unmarshal (str "not json") = Except.error Json.UnmarshalError.syntaxError := by
      decide
    intro ev h1
    rw [h0] at h1
    exact Except.noConfusion h1
  ⟨hne, callback_decode_failure _ _ hne⟩

/-- C2. For every payload that decodes to an event, the consumer's message
callback calls `HandleProductEvent` exactly once, with that event, and returns
exactly what the call returned. -/
theorem callback_decode_success (service : NotificationService) (message : Bytes)
    (event : ProductEvent) (h : Json.Unmarshal message = Except.ok event) :
    (Consumer.callback service message).calls = [event] ∧
    (Consumer.callback service message).result = service event := by
  simp [Consumer.callback, h]

/-- C2 at the scenario payload: it decodes to an event whose product is named
`Widget`; the logging service is called once with it and its answer returned. -/
theorem callback_decode_success_witness :
    Json.Unmarshal widgetPayload = Except.ok widgetEvent ∧
    widgetEvent.Product.map (fun p => p.Name) = some (str "Widget") ∧
    (Consumer.callback (fun ev => (HandleProductEvent ev).2) widgetPayload).calls = [widgetEvent] ∧
    (Consumer.callback (fun ev => (HandleProductEvent ev).2) widgetPayload).result
      = (HandleProductEvent widgetEvent).2 :=
  have h : Json.Unmarshal widgetPayload = Except.ok widgetEvent := by
    set_option maxRecDepth 100000 in decide
  ⟨h, by decide, callback_decode_success _ widgetPayload widgetEvent h⟩

end ConsumerCallback

/-! ## The round-trip law -/

section EventRoundTrip

open Go Json Models GoTime Samples

theorem onWire_same (ev : ProductEvent) : ev.onWire.Same ev := by
  obtain ⟨et, prod, ts⟩ := ev
  cases prod with
  | none => exact ⟨rfl, trivial, rfl⟩
  | some p => exact ⟨rfl, ⟨rfl, rfl, rfl, rfl, rfl⟩, rfl⟩

/-- C3 (amended). For every event that can be encoded, whose strings are
valid UTF-8 and whose timestamps have zone offsets of whole minutes, decoding
the JSON that encoding produced yields an event equal to the original: same
event type, same product fields, timestamps denoting the same instants. -/
theorem marshal_unmarshal_roundtrip (ev : ProductEvent) (b : Bytes) (hwf : ev.WF)
    (hvt : ev.ValidText) (hz : ev.WholeMinuteZones) (hm : Marshal ev = some b) :
    ∃ decoded, Unmarshal b = Except.ok decoded ∧ decoded.Same ev :=
  ⟨ev.onWire, unmarshal_marshal ev b hwf hvt hz hm, onWire_same ev⟩

theorem sampleEvent_wf : sampleEvent.WF := by
  refine ⟨by unfold Bytes.WF; decide, ?_, by decide⟩
  intro p hp
  simp only [sampleEvent, Option.some.injEq] at hp
  subst hp
  exact ⟨by unfold Bytes.WF; decide, by unfold Bytes.WF; decide, by unfold Bytes.WF; decide,
    by decide, by decide, by decide⟩

theorem sampleEvent_validText : sampleEvent.ValidText := by
  refine ⟨by decide, ?_⟩
  intro p hp
  simp only [sampleEvent, Option.some.injEq] at hp
  subst hp
  exact ⟨by decide, by decide, by decide⟩

theorem sampleEvent_zones : sampleEvent.WholeMinuteZones := by
  refine ⟨by decide, ?_⟩
  intro p hp
  simp only [sampleEvent, Option.some.injEq] at hp
  subst hp
  decide

/-- C3 (amended) at a sample event: a product with a non-ASCII name, an empty
description, a fraction of a second and a zone five hours west of UTC. -/
theorem marshal_unmarshal_roundtrip_witness :
    sampleEvent.WF ∧ sampleEvent.ValidText ∧ sampleEvent.WholeMinuteZones ∧
    Marshal sampleEvent = some (str
      "\x7b\"event_type\":\"product_created\",\"product\":\x7b\"id\":\"p1\",\"name\":\"Widgét \\u003cb\\u003e\",\"price\":500,\"created_at\":\"2024-05-17T13:04:59.12-05:00\"\x7d,\"timestamp\":\"2024-05-17T13:04:59Z\"\x7d") ∧
    ∃ decoded, Unmarshal (str
      "\x7b\"event_type\":\"product_created\",\"product\":\x7b\"id\":\"p1\",\"name\":\"Widgét \\u003cb\\u003e\",\"price\":500,\"created_at\":\"2024-05-17T13:04:59.12-05:00\"\x7d,\"timestamp\":\"2024-05-17T13:04:59Z\"\x7d")
      = Except.ok decoded ∧ decoded.Same sampleEvent :=
  have hm : Marshal sampleEvent = some (str
      "\x7b\"event_type\":\"product_created\",\"product\":\x7b\"id\":\"p1\",\"name\":\"Widgét \\u003cb\\u003e\",\"price\":500,\"created_at\":\"2024-05-17T13:04:59.12-05:00\"\x7d,\"timestamp\":\"2024-05-17T13:04:59Z\"\x7d") := by
    set_option maxRecDepth 100000 in decide
  ⟨sampleEvent_wf, sampleEvent_validText, sampleEvent_zones, hm,
    marshal_unmarshal_roundtrip sampleEvent _ sampleEvent_wf sampleEvent_validText
      sampleEvent_zones hm⟩

theorem invalidTextEvent_wf : invalidTextEvent.WF := by
  refine ⟨by unfold Bytes.WF; decide, ?_, by decide⟩
  intro p hp
  simp [invalidTextEvent] at hp

theorem subMinuteZoneEvent_wf : subMinuteZoneEvent.WF := by
  refine ⟨by unfold Bytes.WF; decide, ?_, by decide⟩
  intro p hp
  simp [subMinuteZoneEvent] at hp

/-- C3 as stated fails at two events that encode without error. An event
type that is not valid UTF-8 comes back as U+FFFD, and a timestamp in a zone
thirty seconds east of UTC comes back thirty seconds later. -/
theorem roundtrip_fails_on_coerced_text_and_zone :
    (invalidTextEvent.WF ∧
      Marshal invalidTextEvent = some (str
        "\x7b\"event_type\":\"\\ufffd\",\"product\":null,\"timestamp\":\"0001-01-01T00:00:00Z\"\x7d") ∧
      Unmarshal (str
        "\x7b\"event_type\":\"\\ufffd\",\"product\":null,\"timestamp\":\"0001-01-01T00:00:00Z\"\x7d")
        = Except.ok { invalidTextEvent with EventType := [0xEF, 0xBF, 0xBD] } ∧
      ¬ ProductEvent.Same { invalidTextEvent with EventType := [0xEF, 0xBF, 0xBD] }
          invalidTextEvent) ∧
    (subMinuteZoneEvent.WF ∧
      Marshal subMinuteZoneEvent = some (str
        "\x7b\"event_type\":\"product_created\",\"product\":null,\"timestamp\":\"2020-01-01T00:00:00+00:00\"\x7d") ∧
      Unmarshal (str
        "\x7b\"event_type\":\"product_created\",\"product\":null,\"timestamp\":\"2020-01-01T00:00:00+00:00\"\x7d")
        = Except.ok { subMinuteZoneEvent with
            Timestamp := { subMinuteZoneEvent.Timestamp with offset := 0 } } ∧
      ¬ ProductEvent.Same { subMinuteZoneEvent with
            Timestamp := { subMinuteZoneEvent.Timestamp with offset := 0 } }
          subMinuteZoneEvent) := by
  refine ⟨⟨invalidTextEvent_wf, ?_, ?_, ?_⟩, ⟨subMinuteZoneEvent_wf, ?_, ?_, ?_⟩⟩
  · set_option maxRecDepth 100000 in decide
  · set_option maxRecDepth 100000 in decide
  · decide
  · set_option maxRecDepth 100000 in decide
  · set_option maxRecDepth 100000 in decide
  · decide

end EventRoundTrip

/-! ## The products service and its broker -/

section ProductsService

open Go Json Models GoTime Products Samples

theorem trySend_encoded (broker : MessageBroker) (now : Time) (p : Product) (eventType msg : Bytes)
    (hm : Marshal { EventType := eventType, Product := some p, Timestamp := now } = some msg) :
    (trySendProductEvent broker now (some p) eventType).sends
      = [{ topic := [], message := msg, key := p.ID }] ∧
    (trySendProductEvent broker now (some p) eventType).outcome = Outcome.ret () := by
  simp only [trySendProductEvent, hm]
  cases broker { topic := [], message := msg, key := p.ID } <;> simp

theorem trySend_not_encoded (broker : MessageBroker) (now : Time) (p : Product)
    (eventType : Bytes)
    (hm : Marshal { EventType := eventType, Product := some p, Timestamp := now } = none) :
    (trySendProductEvent broker now (some p) eventType).sends = [] ∧
    (trySendProductEvent broker now (some p) eventType).outcome = Outcome.ret () := by
  simp [trySendProductEvent, hm]

theorem trySend_sends (broker : MessageBroker) (now : Time) (p : Product) (eventType : Bytes) :
    ∀ c ∈ (trySendProductEvent broker now (some p) eventType).sends,
      Marshal { EventType := eventType, Product := some p, Timestamp := now } = some c.message ∧
      c.topic = [] ∧ c.key = p.ID := by
  intro c hc
  cases hm : Marshal { EventType := eventType, Product := some p, Timestamp := now } with
  | none =>
    rw [(trySend_not_encoded broker now p eventType hm).1] at hc
    simp at hc
  | some msg =>
    rw [(trySend_encoded broker now p eventType msg hm).1] at hc
    simp at hc
    subst hc
    exact ⟨rfl, rfl, rfl⟩

/-- C4 (amended). For `Create` and `Delete`, whenever the repository call
succeeds with product `p`, the service returns `(p, nil)`; when the event can
be encoded it calls `broker.Send` exactly once, with the empty topic and the
bytes of `p.ID` as key, and when the event cannot be encoded it does not call
`broker.Send`. -/
theorem service_success_sends_when_encoded (repo : ProductsRepository) (broker : MessageBroker)
    (now : Time) (p : Product) :
    (∀ dto, repo.Create dto = (some p, none) →
      (ProductsService.Create repo broker now dto).result = Outcome.ret (some p, none) ∧
      (∀ msg, Marshal { EventType := ProductCreated, Product := some p, Timestamp := now }
          = some msg →
        (ProductsService.Create repo broker now dto).sends
          = [{ topic := [], message := msg, key := p.ID }]) ∧
      (Marshal { EventType := ProductCreated, Product := some p, Timestamp := now } = none →
        (ProductsService.Create repo broker now dto).sends = [])) ∧
    (∀ id, repo.Delete id = (some p, none) →
      (ProductsService.Delete repo broker now id).result = Outcome.ret (some p, none) ∧
      (∀ msg, Marshal { EventType := ProductDeleted, Product := some p, Timestamp := now }
          = some msg →
        (ProductsService.Delete repo broker now id).sends
          = [{ topic := [], message := msg, key := p.ID }]) ∧
      (Marshal { EventType := ProductDeleted, Product := some p, Timestamp := now } = none →
        (ProductsService.Delete repo broker now id).sends = [])) := by
  constructor
  · intro dto h
    simp only [ProductsService.Create, h]
    refine ⟨?_, ?_, ?_⟩
    · cases hm : Marshal { EventType := ProductCreated, Product := some p, Timestamp := now } with
      | none => rw [(trySend_not_encoded broker now p _ hm).2]
      | some msg => rw [(trySend_encoded broker now p _ msg hm).2]
    · intro msg hm; exact (trySend_encoded broker now p _ msg hm).1
    · intro hm; exact (trySend_not_encoded broker now p _ hm).1
  · intro id h
    simp only [ProductsService.Delete, h]
    refine ⟨?_, ?_, ?_⟩
    · cases hm : Marshal { EventType := ProductDeleted, Product := some p, Timestamp := now } with
      | none => rw [(trySend_not_encoded broker now p _ hm).2]
      | some msg => rw [(trySend_encoded broker now p _ msg hm).2]
    · intro msg hm; exact (trySend_encoded broker now p _ msg hm).1
    · intro hm; exact (trySend_not_encoded broker now p _ hm).1

/-- What `sampleProduct`'s `product_created` event at `sampleTime` encodes to. -/
theorem sample_created_message :
    ∃ msg, Marshal { EventType := ProductCreated, Product := some sampleProduct,
                     Timestamp := sampleTime } = some msg := by
  cases h : Marshal { EventType := ProductCreated, Product := some sampleProduct,
                      Timestamp := sampleTime } with
  | some msg => exact ⟨msg, rfl⟩
  | none =>
    have : (Marshal { EventType := ProductCreated, Product := some sampleProduct,
                      Timestamp := sampleTime }).isSome = true := by
      set_option maxRecDepth 100000 in decide
    rw [h] at this
    simp at this

/-- C4 (amended) at a repository that returns the sample product: `Create`
returns it and sends once. -/
theorem service_success_sends_when_encoded_witness :
    (repoReturning sampleProduct).Create sampleDTO = (some sampleProduct, none) ∧
    (ProductsService.Create (repoReturning sampleProduct) brokerOk sampleTime sampleDTO).result
      = Outcome.ret (some sampleProduct, none) ∧
    (ProductsService.Create (repoReturning sampleProduct) brokerOk sampleTime sampleDTO).sends.length
      = 1 :=
  have h := (service_success_sends_when_encoded (repoReturning sampleProduct) brokerOk sampleTime
    sampleProduct).1 sampleDTO rfl
  ⟨rfl, h.1, by
    obtain ⟨msg, hm⟩ := sample_created_message
    rw [h.2.1 msg hm]
    rfl⟩

/-- C4 as stated fails when the repository succeeds with a product created
in the year 10000: its timestamp cannot be encoded, so `Create` returns the
product and never calls `broker.Send`. -/
theorem create_skips_send_for_unencodable_product :
    lateProduct.WF ∧ sampleTime.WF ∧
    (repoReturning lateProduct).Create sampleDTO = (some lateProduct, none) ∧
    (ProductsService.Create (repoReturning lateProduct) brokerOk sampleTime sampleDTO).result
      = Outcome.ret (some lateProduct, none) ∧
    (ProductsService.Create (repoReturning lateProduct) brokerOk sampleTime sampleDTO).sends = [] := by
  refine ⟨⟨by unfold Bytes.WF; decide, by unfold Bytes.WF; decide, by unfold Bytes.WF; decide,
    by decide, by decide, by decide⟩, by decide, rfl, ?_, ?_⟩
  · decide
  · decide

/-- C5. For `Create` and `Delete`, whenever the repository call fails with
error `e`, the service returns `(nil, e)` with `e` unchanged and never calls
`broker.Send`. -/
theorem service_repo_failure (repo : ProductsRepository) (broker : MessageBroker)
    (now : Time) (e : Error) :
    (∀ dto x, repo.Create dto = (x, some e) →
      (ProductsService.Create repo broker now dto).result = Outcome.ret (none, some e) ∧
      (ProductsService.Create repo broker now dto).sends = []) ∧
    (∀ id x, repo.Delete id = (x, some e) →
      (ProductsService.Delete repo broker now id).result = Outcome.ret (none, some e) ∧
      (ProductsService.Delete repo broker now id).sends = []) := by
  constructor
  · intro dto x h
    simp [ProductsService.Create, h]
  · intro id x h
    simp [ProductsService.Delete, h]

/-- C5 at a repository that fails with `repository error`. -/
theorem service_repo_failure_witness :
    (repoFailing (Error.new "repository error")).Create sampleDTO
      = (none, some (Error.new "repository error")) ∧
    (ProductsService.Create (repoFailing (Error.new "repository error")) brokerOk sampleTime
      sampleDTO).result = Outcome.ret (none, some (Error.new "repository error")) ∧
    (ProductsService.Create (repoFailing (Error.new "repository error")) brokerOk sampleTime
      sampleDTO).sends = [] :=
  ⟨rfl, (service_repo_failure (repoFailing (Error.new "repository error")) brokerOk sampleTime
    (Error.new "repository error")).1 sampleDTO none rfl⟩

/-- C6. Every message the service passes to `Send` after a successful
repository call is the JSON encoding of the event whose product is the
product the repository returned, whose timestamp is the current time, and
whose event type is `product_created` for `Create` and `product_deleted`
for `Delete`. -/
theorem service_message_is_encoded_event (repo : ProductsRepository) (broker : MessageBroker)
    (now : Time) (p : Product) :
    (∀ dto, repo.Create dto = (some p, none) →
      ∀ c ∈ (ProductsService.Create repo broker now dto).sends,
        Marshal { EventType := ProductCreated, Product := some p, Timestamp := now }
          = some c.message) ∧
    (∀ id, repo.Delete id = (some p, none) →
      ∀ c ∈ (ProductsService.Delete repo broker now id).sends,
        Marshal { EventType := ProductDeleted, Product := some p, Timestamp := now }
          = some c.message) := by
  constructor
  · intro dto h c hc
    simp only [ProductsService.Create, h] at hc
    exact (trySend_sends broker now p _ c hc).1
  · intro id h c hc
    simp only [ProductsService.Delete, h] at hc
    exact (trySend_sends broker now p _ c hc).1

/-- C6 at a repository that returns the sample product: `Delete` sends a
message, and it is the encoding of the `product_deleted` event. -/
theorem service_message_is_encoded_event_witness :
    (repoReturning sampleProduct).Delete (str "p1") = (some sampleProduct, none) ∧
    (ProductsService.Delete (repoReturning sampleProduct) brokerOk sampleTime (str "p1")).sends
      ≠ [] ∧
    ∀ c ∈ (ProductsService.Delete (repoReturning sampleProduct) brokerOk sampleTime
        (str "p1")).sends,
      Marshal { EventType := ProductDeleted, Product := some sampleProduct,
                Timestamp := sampleTime } = some c.message :=
  ⟨rfl, by set_option maxRecDepth 100000 in decide,
    (service_message_is_encoded_event (repoReturning sampleProduct) brokerOk sampleTime
      sampleProduct).2 (str "p1") rfl⟩

/-- C7. With an initialized producer, `KafkaBroker.Send` hands exactly one
message to `Produce`: to the default topic when the topic argument is empty,
to the given topic when it is not, with the given value and key unchanged. -/
theorem kafka_send_topic_value_key (b : KafkaBroker) (producer : Producer) (now : Time)
    (topic message key : Bytes) (h : b.producer = some producer) :
    ∃ km, (b.Send now topic message key).produced = [km] ∧
      (topic = [] → km.topic = b.topic) ∧ (topic ≠ [] → km.topic = topic) ∧
      km.value = message ∧ km.key = key := by
  refine ⟨b.kafkaMessage now topic message key, ?_, ?_, ?_, rfl, rfl⟩
  · simp only [KafkaBroker.Send, h]
    cases producer (b.kafkaMessage now topic message key) <;> rfl
  · intro ht; simp [KafkaBroker.kafkaMessage, ht]
  · intro ht; simp [KafkaBroker.kafkaMessage, ht]

/-- C7 at a broker with default topic `products` and an empty topic argument. -/
theorem kafka_send_topic_value_key_witness :
    sampleKafkaBroker.producer = some (fun _ => none) ∧
    ∃ km, (sampleKafkaBroker.Send sampleTime [] (str "m") (str "p1")).produced = [km] ∧
      (([] : Bytes) = [] → km.topic = sampleKafkaBroker.topic) ∧
      (([] : Bytes) ≠ [] → km.topic = []) ∧
      km.value = str "m" ∧ km.key = str "p1" :=
  ⟨rfl, kafka_send_topic_value_key sampleKafkaBroker (fun _ => none) sampleTime [] (str "m")
    (str "p1") rfl⟩

/-- C8. `KafkaBroker.Send` returns a non-nil error exactly when the producer
is nil or `Produce` rejects the message, and it never receives from the
delivery channel. -/
theorem kafka_send_error_iff (b : KafkaBroker) (now : Time) (topic message key : Bytes) :
    ((b.Send now topic message key).result ≠ none ↔
      (b.producer = none ∨
        ∃ producer, b.producer = some producer ∧
          producer (b.kafkaMessage now topic message key) ≠ none)) ∧
    (b.Send now topic message key).deliveryReads = 0 := by
  cases hb : b.producer with
  | none => simp [KafkaBroker.Send, hb]
  | some producer =>
    simp only [KafkaBroker.Send, hb]
    cases hp : producer (b.kafkaMessage now topic message key) with
    | none => simp [hp]
    | some err => simp [hp]

end ProductsService

/-! ## The Kafka consumer -/

section KafkaConsumer

open Go Notifications Samples

theorem liveCount_append (ws : List Worker) (w : Worker) :
    liveCount (ws ++ [w]) = liveCount ws + (if w.status = WorkerStatus.exited then 0 else 1) := by
  induction ws with
  | nil => simp [liveCount]
  | cons x xs ih =>
    show (if x.status = WorkerStatus.exited then 0 else 1) + liveCount (xs ++ [w]) = _
    rw [ih]
    simp only [liveCount]
    omega

theorem liveCount_set (ws : List Worker) : ∀ (i : Nat) (w w1 : Worker), ws.get? i = some w →
    liveCount (ws.set i w1) + (if w.status = WorkerStatus.exited then 0 else 1) =
      liveCount ws + (if w1.status = WorkerStatus.exited then 0 else 1) := by
  induction ws with
  | nil => intro i w w1 h; simp at h
  | cons x xs ih =>
    intro i w w1 h
    cases i with
    | zero =>
      simp only [List.get?_cons_zero, Option.some.injEq] at h
      subst h
      simp only [List.set_cons_zero, liveCount]
      omega
    | succ j =>
      simp only [List.get?_cons_succ] at h
      have := ih j w w1 h
      simp only [List.set_cons_succ, liveCount]
      omega

theorem workers_ok_set (ws : List Worker) (i : Nat) (w1 : Worker)
    (h : ∀ w ∈ ws, w.OK) (h1 : w1.OK) : ∀ w ∈ ws.set i w1, w.OK := by
  intro w hw
  rcases List.mem_or_eq_of_mem_set hw with hm | he
  · exact h w hm
  · rw [he]; exact h1

theorem inv_init (cfg : ConsumeConfig) : (ConsumeState.init cfg).Inv cfg := by
  refine ⟨?_, ?_, ?_, ?_, ?_, ?_⟩
  · intro w hw; simp [ConsumeState.init] at hw
  · simp [ConsumeState.init, liveCount]
  · simp [ConsumeState.init, PumpPC.spawnLeft]
  · intro h; simp [ConsumeState.init] at h
  · intro h; simp [ConsumeState.init] at h
  · intro err h; simp [ConsumeState.init] at h

theorem inv_pumpStep (cfg : ConsumeConfig) (s s1 : ConsumeState) (hinv : s.Inv cfg)
    (h : pumpStep cfg s = some s1) : s1.Inv cfg := by
  obtain ⟨i1, i2, i3, i4, i5, i6⟩ := hinv
  unfold pumpStep at h
  split at h
  · -- spawn one worker
    rename_i left hpc
    simp only [Option.some.injEq] at h
    subst h
    refine ⟨?_, ?_, ?_, ?_, ?_, ?_⟩
    · intro w hw
      rcases List.mem_append.mp hw with hm | hm
      · exact i1 w hm
      · simp at hm; subst hm; simp [Worker.OK]
    · simp only [liveCount_append, i2]
      simp
    · simp only [hpc, PumpPC.spawnLeft, List.length_append, List.length_singleton] at i3 ⊢
      omega
    · intro h; simp at h
    · intro h; simp at h
    · intro err h; simp at h
  · -- subscribe
    rename_i hpc
    split at h
    · simp only [Option.some.injEq] at h
      subst h
      refine ⟨i1, i2, ?_, ?_, ?_, ?_⟩
      · simpa [hpc, PumpPC.spawnLeft] using i3
      · intro h; simp at h
      · intro h; simp at h
      · intro err h; simp at h
    · simp only [Option.some.injEq] at h
      subst h
      refine ⟨i1, i2, ?_, ?_, ?_, ?_⟩
      · simpa [hpc, PumpPC.spawnLeft] using i3
      · intro h; simp at h
      · intro h; simp at h
      · intro err h; simp at h
  · -- outer select
    rename_i hpc
    split_ifs at h with hc
    · simp only [Option.some.injEq] at h
      subst h
      refine ⟨i1, i2, ?_, ?_, ?_, ?_⟩
      · simpa [hpc, PumpPC.spawnLeft] using i3
      · intro _; exact hc
      · intro h; simp at h
      · intro err h; simp at h
    · simp only [Option.some.injEq] at h
      subst h
      refine ⟨i1, i2, ?_, ?_, ?_, ?_⟩
      · simpa [hpc, PumpPC.spawnLeft] using i3
      · intro h; simp at h
      · intro h; simp at h
      · intro err h; simp at h
  · -- inner select, ctx.Done case
    rename_i msg hpc
    split_ifs at h with hc
    simp only [Option.some.injEq] at h
    subst h
    refine ⟨i1, i2, ?_, ?_, ?_, ?_⟩
    · simpa [hpc, PumpPC.spawnLeft] using i3
    · intro _; exact hc
    · intro h; simp at h
    · intro err h; simp at h
  · -- close(tasks)
    rename_i hpc
    simp only [Option.some.injEq] at h
    subst h
    refine ⟨i1, i2, ?_, ?_, ?_, ?_⟩
    · simpa [hpc, PumpPC.spawnLeft] using i3
    · intro h; simp at h
    · intro _; exact ⟨i4 hpc, rfl⟩
    · intro err h; simp at h
  · -- wg.Wait() returns
    rename_i hpc
    split_ifs at h with hw
    simp only [Option.some.injEq] at h
    subst h
    obtain ⟨c1, c2⟩ := i5 hpc
    refine ⟨i1, i2, ?_, ?_, ?_, ?_⟩
    · simpa [hpc, PumpPC.spawnLeft] using i3
    · intro h; simp at h
    · intro h; simp at h
    · intro err h
      simp only [PumpPC.returned.injEq, true_and] at h
      exact ⟨c1, c2, hw, h.symm⟩
  · simp at h

theorem inv_pollStep (cfg : ConsumeConfig) (s s1 : ConsumeState) (r : PollResult)
    (hinv : s.Inv cfg) (h : pollStep s r = some s1) : s1.Inv cfg := by
  obtain ⟨i1, i2, i3, i4, i5, i6⟩ := hinv
  unfold pollStep at h
  split at h
  · rename_i hpc
    have hfin : ∀ (pc1 : PumpPC) (cr : Bool) (lg : List LogEntry),
        pc1.spawnLeft = 0 → pc1 ≠ PumpPC.closing → pc1 ≠ PumpPC.waiting →
        (∀ err, pc1 ≠ PumpPC.returned ReturnPath.cancelled err) →
        ConsumeState.Inv cfg { s with pc := pc1, crashed := cr, logged := lg } := by
      intro pc1 cr lg h0 h1 h2 h3
      refine ⟨i1, i2, ?_, fun h => absurd h h1, fun h => absurd h h2, fun err h => absurd h (h3 err)⟩
      simp only [hpc, PumpPC.spawnLeft] at i3
      simp only [h0]
      exact i3
    cases r with
    | message value =>
      simp only [Option.some.injEq] at h; subst h
      exact hfin _ _ _ rfl (by simp) (by simp) (by simp)
    | kafkaError code =>
      simp only at h
      split_ifs at h <;> (simp only [Option.some.injEq] at h; subst h)
      · exact hfin _ _ _ rfl (by simp) (by simp) (by simp)
      · exact hfin _ _ _ rfl (by simp) (by simp) (by simp)
    | nothing =>
      simp only [Option.some.injEq] at h; subst h
      exact hfin _ _ _ rfl (by simp) (by simp) (by simp)
  · simp at h

theorem inv_sendStep (cfg : ConsumeConfig) (s s1 : ConsumeState) (i : Nat)
    (hinv : s.Inv cfg) (h : sendStep s i = some s1) : s1.Inv cfg := by
  obtain ⟨i1, i2, i3, i4, i5, i6⟩ := hinv
  unfold sendStep at h
  split at h
  · rename_i msg w hpc hw
    split_ifs at h with hc
    simp only [Option.some.injEq] at h
    subst h
    have hwok : w.OK := i1 w (List.get?_mem hw)
    refine ⟨?_, ?_, ?_, ?_, ?_, ?_⟩
    · apply workers_ok_set _ _ _ i1
      simp only [Worker.OK, hc.1] at hwok ⊢
      rw [hwok]
    · have := liveCount_set s.workers i w
        { w with status := WorkerStatus.handling msg, received := w.received ++ [msg] } hw
      simp only [hc.1] at this
      simp only [i2]
      simp at this
      omega
    · simpa [hpc, PumpPC.spawnLeft] using i3
    · intro h; simp at h
    · intro h; simp at h
    · intro err h; simp at h
  · simp at h

theorem inv_handlerReturnStep (cfg : ConsumeConfig) (s s1 : ConsumeState) (i : Nat)
    (hinv : s.Inv cfg) (h : handlerReturnStep cfg s i = some s1) : s1.Inv cfg := by
  obtain ⟨i1, i2, i3, i4, i5, i6⟩ := hinv
  unfold handlerReturnStep at h
  split at h
  · rename_i w hw
    split at h
    · rename_i msg hst
      split at h
      · simp only [Option.some.injEq] at h
        subst h
        exact ⟨i1, i2, i3, i4, i5, i6⟩
      · rename_i err hh
        simp only [Option.some.injEq] at h
        subst h
        have hwok : w.OK := i1 w (List.get?_mem hw)
        refine ⟨?_, ?_, by simpa using i3, i4, i5, i6⟩
        · apply workers_ok_set _ _ _ i1
          simp only [Worker.OK, hst] at hwok ⊢
          exact hwok
        · have := liveCount_set s.workers i w
            { w with status := WorkerStatus.idle, completed := w.completed ++ [msg] } hw
          simp only [hst] at this
          simp only [i2]
          simp at this
          omega
    · simp at h
  · simp at h

theorem inv_workerExitStep (cfg : ConsumeConfig) (s s1 : ConsumeState) (i : Nat)
    (hinv : s.Inv cfg) (h : workerExitStep s i = some s1) : s1.Inv cfg := by
  obtain ⟨i1, i2, i3, i4, i5, i6⟩ := hinv
  unfold workerExitStep at h
  split at h
  · rename_i w hw
    split_ifs at h with hc
    simp only [Option.some.injEq] at h
    subst h
    have hwok : w.OK := i1 w (List.get?_mem hw)
    have hlive := liveCount_set s.workers i w { w with status := WorkerStatus.exited } hw
    simp only [hc.1] at hlive
    simp at hlive
    refine ⟨?_, ?_, by simpa using i3, i4, i5, ?_⟩
    · apply workers_ok_set _ _ _ i1
      simp only [Worker.OK, hc.1] at hwok ⊢
      exact hwok
    · simp only [i2]; omega
    · intro err hpc
      obtain ⟨_, _, c3, _⟩ := i6 err hpc
      -- the counter is zero, yet worker `i` has not exited
      simp only at hpc
      rw [i2] at c3
      omega
  · simp at h

/-- Every step of `Consume` preserves its invariant. -/
theorem inv_step (cfg : ConsumeConfig) (s s1 : ConsumeState) (a : Action)
    (hinv : s.Inv cfg) (h : step cfg s a = some s1) : s1.Inv cfg := by
  unfold step at h
  split_ifs at h
  cases a with
  | pump => exact inv_pumpStep cfg s s1 hinv h
  | poll r => exact inv_pollStep cfg s s1 r hinv h
  | send i => exact inv_sendStep cfg s s1 i hinv h
  | ctxDone err =>
    simp only at h
    split at h
    · rename_i hnone
      simp only [Option.some.injEq] at h
      subst h
      obtain ⟨i1, i2, i3, i4, i5, i6⟩ := hinv
      refine ⟨i1, i2, i3, ?_, ?_, ?_⟩
      · intro _; rfl
      · intro hpc; exact ⟨rfl, (i5 hpc).2⟩
      · intro e hpc
        have := (i6 e hpc).1
        rw [hnone] at this
        simp at this
    · simp at h
  | handlerReturn i => exact inv_handlerReturnStep cfg s s1 i hinv h
  | workerExit i => exact inv_workerExitStep cfg s s1 i hinv h

theorem inv_run (cfg : ConsumeConfig) (acts : List Action) : ∀ (s s1 : ConsumeState),
    s.Inv cfg → run cfg s acts = some s1 → s1.Inv cfg := by
  induction acts with
  | nil => intro s s1 hinv h; simp only [run, Option.some.injEq] at h; subst h; exact hinv
  | cons a rest ih =>
    intro s s1 hinv h
    simp only [run] at h
    split at h
    · rename_i s2 hs
      exact ih s2 s1 (inv_step cfg s s2 a hinv hs) h
    · simp at h

/-- No step changes `ctx.Err()` once the context is done. -/
theorem ctxErr_step (cfg : ConsumeConfig) (s s1 : ConsumeState) (a : Action) (e : Error)
    (hc : s.ctxErr = some e) (h : step cfg s a = some s1) : s1.ctxErr = some e := by
  unfold step at h
  split_ifs at h
  cases a with
  | pump =>
    simp only [pumpStep] at h
    split at h <;> (try split at h) <;>
      first
        | (simp only [Option.some.injEq] at h; subst h; exact hc)
        | simp at h
  | poll r =>
    simp only [pollStep] at h
    split at h <;> (try split at h) <;> (try split_ifs at h) <;>
      first
        | (simp only [Option.some.injEq] at h; subst h; exact hc)
        | simp at h
  | send i =>
    simp only [sendStep] at h
    split at h <;> (try split_ifs at h) <;>
      first
        | (simp only [Option.some.injEq] at h; subst h; exact hc)
        | simp at h
  | ctxDone err => simp [hc] at h
  | handlerReturn i =>
    simp only [handlerReturnStep] at h
    split at h <;> (try split at h) <;> (try split at h) <;>
      first
        | (simp only [Option.some.injEq] at h; subst h; exact hc)
        | simp at h
  | workerExit i =>
    simp only [workerExitStep] at h
    split at h <;> (try split_ifs at h) <;>
      first
        | (simp only [Option.some.injEq] at h; subst h; exact hc)
        | simp at h

theorem ctxErr_run (cfg : ConsumeConfig) (acts : List Action) : ∀ (s s1 : ConsumeState) (e : Error),
    run cfg s acts = some s1 →
    (s.ctxErr = some e ∨ Action.ctxDone e ∈ acts) → s1.ctxErr = some e := by
  induction acts with
  | nil =>
    intro s s1 e h hc
    simp only [run, Option.some.injEq] at h
    subst h
    rcases hc with hc | hc
    · exact hc
    · simp at hc
  | cons a rest ih =>
    intro s s1 e h hc
    simp only [run] at h
    split at h
    · rename_i s2 hs
      apply ih s2 s1 e h
      rcases hc with hc | hc
      · exact Or.inl (ctxErr_step cfg s s2 a e hc hs)
      · rcases List.mem_cons.mp hc with hc | hc
        · subst hc
          left
          unfold step at hs
          split_ifs at hs
          simp only at hs
          split at hs
          · simp only [Option.some.injEq] at hs; subst hs; rfl
          · simp at hs
        · exact Or.inr hc
    · simp at h

/-- C9. When `Consume` has returned through a `ctx.Done()` case, the handoff
channel is closed, all `workerCount` workers have exited, each having
completed the handler call for every message it received, and the returned
error is `ctx.Err()`: a non-nil error, `context.Canceled` when the context
was cancelled explicitly. -/
theorem consume_cancel_drains (cfg : ConsumeConfig) (acts : List Action) (s : ConsumeState)
    (err : Option Error) (hrun : run cfg (ConsumeState.init cfg) acts = some s)
    (hpc : s.pc = PumpPC.returned ReturnPath.cancelled err) :
    s.closed = true ∧
    s.workers.length = cfg.workerCount.toNat ∧
    (∀ w ∈ s.workers, w.status = WorkerStatus.exited ∧ w.completed = w.received) ∧
    err = s.ctxErr ∧ (∃ e, err = some e) ∧
    (∀ e, Action.ctxDone e ∈ acts → err = some e) := by
  obtain ⟨i1, i2, i3, _, _, i6⟩ := inv_run cfg acts _ s (inv_init cfg) hrun
  obtain ⟨c1, c2, c3, c4⟩ := i6 err hpc
  have hall : ∀ ws : List Worker, liveCount ws = 0 →
      ∀ w ∈ ws, w.status = WorkerStatus.exited := by
    intro ws
    induction ws with
    | nil => intro _ w hw; simp at hw
    | cons x xs ih =>
      intro h0 w hw
      simp only [liveCount] at h0
      have hx : x.status = WorkerStatus.exited := by
        by_contra hne
        simp [hne] at h0
      rcases List.mem_cons.mp hw with h | h
      · rw [h]; exact hx
      · exact ih (by omega) w h
  have hzero : liveCount s.workers = 0 := by
    rw [i2] at c3
    exact_mod_cast c3
  refine ⟨c2, ?_, ?_, c4, ?_, ?_⟩
  · simpa [hpc, PumpPC.spawnLeft] using i3
  · intro w hw
    have hs := hall s.workers hzero w hw
    have hok := i1 w hw
    simp only [Worker.OK, hs] at hok
    exact ⟨hs, hok.symm⟩
  · rw [c4]
    exact Option.isSome_iff_exists.mp c1
  · intro e he
    rw [c4]
    exact ctxErr_run cfg acts _ s e hrun (Or.inr he)

/-- C9 on a run with one worker: a message is handed over, the context is
cancelled while its handler runs, and `Consume` returns `context.Canceled`
after the handler has finished and the worker has exited. -/
theorem consume_cancel_drains_witness :
    run sampleConfig (ConsumeState.init sampleConfig) sampleRun = some sampleFinal ∧
    sampleFinal.closed = true ∧
    sampleFinal.workers.length = sampleConfig.workerCount.toNat ∧
    (∀ w ∈ sampleFinal.workers, w.status = WorkerStatus.exited ∧ w.completed = w.received) ∧
    some Error.canceled = sampleFinal.ctxErr ∧ (∃ e, some Error.canceled = some e) ∧
    (∀ e, Action.ctxDone e ∈ sampleRun → some Error.canceled = some e) :=
  have h : run sampleConfig (ConsumeState.init sampleConfig) sampleRun = some sampleFinal := by
    decide
  ⟨h, consume_cancel_drains sampleConfig sampleRun sampleFinal (some Error.canceled) h rfl⟩

/-- Once `Consume` has returned through the subscribe-failure path with the
channel open and every worker waiting to receive, no step changes the
workers, the channel or the wait-group counter. -/
theorem subscribe_failure_step (cfg : ConsumeConfig) (s s1 : ConsumeState) (a : Action)
    (err : Option Error) (hpc : s.pc = PumpPC.returned ReturnPath.subscribe err)
    (hcl : s.closed = false) (hidle : ∀ w ∈ s.workers, w.status = WorkerStatus.idle)
    (h : step cfg s a = some s1) :
    s1.pc = PumpPC.returned ReturnPath.subscribe err ∧ s1.closed = false ∧
    s1.workers = s.workers ∧ s1.wg = s.wg := by
  unfold step at h
  split_ifs at h
  cases a with
  | pump => simp [pumpStep, hpc] at h
  | poll r => simp [pollStep, hpc] at h
  | send i =>
    simp [sendStep, hpc] at h
  | ctxDone e =>
    simp only at h
    split at h
    · simp only [Option.some.injEq] at h
      subst h
      exact ⟨hpc, hcl, rfl, rfl⟩
    · simp at h
  | handlerReturn i =>
    simp only [handlerReturnStep] at h
    split at h
    · rename_i w hw
      have := hidle w (List.get?_mem hw)
      simp [this] at h
    · simp at h
  | workerExit i =>
    simp only [workerExitStep, hcl] at h
    split at h <;> simp at h

theorem subscribe_failure_run (cfg : ConsumeConfig) (acts : List Action) :
    ∀ (s s1 : ConsumeState) (err : Option Error),
    s.pc = PumpPC.returned ReturnPath.subscribe err → s.closed = false →
    (∀ w ∈ s.workers, w.status = WorkerStatus.idle) → run cfg s acts = some s1 →
    s1.pc = PumpPC.returned ReturnPath.subscribe err ∧ s1.closed = false ∧
    s1.workers = s.workers ∧ s1.wg = s.wg := by
  induction acts with
  | nil =>
    intro s s1 err hpc hcl _ h
    simp only [run, Option.some.injEq] at h
    subst h
    exact ⟨hpc, hcl, rfl, rfl⟩
  | cons a rest ih =>
    intro s s1 err hpc hcl hidle h
    simp only [run] at h
    split at h
    · rename_i s2 hs
      obtain ⟨c1, c2, c3, c4⟩ := subscribe_failure_step cfg s s2 a err hpc hcl hidle hs
      obtain ⟨d1, d2, d3, d4⟩ := ih s2 s1 err c1 c2 (by rw [c3]; exact hidle) h
      exact ⟨d1, d2, by rw [d3, c3], by rw [d4, c4]⟩
    · simp at h

/-- C10 fails on the code: `Consume` starts its workers before it subscribes.
With one worker and a failing `Subscribe`, `Consume` returns the wrapped
error while the worker still waits on the open channel and the wait-group
counter is one; from then on nothing changes that, so the `wg.Wait()` of a
later `Close` never returns. -/
theorem consume_subscribe_failure_leaves_worker :
    run failingConfig (ConsumeState.init failingConfig) [Action.pump, Action.pump]
      = some failingFinal ∧
    failingFinal.wg = 1 ∧
    failingFinal.workers = [{ status := WorkerStatus.idle, received := [], completed := [] }] ∧
    ∀ (acts : List Action) (s : ConsumeState), run failingConfig failingFinal acts = some s →
      s.workers = failingFinal.workers ∧ s.closed = false ∧ ¬ closeWaitReturns s := by
  refine ⟨by decide, rfl, rfl, ?_⟩
  intro acts s h
  obtain ⟨_, c2, c3, c4⟩ := subscribe_failure_run failingConfig acts failingFinal s _ rfl rfl
    (by intro w hw; simp [failingFinal] at hw; subst hw; rfl) h
  refine ⟨c3, c2, ?_⟩
  unfold closeWaitReturns
  rw [c4]
  decide

end KafkaConsumer

/-! ## Poll errors in the pump loop -/

section PollErrors

open Go Notifications Samples

/-- Once the pump has subscribed it stays in its loop or on the way out
through a `ctx.Done()` case: no step takes it back or to the subscribe-failure return. -/
theorem pastSubscribe_step (cfg : ConsumeConfig) (s s1 : ConsumeState) (a : Action)
    (hp : s.pc.pastSubscribe = true) (h : step cfg s a = some s1) :
    s1.pc.pastSubscribe = true := by
  unfold step at h
  split_ifs at h
  cases a with
  | pump =>
    have h : pumpStep cfg s = some s1 := h
    unfold pumpStep at h
    split at h
    · rename_i left hpc
      simp [hpc, PumpPC.pastSubscribe] at hp
    · rename_i hpc
      simp [hpc, PumpPC.pastSubscribe] at hp
    · split_ifs at h <;>
        (simp only [Option.some.injEq] at h
         subst h
         rfl)
    · split_ifs at h
      simp only [Option.some.injEq] at h
      subst h
      rfl
    · simp only [Option.some.injEq] at h
      subst h
      rfl
    · split_ifs at h
      simp only [Option.some.injEq] at h
      subst h
      rfl
    · simp at h
  | poll r =>
    have h : pollStep s r = some s1 := h
    unfold pollStep at h
    split at h
    · cases r with
      | message value =>
        simp only [Option.some.injEq] at h
        subst h
        rfl
      | kafkaError code =>
        simp only at h
        split_ifs at h <;>
          (simp only [Option.some.injEq] at h
           subst h
           rfl)
      | nothing =>
        simp only [Option.some.injEq] at h
        subst h
        rfl
    · simp at h
  | send i =>
    have h : sendStep s i = some s1 := h
    unfold sendStep at h
    split at h
    · split_ifs at h
      simp only [Option.some.injEq] at h
      subst h
      rfl
    · simp at h
  | ctxDone err =>
    simp only at h
    split at h
    · simp only [Option.some.injEq] at h
      subst h
      exact hp
    · simp at h
  | handlerReturn i =>
    have h : handlerReturnStep cfg s i = some s1 := h
    unfold handlerReturnStep at h
    split at h
    · split at h
      · split at h <;>
          (simp only [Option.some.injEq] at h
           subst h
           exact hp)
      · simp at h
    · simp at h
  | workerExit i =>
    have h : workerExitStep s i = some s1 := h
    unfold workerExitStep at h
    split at h
    · split_ifs at h
      simp only [Option.some.injEq] at h
      subst h
      exact hp
    · simp at h

theorem pastSubscribe_run (cfg : ConsumeConfig) (acts : List Action) : ∀ (s s1 : ConsumeState),
    s.pc.pastSubscribe = true → run cfg s acts = some s1 → s1.pc.pastSubscribe = true := by
  induction acts with
  | nil =>
    intro s s1 hp h
    simp only [run, Option.some.injEq] at h
    subst h
    exact hp
  | cons a rest ih =>
    intro s s1 hp h
    simp only [run] at h
    split at h
    · rename_i s2 hs
      exact ih s2 s1 (pastSubscribe_step cfg s s2 a hp hs) h
    · simp at h

/-- C11. In every state `Consume` reaches with the pump inside `ReadMessage`,
a poll that returns an error, the timeout or any other code, is a step of
the loop: the pump is back at the outer `select`, nothing has crashed or
returned, no message was handed to a worker, and the workers, the channel
and the wait group are as they were; a timeout logs nothing and any other
error logs one `Consumer error` entry. From there the pump polls again
unless the context is done, and whatever follows, `Consume` returns only
through a `ctx.Done()` case, with the context done and `ctx.Err()` as its error. -/
theorem poll_error_continues (cfg : ConsumeConfig) (acts : List Action) (s : ConsumeState)
    (code : Int) (hrun : run cfg (ConsumeState.init cfg) acts = some s)
    (hpc : s.pc = PumpPC.polling) (hc : s.crashed = false) :
    ∃ s1, step cfg s (Action.poll (PollResult.kafkaError code)) = some s1 ∧
      s1.pc = PumpPC.loopTop ∧ s1.crashed = false ∧
      s1.workers = s.workers ∧ s1.closed = s.closed ∧ s1.wg = s.wg ∧ s1.ctxErr = s.ctxErr ∧
      handoffs cfg s [Action.poll (PollResult.kafkaError code)] = [] ∧
      s1.logged = (if code = ErrTimedOut then s.logged
                   else s.logged ++ [consumerErrorEntry code]) ∧
      (s1.ctxErr = none → step cfg s1 Action.pump = some { s1 with pc := PumpPC.polling }) ∧
      (∀ acts1 s2 path err, run cfg s1 acts1 = some s2 → s2.pc = PumpPC.returned path err →
        path = ReturnPath.cancelled ∧ s2.ctxErr.isSome = true ∧ err = s2.ctxErr) := by
  have hstep : step cfg s (Action.poll (PollResult.kafkaError code)) =
      some (if code = ErrTimedOut then { s with pc := PumpPC.loopTop }
            else { s with pc := PumpPC.loopTop,
                          logged := s.logged ++ [consumerErrorEntry code] }) := by
    unfold step
    rw [if_neg (by simp [hc])]
    simp only [pollStep, hpc]
    split_ifs <;> rfl
  refine ⟨_, hstep, ?_, ?_, ?_, ?_, ?_, ?_, ?_, ?_, ?_, ?_⟩
  · split_ifs <;> rfl
  · split_ifs <;> exact hc
  · split_ifs <;> rfl
  · split_ifs <;> rfl
  · split_ifs <;> rfl
  · split_ifs <;> rfl
  · simp only [handoffs, hstep]
  · split_ifs <;> rfl
  · intro hnone
    unfold step
    split_ifs with hcode hcr hcr
    · simp [hc] at hcr
    · have hn : s.ctxErr = none := by simpa [hcode] using hnone
      simp [pumpStep, hn]
    · simp [hc] at hcr
    · have hn : s.ctxErr = none := by simpa [hcode] using hnone
      simp [pumpStep, hn]
  · intro acts1 s2 path err hrun1 hret
    have hinv1 := inv_step cfg s _ _ (inv_run cfg acts _ s (inv_init cfg) hrun) hstep
    have hinv2 := inv_run cfg acts1 _ s2 hinv1 hrun1
    have hps : s2.pc.pastSubscribe = true :=
      pastSubscribe_run cfg acts1 _ s2 (by split_ifs <;> rfl) hrun1
    have hpath : path = ReturnPath.cancelled := by
      cases path with
      | cancelled => rfl
      | subscribe => simp [hret, PumpPC.pastSubscribe] at hps
    subst hpath
    obtain ⟨_, _, _, _, _, i6⟩ := hinv2
    obtain ⟨c1, _, _, c4⟩ := i6 err hret
    exact ⟨rfl, c1, c4⟩

/-- C11 on the run of `sampleConfig` that brings the pump into `ReadMessage`:
after a timeout the pump is at the outer `select` with the log unchanged,
after a transport error it is there with one more log entry, and in both
cases its next step is another poll. -/
theorem poll_error_continues_witness :
    run sampleConfig (ConsumeState.init sampleConfig) [Action.pump, Action.pump, Action.pump]
      = some pollingState ∧
    pollingState.pc = PumpPC.polling ∧ pollingState.crashed = false ∧
    step sampleConfig pollingState (Action.poll (PollResult.kafkaError ErrTimedOut))
      = some { pollingState with pc := PumpPC.loopTop } ∧
    step sampleConfig pollingState (Action.poll (PollResult.kafkaError ErrTransport))
      = some { pollingState with pc := PumpPC.loopTop,
                                 logged := pollingState.logged ++
                                   [consumerErrorEntry ErrTransport] } ∧
    ∃ s1, step sampleConfig pollingState (Action.poll (PollResult.kafkaError ErrTransport))
        = some s1 ∧ s1.pc = PumpPC.loopTop ∧ s1.crashed = false :=
  have h : run sampleConfig (ConsumeState.init sampleConfig)
      [Action.pump, Action.pump, Action.pump] = some pollingState := by decide
  match poll_error_continues sampleConfig _ pollingState ErrTransport h rfl rfl with
  | ⟨s1, h1, h2, h3, _⟩ => ⟨h, rfl, rfl, by decide, by decide, s1, h1, h2, h3⟩

end PollErrors

/-! ## Events without a product and events of unknown type -/

section ReaderEvents

open Go Models Json Notifications Samples

/-- C12 fails on the code: a payload that is valid JSON, names the event type
`product_created` or `product_deleted` and omits the product, or gives it as
`null`, decodes to an event whose `Product` pointer is nil, and
`HandleProductEvent` panics on reading the product's name. The panic is not
recovered: a worker of `Consume` that handles such a message takes the
process down. -/
theorem callback_panics_without_product :
    Json.Unmarshal noProductPayload
      = Except.ok { EventType := ProductCreated, Product := none, Timestamp := GoTime.zero } ∧
    (Consumer.callback (fun ev => (HandleProductEvent ev).2) noProductPayload).result
      = Outcome.panic ∧
    (Consumer.callback (fun ev => (HandleProductEvent ev).2) nullProductPayload).result
      = Outcome.panic ∧
    (run callbackConfig (ConsumeState.init callbackConfig)
      [Action.pump, Action.pump, Action.pump, Action.poll (PollResult.message noProductPayload),
       Action.send 0, Action.handlerReturn 0]).map (fun s => s.crashed) = some true := by
  refine ⟨?_, ?_, ?_, ?_⟩ <;> set_option maxRecDepth 100000 in decide

/-- The unknown-type branch of `HandleProductEvent`: for an event whose type
is neither `product_created` nor `product_deleted` it logs one warning with
the event type and returns nil, whether or not the event has a product. -/
theorem handle_unknown_event_type (ev : ProductEvent)
    (h1 : ev.EventType ≠ models.ProductCreated) (h2 : ev.EventType ≠ models.ProductDeleted) :
    HandleProductEvent ev =
      ([{ level := "warn", msg := "UNKNOWN EVENT TYPE",
          fields := [Field.string "event_type" ev.EventType] }], Outcome.ret none) := by
  simp [HandleProductEvent, h1, h2]

/-- C13. For every payload that decodes to an event whose type is neither
`product_created` nor `product_deleted`, `HandleProductEvent` takes the
default branch (it logs `UNKNOWN EVENT TYPE` and returns nil), and the
consumer's message callback calls it once and returns nil: the message is
not rejected with an error. -/
theorem unknown_event_type_accepted (message : Bytes) (ev : ProductEvent)
    (h : Json.Unmarshal message = Except.ok ev)
    (h1 : ev.EventType ≠ models.ProductCreated) (h2 : ev.EventType ≠ models.ProductDeleted) :
    HandleProductEvent ev =
      ([{ level := "warn", msg := "UNKNOWN EVENT TYPE",
          fields := [Field.string "event_type" ev.EventType] }], Outcome.ret none) ∧
    (Consumer.callback (fun e => (HandleProductEvent e).2) message).calls = [ev] ∧
    (Consumer.callback (fun e => (HandleProductEvent e).2) message).logged = [] ∧
    (Consumer.callback (fun e => (HandleProductEvent e).2) message).result = Outcome.ret none := by
  have hd := handle_unknown_event_type ev h1 h2
  refine ⟨hd, ?_, ?_, ?_⟩
  · simp [Consumer.callback, h]
  · simp [Consumer.callback, h]
  · simp [Consumer.callback, h, hd]

/-- C13 at a `product_updated` payload: it decodes, the event type is neither
known type, and the callback returns nil after the default branch. -/
theorem unknown_event_type_accepted_witness :
    Json.Unmarshal unknownTypePayload = Except.ok unknownTypeEvent ∧
    unknownTypeEvent.EventType ≠ models.ProductCreated ∧
    unknownTypeEvent.EventType ≠ models.ProductDeleted ∧
    (Consumer.callback (fun e => (HandleProductEvent e).2) unknownTypePayload).result
      = Outcome.ret none :=
  have h : Json.Unmarshal unknownTypePayload = Except.ok unknownTypeEvent := by
    set_option maxRecDepth 100000 in decide
  have h1 : unknownTypeEvent.EventType ≠ models.ProductCreated := by decide
  have h2 : unknownTypeEvent.EventType ≠ models.ProductDeleted := by decide
  ⟨h, h1, h2, (unknown_event_type_accepted unknownTypePayload unknownTypeEvent h h1 h2).2.2.2⟩

/-- Every payload the writer encodes for an event of a type other than
`product_created` and `product_deleted` decodes on the reader's side, and the
decoded event takes the default branch. -/
theorem encoded_unknown_event_type_accepted (ev : ProductEvent) (b : Bytes) (hwf : ev.WF)
    (hvt : ev.ValidText) (hz : ev.WholeMinuteZones) (hm : Marshal ev = some b)
    (h1 : ev.EventType ≠ models.ProductCreated) (h2 : ev.EventType ≠ models.ProductDeleted) :
    Json.Unmarshal b = Except.ok ev.onWire ∧
    (Consumer.callback (fun e => (HandleProductEvent e).2) b).result = Outcome.ret none := by
  have h := unmarshal_marshal ev b hwf hvt hz hm
  have hd := handle_unknown_event_type ev.onWire h1 h2
  exact ⟨h, by simp [Consumer.callback, h, hd]⟩

end ReaderEvents

/-! ## The members of an encoded event -/

section WireSchema

open Go Models Json GoTime Samples

/-- What `Marshal` writes for an event with a product parses to an object of
three members, the product being the object of the members `marshalProduct`
wrote. -/
theorem parse_marshal (ev : ProductEvent) (p : Product) (b : Bytes)
    (hp : ev.Product = some p) (hm : Marshal ev = some b) :
    ∃ rts rc, parse b = some (Value.obj
      [(str "event_type", Value.str (escapeAux ev.EventType.length ev.EventType)),
       (str "product", Value.obj ((productMembers p rc).map (fun m => (str m.1, m.2.2)))),
       (str "timestamp", Value.str rts)]) := by
  obtain ⟨et, prod, ts⟩ := ev
  simp only at hp
  subst hp
  cases hrts : appendStrictRFC3339 ts with
  | none => simp [Marshal, MarshalJSON, hrts] at hm
  | some rts =>
    have hts : MarshalJSON ts = some ([0x22] ++ rts ++ [0x22]) := by simp [MarshalJSON, hrts]
    cases hrc : appendStrictRFC3339 p.CreatedAt with
    | none => simp [Marshal, marshalProduct, MarshalJSON, hrc] at hm
    | some rc =>
      simp only [Marshal, marshalProduct_eq p rc hrc, hts, Option.some.injEq] at hm
      subst hm
      have kE : PlainText (str "event_type") := by unfold PlainText; decide
      have kP : PlainText (str "product") := by unfold PlainText; decide
      have kT : PlainText (str "timestamp") := by unfold PlainText; decide
      have sE := scansAs_mono 0 1 (by decide) _ _ (scansAs_appendString et)
      have sT := scansAs_mono 0 1 (by decide) _ _ (scansAs_plain rts (plainText_rfc ts rts hrts))
      have sP := scansAs_object 0 (productMembers p rc) (productMembers_ne_nil p rc)
        (productMembers_scan p rc (plainText_rfc _ _ hrc))
      have hparse := parse_object
        [("event_type", appendString et, Value.str (escapeAux et.length et)),
         ("product", [0x7B] ++ joinMembers ((productMembers p rc).map
            (fun m => member m.1 m.2.1)) ++ [0x7D],
          Value.obj ((productMembers p rc).map (fun m => (str m.1, m.2.2)))),
         ("timestamp", [0x22] ++ rts ++ [0x22], Value.str rts)] (by simp)
        (by
          intro m hmem
          simp only [List.mem_cons, List.mem_singleton, List.not_mem_nil, or_false] at hmem
          rcases hmem with h | h | h <;> subst h
          · exact ⟨kE, sE⟩
          · exact ⟨kP, sP⟩
          · exact ⟨kT, sT⟩)
      simp only [List.map_cons, List.map_nil] at hparse
      exact ⟨rts, rc, hparse⟩

/-- The kinds of the members of the product object `marshalProduct` writes:
`created_at` is always there; `id`, `name`, `description` and `price` are
there exactly when the field is not empty, or not zero. -/
theorem productMembers_kinds (p : Product) (rc : Bytes) :
    (Value.obj ((productMembers p rc).map (fun m => (str m.1, m.2.2)))).memberKind "id"
      = (if p.ID = [] then none else some "string") ∧
    (Value.obj ((productMembers p rc).map (fun m => (str m.1, m.2.2)))).memberKind "name"
      = (if p.Name = [] then none else some "string") ∧
    (Value.obj ((productMembers p rc).map (fun m => (str m.1, m.2.2)))).memberKind "description"
      = (if p.Description = [] then none else some "string") ∧
    (Value.obj ((productMembers p rc).map (fun m => (str m.1, m.2.2)))).memberKind "price"
      = (if p.Price = 0 then none else some "number") ∧
    (Value.obj ((productMembers p rc).map (fun m => (str m.1, m.2.2)))).memberKind "created_at"
      = some "string" := by
  have e1 : (str "id" = str "name") = False := by decide
  have e2 : (str "id" = str "description") = False := by decide
  have e3 : (str "id" = str "price") = False := by decide
  have e4 : (str "id" = str "created_at") = False := by decide
  have e5 : (str "name" = str "description") = False := by decide
  have e6 : (str "name" = str "price") = False := by decide
  have e7 : (str "name" = str "created_at") = False := by decide
  have e8 : (str "description" = str "price") = False := by decide
  have e9 : (str "description" = str "created_at") = False := by decide
  have e10 : (str "price" = str "created_at") = False := by decide
  have f1 : (str "name" = str "id") = False := by decide
  have f2 : (str "description" = str "id") = False := by decide
  have f3 : (str "price" = str "id") = False := by decide
  have f4 : (str "created_at" = str "id") = False := by decide
  have f5 : (str "description" = str "name") = False := by decide
  have f6 : (str "price" = str "name") = False := by decide
  have f7 : (str "created_at" = str "name") = False := by decide
  have f8 : (str "price" = str "description") = False := by decide
  have f9 : (str "created_at" = str "description") = False := by decide
  have f10 : (str "created_at" = str "price") = False := by decide
  by_cases h1 : p.ID = [] <;> by_cases h2 : p.Name = [] <;> by_cases h3 : p.Description = [] <;>
    by_cases h4 : p.Price = 0 <;>
    simp [productMembers, h1, h2, h3, h4, Value.memberKind, Value.get, lookupMember, Value.kind,
      e1, e2, e3, e4, e5, e6, e7, e8, e9, e10, f1, f2, f3, f4, f5, f6, f7, f8, f9, f10]

/-- The `price` member `marshalProduct` writes for a non-zero price is the
number whose literal is the decimal text of the price. -/
theorem productMembers_price (p : Product) (rc : Bytes) (h : p.Price ≠ 0) :
    (Value.obj ((productMembers p rc).map (fun m => (str m.1, m.2.2)))).get "price"
      = some (Value.num (appendInt p.Price)) := by
  have f3 : (str "id" = str "price") = False := by decide
  have f6 : (str "name" = str "price") = False := by decide
  have f8 : (str "description" = str "price") = False := by decide
  by_cases h1 : p.ID = [] <;> by_cases h2 : p.Name = [] <;> by_cases h3 : p.Description = [] <;>
    simp [productMembers, h1, h2, h3, h, Value.get, lookupMember, f3, f6, f8]

/-- C14, amended. For every event with a product that the writer encodes, the
JSON text is an object with members `event_type` (a string), `product` (an
object) and `timestamp` (a string); the product object always has the member
`created_at` (a string), and has `id`, `name`, `description` (strings) and
`price` (the integer's decimal text as a number) exactly when the field is
not empty, or not zero. So the text has all the members of the wire schema
exactly when the product's id, name and description are not empty and its
price is not zero. -/
theorem encoded_event_members (ev : ProductEvent) (p : Product) (b : Bytes)
    (hp : ev.Product = some p) (hm : Marshal ev = some b) :
    ∃ v pv, parse b = some v ∧ v.get "product" = some pv ∧ pv.kind = "object" ∧
      v.memberKind "event_type" = some "string" ∧ v.memberKind "timestamp" = some "string" ∧
      pv.memberKind "id" = (if p.ID = [] then none else some "string") ∧
      pv.memberKind "name" = (if p.Name = [] then none else some "string") ∧
      pv.memberKind "description" = (if p.Description = [] then none else some "string") ∧
      pv.memberKind "price" = (if p.Price = 0 then none else some "number") ∧
      (p.Price ≠ 0 → pv.get "price" = some (Value.num (appendInt p.Price))) ∧
      pv.memberKind "created_at" = some "string" ∧
      (hasWireSchema b = true ↔
        p.ID ≠ [] ∧ p.Name ≠ [] ∧ p.Description ≠ [] ∧ p.Price ≠ 0) := by
  obtain ⟨rts, rc, hparse⟩ := parse_marshal ev p b hp hm
  obtain ⟨k1, k2, k3, k4, k5⟩ := productMembers_kinds p rc
  have g1 : (str "event_type" = str "product") = False := by decide
  have g2 : (str "event_type" = str "timestamp") = False := by decide
  have g3 : (str "product" = str "timestamp") = False := by decide
  have hprod : (Value.obj
      [(str "event_type", Value.str (escapeAux ev.EventType.length ev.EventType)),
       (str "product", Value.obj ((productMembers p rc).map (fun m => (str m.1, m.2.2)))),
       (str "timestamp", Value.str rts)]).get "product"
      = some (Value.obj ((productMembers p rc).map (fun m => (str m.1, m.2.2)))) := by
    simp [Value.get, lookupMember, g1]
  have hET : (Value.obj
      [(str "event_type", Value.str (escapeAux ev.EventType.length ev.EventType)),
       (str "product", Value.obj ((productMembers p rc).map (fun m => (str m.1, m.2.2)))),
       (str "timestamp", Value.str rts)]).memberKind "event_type" = some "string" := by
    simp [Value.memberKind, Value.get, lookupMember, Value.kind]
  have hTS : (Value.obj
      [(str "event_type", Value.str (escapeAux ev.EventType.length ev.EventType)),
       (str "product", Value.obj ((productMembers p rc).map (fun m => (str m.1, m.2.2)))),
       (str "timestamp", Value.str rts)]).memberKind "timestamp" = some "string" := by
    simp [Value.memberKind, Value.get, lookupMember, Value.kind, g2, g3]
  refine ⟨_, _, hparse, hprod, rfl, hET, hTS, k1, k2, k3, k4, productMembers_price p rc, k5, ?_⟩
  simp only [hasWireSchema, hparse, hprod, hET, hTS, k1, k2, k3, k4, k5, Value.kind]
  by_cases h1 : p.ID = [] <;> by_cases h2 : p.Name = [] <;> by_cases h3 : p.Description = [] <;>
    by_cases h4 : p.Price = 0 <;> simp [h1, h2, h3, h4]

/-- C14, amended, at a `product_deleted` event whose product has every field
set: the encoded text has all the members of the wire schema. -/
theorem encoded_event_members_witness :
    fullEvent.Product = some fullProduct ∧
    Marshal fullEvent = some (str "\x7b\"event_type\":\"product_deleted\",\"product\":\x7b\"id\":\"p2\",\"name\":\"Gadget\",\"description\":\"A gadget\",\"price\":250,\"created_at\":\"2024-01-01T00:00:00Z\"\x7d,\"timestamp\":\"2024-01-01T00:00:00Z\"\x7d") ∧
    ∃ v pv, parse (str "\x7b\"event_type\":\"product_deleted\",\"product\":\x7b\"id\":\"p2\",\"name\":\"Gadget\",\"description\":\"A gadget\",\"price\":250,\"created_at\":\"2024-01-01T00:00:00Z\"\x7d,\"timestamp\":\"2024-01-01T00:00:00Z\"\x7d") = some v ∧
      v.get "product" = some pv ∧ pv.memberKind "description" = some "string" ∧
      pv.memberKind "price" = some "number" :=
  have hm : Marshal fullEvent = some (str "\x7b\"event_type\":\"product_deleted\",\"product\":\x7b\"id\":\"p2\",\"name\":\"Gadget\",\"description\":\"A gadget\",\"price\":250,\"created_at\":\"2024-01-01T00:00:00Z\"\x7d,\"timestamp\":\"2024-01-01T00:00:00Z\"\x7d") := by
    set_option maxRecDepth 100000 in decide
  ⟨rfl, hm,
    match encoded_event_members fullEvent fullProduct _ rfl hm with
    | ⟨v, pv, h1, h2, _, _, _, _, _, h8, h9, _⟩ =>
      ⟨v, pv, h1, h2, by simpa [fullProduct] using h8, by simpa [fullProduct] using h9⟩⟩

/-- C14 as stated fails: for a product with an empty description and a zero
price the writer encodes a product object without the members `description`
and `price`, so the text does not have all the members of the wire schema. -/
theorem encoded_product_omits_empty_members :
    Marshal bareEvent = some (str "\x7b\"event_type\":\"product_created\",\"product\":\x7b\"id\":\"p1\",\"name\":\"Widget\",\"created_at\":\"2024-01-01T00:00:00Z\"\x7d,\"timestamp\":\"2024-01-01T00:00:00Z\"\x7d") ∧
    (Marshal bareEvent).map hasWireSchema = some false ∧
    ((((Marshal bareEvent).bind parse).bind (fun v => v.get "product")).bind
      (fun pv => pv.memberKind "description")) = none ∧
    ((((Marshal bareEvent).bind parse).bind (fun v => v.get "product")).bind
      (fun pv => pv.memberKind "price")) = none := by
  refine ⟨?_, ?_, ?_, ?_⟩ <;> set_option maxRecDepth 100000 in decide

end WireSchema

/-! ## Pagination: page count and query normalisation -/

section Pagination

open Go Models Products Samples

/-- A value in the range of Go's `int` is not changed by wrapping. -/
theorem wrapInt_of_range (x : Int) (h0 : -(2 : Int) ^ 63 ≤ x) (h1 : x < (2 : Int) ^ 63) :
    wrapInt x = x := by
  unfold wrapInt
  norm_num at h0 h1 ⊢
  omega

/-- Wrapping an intermediate sum does not change the wrapped result. -/
theorem wrapInt_add (a c : Int) : wrapInt (wrapInt a + c) = wrapInt (a + c) := by
  unfold wrapInt
  norm_num
  omega

/-- Without overflow `CalculateTotalPages` is the truncated quotient of
`total + pageSize - 1` by `pageSize`. -/
theorem calculateTotalPages_eq (total pageSize : Int) (h0 : 0 < total) (h1 : 1 ≤ pageSize)
    (h2 : total + pageSize - 1 < (2 : Int) ^ 63) :
    CalculateTotalPages total pageSize = (total + pageSize - 1) / pageSize := by
  have hne : ¬ (total = 0 ∨ pageSize = 0) := by omega
  have hpow : (0 : Int) ≤ (2 : Int) ^ 63 := by norm_num
  have ha : wrapInt (wrapInt (total + pageSize) - 1) = total + pageSize - 1 := by
    have := wrapInt_add (total + pageSize) (-1)
    simp only [← sub_eq_add_neg] at this
    rw [this]
    exact wrapInt_of_range _ (by omega) h2
  have hq0 : 0 ≤ (total + pageSize - 1) / pageSize := Int.ediv_nonneg (by omega) (by omega)
  have hq1 : (total + pageSize - 1) / pageSize ≤ total + pageSize - 1 :=
    Int.ediv_le_self _ (by omega)
  rw [CalculateTotalPages, if_neg hne, ha, Int.tdiv_eq_ediv (by omega) (by omega)]
  exact wrapInt_of_range _ (by omega) (by omega)

/-- The quotient of `total + pageSize - 1` by `pageSize` is the least `n`
with `total ≤ n * pageSize`. -/
theorem ceiling_least (total pageSize : Int) (h1 : 1 ≤ pageSize) :
    total ≤ (total + pageSize - 1) / pageSize * pageSize ∧
    ∀ n : Int, total ≤ n * pageSize → (total + pageSize - 1) / pageSize ≤ n := by
  have hpos : 0 < pageSize := by omega
  have hdm := Int.ediv_add_emod (total + pageSize - 1) pageSize
  have hm0 := Int.emod_nonneg (total + pageSize - 1) (by omega : pageSize ≠ 0)
  have hm1 := Int.emod_lt_of_pos (total + pageSize - 1) hpos
  have hcomm : (total + pageSize - 1) / pageSize * pageSize
      = pageSize * ((total + pageSize - 1) / pageSize) := Int.mul_comm _ _
  constructor
  · rw [hcomm]
    omega
  · intro n hn
    by_contra hlt
    have hle : n + 1 ≤ (total + pageSize - 1) / pageSize := by omega
    have hmul : (n + 1) * pageSize ≤ (total + pageSize - 1) / pageSize * pageSize :=
      Int.mul_le_mul_of_nonneg_right hle (by omega)
    rw [hcomm, Int.add_mul, Int.one_mul] at hmul
    omega

/-- C16. `CalculateTotalPages total pageSize` is 0 whenever `total` or
`pageSize` is 0; for `total ≥ 0` and `pageSize ≥ 1` with `total + pageSize - 1`
within Go's `int` it is the ceiling of `total / pageSize`, the least `n` with
`n * pageSize ≥ total`; and the `pages` value of a successful list response
is `CalculateTotalPages` of the service's total and the limit in force. -/
theorem calculateTotalPages_ceiling (total pageSize : Int) :
    (total = 0 ∨ pageSize = 0 → CalculateTotalPages total pageSize = 0) ∧
    (0 ≤ total → 1 ≤ pageSize → total + pageSize - 1 < (2 : Int) ^ 63 →
      total ≤ CalculateTotalPages total pageSize * pageSize ∧
      ∀ n : Int, total ≤ n * pageSize → CalculateTotalPages total pageSize ≤ n) ∧
    (∀ (pService : ProductService) (lib : Error → Bytes) (bound : ListProductsDTO)
        (products : Option (List Product)),
      pService.List (normalise bound) = (products, total, none) →
      (ProductsHandler.List pService lib (Except.ok bound)).body =
        Body.page products total (normalise bound).Page (normalise bound).Limit
          (CalculateTotalPages total (normalise bound).Limit)) := by
  refine ⟨?_, ?_, ?_⟩
  · intro h
    rw [CalculateTotalPages, if_pos h]
  · intro h0 h1 h2
    by_cases hz : total = 0
    · subst hz
      have : CalculateTotalPages 0 pageSize = 0 := by simp [CalculateTotalPages]
      rw [this]
      refine ⟨by simp, ?_⟩
      intro n hn
      by_contra hlt
      have hle : n ≤ -1 := by omega
      have hmul : n * pageSize ≤ -1 * pageSize := Int.mul_le_mul_of_nonneg_right hle (by omega)
      omega
    · rw [calculateTotalPages_eq total pageSize (by omega) h1 h2]
      exact ceiling_least total pageSize h1
  · intro pService lib bound products hs
    simp [ProductsHandler.List, ShouldBindQuery, hs]

/-- C16 at sample values: 2 products at 20 a page make 1 page, 101 at 100 a
page make 2, 100 at 100 make 1, and a zero total or page size makes 0. -/
theorem calculateTotalPages_ceiling_witness :
    CalculateTotalPages 2 20 = 1 ∧ CalculateTotalPages 101 100 = 2 ∧
    CalculateTotalPages 100 100 = 1 ∧ CalculateTotalPages 0 20 = 0 ∧
    CalculateTotalPages 7 0 = 0 ∧
    ((2 : Int) ≤ CalculateTotalPages 2 20 * 20 ∧
      ∀ n : Int, 2 ≤ n * 20 → CalculateTotalPages 2 20 ≤ n) :=
  ⟨by decide, by decide, by decide, by decide, by decide,
    (calculateTotalPages_ceiling 2 20).2.1 (by decide) (by decide) (by decide)⟩

/-- C15. For every parsed `(page, limit)` query, `ProductsHandler.List` calls
the service once, with the normalised values: the page is 1 when it was
below 1 and unchanged otherwise; the limit is 20 when it was below 1, 100
when it was above 100 and unchanged otherwise. So the service sees a page of
at least 1 and a limit between 1 and 100, normalising twice equals
normalising once, and a successful response echoes the normalised values as
`page` and `size`. -/
theorem list_normalises_page_and_limit (pService : ProductService) (lib : Error → Bytes)
    (bound : ListProductsDTO) :
    (ProductsHandler.List pService lib (Except.ok bound)).calls = [normalise bound] ∧
    (bound.Page < 1 → (normalise bound).Page = 1) ∧
    (1 ≤ bound.Page → (normalise bound).Page = bound.Page) ∧
    (bound.Limit < 1 → (normalise bound).Limit = 20) ∧
    (100 < bound.Limit → (normalise bound).Limit = 100) ∧
    (1 ≤ bound.Limit → bound.Limit ≤ 100 → (normalise bound).Limit = bound.Limit) ∧
    1 ≤ (normalise bound).Page ∧ 1 ≤ (normalise bound).Limit ∧ (normalise bound).Limit ≤ 100 ∧
    normalise (normalise bound) = normalise bound ∧
    (∀ (products : Option (List Product)) (total : Int),
      pService.List (normalise bound) = (products, total, none) →
      (ProductsHandler.List pService lib (Except.ok bound)).status = StatusOK ∧
      ∃ pages, (ProductsHandler.List pService lib (Except.ok bound)).body =
        Body.page products total (normalise bound).Page (normalise bound).Limit pages) := by
  obtain ⟨page, limit⟩ := bound
  refine ⟨?_, ?_, ?_, ?_, ?_, ?_, ?_, ?_, ?_, ?_, ?_⟩
  · simp only [ProductsHandler.List, ShouldBindQuery]
    rcases pService.List (normalise ⟨page, limit⟩) with ⟨products, total, _ | err⟩ <;> rfl
  · intro h
    simp [normalise, h]
  · intro h
    dsimp only at h
    have : ¬ page < 1 := by omega
    simp [normalise, this]
  · intro h
    simp [normalise, h]
  · intro h
    dsimp only at h
    have h1 : ¬ limit < 1 := by omega
    simp [normalise, h, h1]
  · intro h1 h2
    dsimp only at h1 h2
    have h3 : ¬ limit < 1 := by omega
    have h4 : ¬ limit > 100 := by omega
    simp [normalise, h3, h4]
  · simp only [normalise]
    split_ifs <;> omega
  · simp only [normalise]
    split_ifs <;> omega
  · simp only [normalise]
    split_ifs <;> omega
  · simp only [normalise]
    congr 1
    · split_ifs <;> rfl
    · split_ifs <;> first | rfl | omega
  · intro products total hs
    simp [ProductsHandler.List, ShouldBindQuery, hs]

/-- C15 at the query `page=0&limit=1000` of the handler's test: the service
is called with page 1 and limit 100 and the response echoes them. -/
theorem list_normalises_page_and_limit_witness :
    (ProductsHandler.List sampleService (fun _ => []) (Except.ok { Page := 0, Limit := 1000 })).calls
      = [{ Page := 1, Limit := 100 }] ∧
    (ProductsHandler.List sampleService (fun _ => [])
      (Except.ok { Page := 0, Limit := 1000 })).body
      = Body.page (some [fullProduct, bareProduct]) 2 1 100 1 ∧
    normalise { Page := 0, Limit := 0 } = { Page := 1, Limit := 20 } ∧
    normalise { Page := 3, Limit := 10 } = { Page := 3, Limit := 10 } :=
  ⟨(list_normalises_page_and_limit sampleService (fun _ => []) { Page := 0, Limit := 1000 }).1,
   by decide, by decide, by decide⟩

end Pagination

/-! ## The delete and create handlers -/

section Handlers

open Go Models Products Samples

/-- The rune count does not depend on the budget once the budget covers the
length of the text: `runeCount` never runs out of it. -/
theorem runeCountAux_fuel (n : Nat) : ∀ (m : Nat) (s : Bytes), s.length ≤ n → s.length ≤ m →
    runeCountAux n s = runeCountAux m s := by
  induction n with
  | zero =>
    intro m s hn _
    have : s = [] := List.length_eq_zero.1 (by omega)
    subst this
    cases m <;> rfl
  | succ n ih =>
    intro m s hn hm
    cases s with
    | nil => cases m <;> rfl
    | cons b rest =>
      cases m with
      | zero => simp at hm
      | succ m =>
        have hpos := decodeRune_size_pos b rest
        have hlen : ((b :: rest).drop (decodeRune (b :: rest)).2).length ≤ rest.length := by
          simp only [List.length_drop, List.length_cons]
          omega
        simp only [List.length_cons] at hn hm
        simp only [runeCountAux]
        rw [ih m _ (by omega) (by omega)]

/-- Rune counts of sample texts: an ASCII text has as many runes as bytes, a
two-byte character counts once, and a byte that starts no encoding counts once. -/
theorem runeCount_sample : runeCount (str "Test Product") = 12 ∧ runeCount (str "Widgét") = 6 ∧
    runeCount [0xFF, 0x41] = 2 := by
  decide

/-- The text of a failed check is not empty: it starts with `Key`. -/
theorem fieldError_message_ne_nil (fe : FieldError) : fe.message ≠ [] := by
  have h : str "Key: '" = 0x4B :: str "ey: '" := by decide
  simp [FieldError.message, h]

/-- The text of a validation error with at least one failed check is not empty. -/
theorem validation_message_ne_nil (lib : Error → Bytes) (fe : FieldError) (rest : List FieldError) :
    (Error.validation (fe :: rest)).message lib ≠ [] := by
  have h := fieldError_message_ne_nil fe
  cases rest with
  | nil => simpa [Error.message, joinLines] using h
  | cons f fs => simp [Error.message, joinLines, h]

/-- An id the `uuid` tag accepts passes the binding of `DeleteProductDTO`. -/
theorem shouldBindUri_of_uuid (id : Bytes) (h : isUUID id = true) :
    ShouldBindUri id = Except.ok { ID := id } := by
  have hne : id ≠ [] := by
    intro h0
    subst h0
    simp [isUUID] at h
  simp [ShouldBindUri, validateDelete, firstFailure, hne, h]

/-- An id the `uuid` tag rejects fails the binding of `DeleteProductDTO` with
a validation error of one failed check. -/
theorem shouldBindUri_of_not_uuid (id : Bytes) (h : isUUID id = false) :
    ∃ fe, ShouldBindUri id = Except.error (Error.validation [fe]) := by
  by_cases hne : id = []
  · exact ⟨{ ns := "DeleteProductDTO.ID", field := "ID", tag := "required" },
      by simp [ShouldBindUri, validateDelete, firstFailure, hne]⟩
  · exact ⟨{ ns := "DeleteProductDTO.ID", field := "ID", tag := "uuid" },
      by simp [ShouldBindUri, validateDelete, firstFailure, hne, h]⟩

/-- C17. For an id that is a UUID, `ProductsHandler.Delete` calls the service
once with it and answers 200 with the deleted product when the service
succeeds, 404 with the error's own message exactly when the service error
is, or wraps, an `*ErrorNotFound`, and 500 with `Internal Server Error` for
every other service error. For an id that is not a UUID it answers 400 with
a non-empty message and does not call the service. The message of an
`*ErrorNotFound` is `product with id <id> not found`. -/
theorem delete_answers_by_service_error (pService : ProductService) (lib : Error → Bytes)
    (id : Bytes) :
    (isUUID id = true →
      (ProductsHandler.Delete pService lib id).calls = [id] ∧
      (∀ product, pService.Delete id = (product, none) →
        (ProductsHandler.Delete pService lib id).status = StatusOK ∧
        (ProductsHandler.Delete pService lib id).body = Body.product product) ∧
      (∀ product err, pService.Delete id = (product, some err) →
        ((ProductsHandler.Delete pService lib id).status = StatusNotFound ↔
          IsNotFoundError err = true) ∧
        (IsNotFoundError err = true →
          (ProductsHandler.Delete pService lib id).status = StatusNotFound ∧
          (ProductsHandler.Delete pService lib id).body = Body.failure (err.message lib)) ∧
        (IsNotFoundError err = false →
          (ProductsHandler.Delete pService lib id).status = StatusInternalServerError ∧
          (ProductsHandler.Delete pService lib id).body
            = Body.failure (str "Internal Server Error")))) ∧
    (isUUID id = false →
      (ProductsHandler.Delete pService lib id).status = StatusBadRequest ∧
      (ProductsHandler.Delete pService lib id).calls = [] ∧
      ∃ msg, (ProductsHandler.Delete pService lib id).body = Body.failure msg ∧ msg ≠ []) ∧
    (∀ (pid : Bytes) (msg : String),
      IsNotFoundError (Error.notFound pid) = true ∧
      IsNotFoundError (Error.wrap msg (Error.notFound pid)) = true ∧
      IsNotFoundError (Error.new msg) = false ∧
      (Error.notFound pid).message lib = str "product with id " ++ pid ++ str " not found") := by
  refine ⟨?_, ?_, ?_⟩
  · intro h
    have hb := shouldBindUri_of_uuid id h
    refine ⟨?_, ?_, ?_⟩
    · simp only [ProductsHandler.Delete, hb]
      rcases pService.Delete id with ⟨product, _ | err⟩
      · rfl
      · dsimp only
        split_ifs <;> rfl
    · intro product hs
      simp [ProductsHandler.Delete, hb, hs]
    · intro product err hs
      refine ⟨?_, ?_, ?_⟩
      · cases hn : IsNotFoundError err <;>
          simp [ProductsHandler.Delete, hb, hs, hn, StatusNotFound, StatusInternalServerError]
      · intro hn
        simp [ProductsHandler.Delete, hb, hs, hn]
      · intro hn
        simp [ProductsHandler.Delete, hb, hs, hn]
  · intro h
    obtain ⟨fe, hb⟩ := shouldBindUri_of_not_uuid id h
    refine ⟨by simp [ProductsHandler.Delete, hb], by simp [ProductsHandler.Delete, hb],
      (Error.validation [fe]).message lib, by simp [ProductsHandler.Delete, hb],
      validation_message_ne_nil lib fe []⟩
  · intro pid msg
    exact ⟨rfl, rfl, rfl, rfl⟩

/-- C17 at the ids of the handler's tests: with a service that reports the
product missing the answer is 404 with the text of the error, and the id cut
short is answered 400 without a call to the service. -/
theorem delete_answers_by_service_error_witness :
    isUUID sampleID = true ∧ isUUID shortID = false ∧
    (ProductsHandler.Delete (failingService (Error.notFound sampleID)) (fun _ => [])
      sampleID).status = StatusNotFound ∧
    (ProductsHandler.Delete (failingService (Error.notFound sampleID)) (fun _ => [])
      sampleID).body
      = Body.failure (str "product with id 8f293f9f-9bd0-4294-bd17-4fb80aa2650a not found") ∧
    (ProductsHandler.Delete (failingService (Error.new "db down")) (fun _ => [])
      sampleID).body = Body.failure (str "Internal Server Error") ∧
    (ProductsHandler.Delete sampleService (fun _ => []) shortID).status = StatusBadRequest ∧
    (ProductsHandler.Delete sampleService (fun _ => []) shortID).calls = [] :=
  have h1 : isUUID sampleID = true := by decide
  have h2 : isUUID shortID = false := by decide
  have hd := (delete_answers_by_service_error (failingService (Error.notFound sampleID))
    (fun _ => []) sampleID).1 h1
  have hb := (delete_answers_by_service_error sampleService (fun _ => []) shortID).2.1 h2
  ⟨h1, h2, ((hd.2.2 none (Error.notFound sampleID) rfl).2.1 rfl).1, by decide, by decide,
    hb.1, hb.2.1⟩

/-- The checks of `CreateProductDTO` all pass exactly when the name is
present and has 3 to 50 characters, the description has at most 200 and the
price is above zero. -/
theorem validateCreate_eq_nil_iff (dto : CreateProductDTO) :
    validateCreate dto = [] ↔
      dto.Name ≠ [] ∧ 3 ≤ runeCount dto.Name ∧ runeCount dto.Name ≤ 50 ∧
      runeCount dto.Description ≤ 200 ∧ 0 < dto.Price := by
  by_cases h1 : dto.Name = [] <;> by_cases h2 : 3 ≤ runeCount dto.Name <;>
    by_cases h3 : runeCount dto.Name ≤ 50 <;> by_cases h4 : runeCount dto.Description ≤ 200 <;>
    by_cases h5 : dto.Price = 0 <;> by_cases h6 : 0 < dto.Price <;>
    simp [validateCreate, firstFailure, List.find?, h1, h2, h3, h4, h5, h6]

/-- A decoded DTO that passes the checks passes the binding. -/
theorem shouldBindJSON_of_valid (dto : CreateProductDTO) (h : validateCreate dto = []) :
    ShouldBindJSON (Except.ok dto) = Except.ok dto := by
  simp [ShouldBindJSON, h]

/-- A decoded DTO that fails a check fails the binding with a validation
error of at least one failed check. -/
theorem shouldBindJSON_of_invalid (dto : CreateProductDTO) (h : validateCreate dto ≠ []) :
    ∃ fe rest, ShouldBindJSON (Except.ok dto) = Except.error (Error.validation (fe :: rest)) := by
  cases hv : validateCreate dto with
  | nil => exact absurd hv h
  | cons fe rest => exact ⟨fe, rest, by simp [ShouldBindJSON, hv]⟩

/-- C18. For a request body that decodes to `dto`: when the name is missing,
shorter than 3 or longer than 50 characters, the price is missing (zero) or
not above zero, or the description is longer than 200 characters,
`ProductsHandler.Create` answers 400 with a non-empty error and does not
call the service; otherwise it calls the service once with `dto` and answers
201 with the created product when the service succeeds and 500 with
`Internal Server Error` when it fails. A body that does not decode is
answered 400 without a call to the service. -/
theorem create_validates_before_service (pService : ProductService) (lib : Error → Bytes)
    (dto : CreateProductDTO) :
    (dto.Name = [] ∨ runeCount dto.Name < 3 ∨ 50 < runeCount dto.Name ∨ dto.Price ≤ 0 ∨
        200 < runeCount dto.Description →
      (ProductsHandler.Create pService lib (Except.ok dto)).status = StatusBadRequest ∧
      (ProductsHandler.Create pService lib (Except.ok dto)).calls = [] ∧
      ∃ msg, (ProductsHandler.Create pService lib (Except.ok dto)).body = Body.failure msg ∧
        msg ≠ []) ∧
    (¬ (dto.Name = [] ∨ runeCount dto.Name < 3 ∨ 50 < runeCount dto.Name ∨ dto.Price ≤ 0 ∨
        200 < runeCount dto.Description) →
      (ProductsHandler.Create pService lib (Except.ok dto)).calls = [dto] ∧
      (∀ product, pService.Create dto = (product, none) →
        (ProductsHandler.Create pService lib (Except.ok dto)).status = StatusCreated ∧
        (ProductsHandler.Create pService lib (Except.ok dto)).body = Body.product product) ∧
      (∀ product err, pService.Create dto = (product, some err) →
        (ProductsHandler.Create pService lib (Except.ok dto)).status
          = StatusInternalServerError ∧
        (ProductsHandler.Create pService lib (Except.ok dto)).body
          = Body.failure (str "Internal Server Error"))) ∧
    (∀ err, (ProductsHandler.Create pService lib (Except.error err)).status = StatusBadRequest ∧
      (ProductsHandler.Create pService lib (Except.error err)).calls = []) := by
  refine ⟨?_, ?_, ?_⟩
  · intro hbad
    have hv : validateCreate dto ≠ [] := by
      intro h0
      obtain ⟨a1, a2, a3, a4, a5⟩ := (validateCreate_eq_nil_iff dto).1 h0
      rcases hbad with h | h | h | h | h
      · exact a1 h
      · omega
      · omega
      · omega
      · omega
    obtain ⟨fe, rest, hb⟩ := shouldBindJSON_of_invalid dto hv
    exact ⟨by simp [ProductsHandler.Create, hb], by simp [ProductsHandler.Create, hb],
      (Error.validation (fe :: rest)).message lib, by simp [ProductsHandler.Create, hb],
      validation_message_ne_nil lib fe rest⟩
  · intro hgood
    have hv : validateCreate dto = [] := by
      rw [validateCreate_eq_nil_iff]
      refine ⟨?_, ?_, ?_, ?_, ?_⟩
      · intro h
        exact hgood (Or.inl h)
      · by_contra h
        exact hgood (Or.inr (Or.inl (by omega)))
      · by_contra h
        exact hgood (Or.inr (Or.inr (Or.inl (by omega))))
      · by_contra h
        exact hgood (Or.inr (Or.inr (Or.inr (Or.inr (by omega)))))
      · by_contra h
        exact hgood (Or.inr (Or.inr (Or.inr (Or.inl (by omega)))))
    have hb := shouldBindJSON_of_valid dto hv
    refine ⟨?_, ?_, ?_⟩
    · simp only [ProductsHandler.Create, hb]
      rcases pService.Create dto with ⟨product, _ | err⟩ <;> rfl
    · intro product hs
      simp [ProductsHandler.Create, hb, hs]
    · intro product err hs
      simp [ProductsHandler.Create, hb, hs]
  · intro err
    simp [ProductsHandler.Create, ShouldBindJSON]

/-- C18 at the bodies of the handler's tests: a name of two characters and a
zero price are answered 400 without a call to the service; a name of twelve
characters with price 100 is passed to the service and answered 201, or 500
with the fixed message when the service fails. -/
theorem create_validates_before_service_witness :
    (ProductsHandler.Create sampleService (fun _ => [])
      (Except.ok { Name := str "Te", Description := [], Price := 100 })).status
      = StatusBadRequest ∧
    (ProductsHandler.Create sampleService (fun _ => [])
      (Except.ok { Name := str "Te", Description := [], Price := 100 })).calls = [] ∧
    (ProductsHandler.Create sampleService (fun _ => [])
      (Except.ok { Name := str "Te", Description := [], Price := 100 })).body
      = Body.failure (str "Key: 'CreateProductDTO.Name' Error:Field validation for 'Name' failed on the 'min' tag") ∧
    (ProductsHandler.Create sampleService (fun _ => [])
      (Except.ok { Name := str "Test Product", Description := [], Price := 0 })).status
      = StatusBadRequest ∧
    (ProductsHandler.Create sampleService (fun _ => [])
      (Except.ok { Name := str "Test Product", Description := [], Price := 100 })).status
      = StatusCreated ∧
    (ProductsHandler.Create sampleService (fun _ => [])
      (Except.ok { Name := str "Test Product", Description := [], Price := 100 })).calls
      = [{ Name := str "Test Product", Description := [], Price := 100 }] ∧
    (ProductsHandler.Create (failingService (Error.new "db down")) (fun _ => [])
      (Except.ok { Name := str "Test Product", Description := [], Price := 100 })).body
      = Body.failure (str "Internal Server Error") :=
  have hbad := (create_validates_before_service sampleService (fun _ => [])
    { Name := str "Te", Description := [], Price := 100 }).1 (Or.inr (Or.inl (by decide)))
  have hzero := (create_validates_before_service sampleService (fun _ => [])
    { Name := str "Test Product", Description := [], Price := 0 }).1
    (Or.inr (Or.inr (Or.inr (Or.inl (by decide)))))
  have hgood := (create_validates_before_service sampleService (fun _ => [])
    { Name := str "Test Product", Description := [], Price := 100 }).2.1 (by decide)
  have hfail := (create_validates_before_service (failingService (Error.new "db down"))
    (fun _ => []) { Name := str "Test Product", Description := [], Price := 100 }).2.1 (by decide)
  ⟨hbad.1, hbad.2.1, by set_option maxRecDepth 100000 in decide, hzero.1, (hgood.2.1 (some fullProduct) rfl).1, hgood.1,
    (hfail.2.2 none (Error.new "db down") rfl).2⟩

end Handlers

/-! ## Listing products and closing the broker -/

section ServiceList

open Go Models Products Samples

/-- C19. `ProductsService.List` returns the repository's page and count
unchanged, with a nil error, when `Count` and `List` both succeed; returns
`(nil, 0, e)` when `Count` fails with `e`, having made no call to the
repository's `List`; returns `(nil, 0, e)` when `List` fails with `e`; and
makes no call to `broker.Send`. -/
theorem service_list_results (repo : ProductsRepository) (broker : MessageBroker)
    (listDTO : ListProductsDTO) :
    (∀ products total, repo.Count = (total, none) → repo.List listDTO = (products, none) →
      (ProductsService.List repo broker listDTO).result = (products, total, none) ∧
      (ProductsService.List repo broker listDTO).repoCalls
        = [RepoCall.count, RepoCall.list listDTO]) ∧
    (∀ n e, repo.Count = (n, some e) →
      (ProductsService.List repo broker listDTO).result = (none, 0, some e) ∧
      (ProductsService.List repo broker listDTO).repoCalls = [RepoCall.count]) ∧
    (∀ products total e, repo.Count = (total, none) → repo.List listDTO = (products, some e) →
      (ProductsService.List repo broker listDTO).result = (none, 0, some e) ∧
      (ProductsService.List repo broker listDTO).repoCalls
        = [RepoCall.count, RepoCall.list listDTO]) ∧
    (ProductsService.List repo broker listDTO).sends = [] := by
  refine ⟨?_, ?_, ?_, ?_⟩
  · intro products total hc hl
    simp [ProductsService.List, hc, hl]
  · intro n e hc
    simp [ProductsService.List, hc]
  · intro products total e hc hl
    simp [ProductsService.List, hc, hl]
  · simp only [ProductsService.List]
    rcases repo.Count with ⟨total, _ | e⟩
    · rcases repo.List listDTO with ⟨products, _ | e⟩ <;> rfl
    · rfl

/-- C19 at sample repositories: a count of two and a page of two products
come back unchanged; a failing `Count` gives `(nil, 0, e)` after the one call;
a failing `List` gives `(nil, 0, e)`. -/
theorem service_list_results_witness :
    (ProductsService.List listingRepo brokerOk { Page := 1, Limit := 10 }).result
      = (some [fullProduct, bareProduct], 2, none) ∧
    (ProductsService.List (repoFailing (Error.new "repository error")) brokerOk
      { Page := 1, Limit := 10 }).result = (none, 0, some (Error.new "repository error")) ∧
    (ProductsService.List (repoFailing (Error.new "repository error")) brokerOk
      { Page := 1, Limit := 10 }).repoCalls = [RepoCall.count] ∧
    (ProductsService.List (listFailingRepo (Error.new "repository error")) brokerOk
      { Page := 1, Limit := 10 }).result = (none, 0, some (Error.new "repository error")) :=
  have h1 := (service_list_results listingRepo brokerOk { Page := 1, Limit := 10 }).1
    (some [fullProduct, bareProduct]) 2 rfl rfl
  have h2 := (service_list_results (repoFailing (Error.new "repository error")) brokerOk
    { Page := 1, Limit := 10 }).2.1 0 (Error.new "repository error") rfl
  have h3 := (service_list_results (listFailingRepo (Error.new "repository error")) brokerOk
    { Page := 1, Limit := 10 }).2.2.1 none 2 (Error.new "repository error") rfl rfl
  ⟨h1.1, h2.1, h2.2, h3.1⟩

/-- C20. `KafkaBroker.Close` always returns nil. With an initialized producer
it calls `Flush(5000)` and then `Close`, in that order and whatever the flush
reports as still unflushed; with a nil producer it makes no call. -/
theorem close_flushes_then_closes (b : KafkaBroker) (flush : Int → Int) :
    (b.Close flush).result = none ∧
    (∀ producer, b.producer = some producer →
      (b.Close flush).calls = [ProducerCall.flush 5000, ProducerCall.close]) ∧
    (b.producer = none → (b.Close flush).calls = []) := by
  refine ⟨?_, ?_, ?_⟩
  · simp only [KafkaBroker.Close]
    cases b.producer <;> rfl
  · intro producer h
    simp [KafkaBroker.Close, h]
  · intro h
    simp [KafkaBroker.Close, h]

/-- C20 at sample brokers: a producer whose flush leaves three events
unflushed is still closed after the flush, and a broker without a producer
makes no call. -/
theorem close_flushes_then_closes_witness :
    (sampleKafkaBroker.Close (fun _ => 3)).calls = [ProducerCall.flush 5000, ProducerCall.close] ∧
    (sampleKafkaBroker.Close (fun _ => 3)).result = none ∧
    (nilKafkaBroker.Close (fun _ => 0)).calls = [] :=
  have h := close_flushes_then_closes sampleKafkaBroker (fun _ => 3)
  ⟨h.2.1 _ rfl, h.1, (close_flushes_then_closes nilKafkaBroker (fun _ => 0)).2.2 rfl⟩

end ServiceList

/-! ## A publish failure does not fail the mutation -/

section PublishFailure

open Go Json Models GoTime Products Samples

/-- With a product in hand `trySendProductEvent` returns, whatever encoding
and `Send` do. -/
theorem trySend_returns (broker : MessageBroker) (now : Time) (p : Product) (eventType : Bytes) :
    (trySendProductEvent broker now (some p) eventType).outcome = Outcome.ret () := by
  cases hm : Marshal { EventType := eventType, Product := some p, Timestamp := now } with
  | none => exact (trySend_not_encoded broker now p eventType hm).2
  | some msg => exact (trySend_encoded broker now p eventType msg hm).2

/-- C24. For `Create` and `Delete`, whenever the repository call succeeds
with product `p`, the service returns `(p, nil)` for every broker: whether
`Send` returns nil or an error, and whether or not the event can be encoded.
The metric is counted once either way. -/
theorem publish_failure_keeps_result (repo : ProductsRepository) (broker : MessageBroker)
    (now : Time) (p : Product) :
    (∀ dto, repo.Create dto = (some p, none) →
      (ProductsService.Create repo broker now dto).result = Outcome.ret (some p, none) ∧
      (ProductsService.Create repo broker now dto).created = 1) ∧
    (∀ id, repo.Delete id = (some p, none) →
      (ProductsService.Delete repo broker now id).result = Outcome.ret (some p, none) ∧
      (ProductsService.Delete repo broker now id).deleted = 1) := by
  constructor
  · intro dto h
    simp [ProductsService.Create, h, trySend_returns]
  · intro id h
    simp [ProductsService.Delete, h, trySend_returns]

/-- C24 with a broker whose `Send` fails: `Create` calls `Send` once, logs
the failure and still returns the product with a nil error; so does `Delete`;
and with a product whose event cannot be encoded `Create` returns it too. -/
theorem publish_failure_keeps_result_witness :
    (ProductsService.Create (repoReturning sampleProduct) (brokerFailing (Error.new "kafka down"))
      sampleTime sampleDTO).result = Outcome.ret (some sampleProduct, none) ∧
    (ProductsService.Create (repoReturning sampleProduct) (brokerFailing (Error.new "kafka down"))
      sampleTime sampleDTO).sends.length = 1 ∧
    (ProductsService.Create (repoReturning sampleProduct) (brokerFailing (Error.new "kafka down"))
      sampleTime sampleDTO).logged.map (fun e => e.msg) = ["failed to send product event"] ∧
    (ProductsService.Delete (repoReturning sampleProduct) (brokerFailing (Error.new "kafka down"))
      sampleTime (str "p1")).result = Outcome.ret (some sampleProduct, none) ∧
    (ProductsService.Create (repoReturning lateProduct) brokerOk sampleTime sampleDTO).result
      = Outcome.ret (some lateProduct, none) :=
  have h := publish_failure_keeps_result (repoReturning sampleProduct)
    (brokerFailing (Error.new "kafka down")) sampleTime sampleProduct
  have hl := publish_failure_keeps_result (repoReturning lateProduct) brokerOk sampleTime
    lateProduct
  ⟨(h.1 sampleDTO rfl).1, by set_option maxRecDepth 100000 in decide,
    by set_option maxRecDepth 100000 in decide, (h.2 (str "p1") rfl).1, (hl.1 sampleDTO rfl).1⟩

end PublishFailure

/-! ## Back-pressure: the flow bound of the pump -/

section BackPressure

open Go Notifications Samples

theorem handlingCount_append (ws : List Worker) (w : Worker) :
    handlingCount (ws ++ [w]) = handlingCount ws + (if w.handling then 1 else 0) := by
  induction ws with
  | nil => simp [handlingCount]
  | cons x xs ih =>
    show (if x.handling then 1 else 0) + handlingCount (xs ++ [w]) = _
    rw [ih]
    simp only [handlingCount]
    omega

theorem completedCount_append (ws : List Worker) (w : Worker) :
    completedCount (ws ++ [w]) = completedCount ws + w.completed.length := by
  induction ws with
  | nil => simp [completedCount]
  | cons x xs ih =>
    show x.completed.length + completedCount (xs ++ [w]) = _
    rw [ih]
    simp only [completedCount]
    omega

theorem handlingCount_set (ws : List Worker) : ∀ (i : Nat) (w w1 : Worker), ws.get? i = some w →
    handlingCount (ws.set i w1) + (if w.handling then 1 else 0) =
      handlingCount ws + (if w1.handling then 1 else 0) := by
  induction ws with
  | nil => intro i w w1 h; simp at h
  | cons x xs ih =>
    intro i w w1 h
    cases i with
    | zero =>
      simp only [List.get?_cons_zero, Option.some.injEq] at h
      subst h
      simp only [List.set_cons_zero, handlingCount]
      omega
    | succ j =>
      simp only [List.get?_cons_succ] at h
      have := ih j w w1 h
      simp only [List.set_cons_succ, handlingCount]
      omega

theorem completedCount_set (ws : List Worker) : ∀ (i : Nat) (w w1 : Worker), ws.get? i = some w →
    completedCount (ws.set i w1) + w.completed.length =
      completedCount ws + w1.completed.length := by
  induction ws with
  | nil => intro i w w1 h; simp at h
  | cons x xs ih =>
    intro i w w1 h
    cases i with
    | zero =>
      simp only [List.get?_cons_zero, Option.some.injEq] at h
      subst h
      simp only [List.set_cons_zero, completedCount]
      omega
    | succ j =>
      simp only [List.get?_cons_succ] at h
      have := ih j w w1 h
      simp only [List.set_cons_succ, completedCount]
      omega

/-- At most one handler call runs per worker. -/
theorem handlingCount_le_length (ws : List Worker) : handlingCount ws ≤ ws.length := by
  induction ws with
  | nil => simp [handlingCount]
  | cons x xs ih =>
    simp only [handlingCount, List.length_cons]
    split_ifs <;> omega

theorem flow_pumpStep (cfg : ConsumeConfig) (s s1 : ConsumeState) (n : Nat) (hf : s.Flow n)
    (h : pumpStep cfg s = some s1) : s1.Flow n := by
  obtain ⟨f1, f2⟩ := hf
  unfold pumpStep at h
  split at h
  · rename_i left hpc
    simp only [Option.some.injEq] at h
    subst h
    simp only [ConsumeState.Flow, hpc, PumpPC.held, PumpPC.slack, handlingCount_append,
      completedCount_append, Worker.handling, List.length_nil] at f1 f2 ⊢
    constructor <;> simp <;> omega
  · rename_i hpc
    split at h <;>
      (simp only [Option.some.injEq] at h
       subst h
       simp only [ConsumeState.Flow, hpc, PumpPC.held, PumpPC.slack] at f1 f2 ⊢
       constructor <;> omega)
  · rename_i hpc
    split_ifs at h <;>
      (simp only [Option.some.injEq] at h
       subst h
       simp only [ConsumeState.Flow, hpc, PumpPC.held, PumpPC.slack] at f1 f2 ⊢
       constructor <;> omega)
  · rename_i msg hpc
    split_ifs at h
    simp only [Option.some.injEq] at h
    subst h
    simp only [ConsumeState.Flow, hpc, PumpPC.held, PumpPC.slack] at f1 f2 ⊢
    constructor <;> omega
  · rename_i hpc
    simp only [Option.some.injEq] at h
    subst h
    simp only [ConsumeState.Flow, hpc, PumpPC.held, PumpPC.slack] at f1 f2 ⊢
    constructor <;> omega
  · rename_i hpc
    split_ifs at h
    simp only [Option.some.injEq] at h
    subst h
    simp only [ConsumeState.Flow, hpc, PumpPC.held, PumpPC.slack] at f1 f2 ⊢
    constructor <;> omega
  · simp at h

theorem flow_pollStep (s s1 : ConsumeState) (r : PollResult) (n : Nat) (hf : s.Flow n)
    (h : pollStep s r = some s1) : s1.Flow (n + (Action.poll r).pulls) := by
  obtain ⟨f1, f2⟩ := hf
  unfold pollStep at h
  split at h
  · rename_i hpc
    cases r with
    | message value =>
      simp only [Option.some.injEq] at h
      subst h
      simp only [ConsumeState.Flow, hpc, PumpPC.held, PumpPC.slack, Action.pulls] at f1 f2 ⊢
      constructor <;> omega
    | kafkaError code =>
      simp only at h
      split_ifs at h <;>
        (simp only [Option.some.injEq] at h
         subst h
         simp only [ConsumeState.Flow, hpc, PumpPC.held, PumpPC.slack, Action.pulls] at f1 f2 ⊢
         constructor <;> omega)
    | nothing =>
      simp only [Option.some.injEq] at h
      subst h
      simp only [ConsumeState.Flow, hpc, PumpPC.held, PumpPC.slack, Action.pulls] at f1 f2 ⊢
      constructor <;> omega
  · simp at h

theorem flow_sendStep (s s1 : ConsumeState) (i : Nat) (n : Nat) (hf : s.Flow n)
    (h : sendStep s i = some s1) : s1.Flow n := by
  obtain ⟨f1, f2⟩ := hf
  unfold sendStep at h
  split at h
  · rename_i msg w hpc hw
    split_ifs at h with hc
    simp only [Option.some.injEq] at h
    subst h
    have h1 := handlingCount_set s.workers i w
      { w with status := WorkerStatus.handling msg, received := w.received ++ [msg] } hw
    have h2 := completedCount_set s.workers i w
      { w with status := WorkerStatus.handling msg, received := w.received ++ [msg] } hw
    simp only [Worker.handling, hc.1] at h1
    simp only [ConsumeState.Flow, hpc, PumpPC.held, PumpPC.slack] at f1 f2 ⊢
    simp at h1 h2
    constructor <;> omega
  · simp at h

theorem flow_handlerReturnStep (cfg : ConsumeConfig) (s s1 : ConsumeState) (i : Nat) (n : Nat)
    (hf : s.Flow n) (h : handlerReturnStep cfg s i = some s1) : s1.Flow n := by
  obtain ⟨f1, f2⟩ := hf
  unfold handlerReturnStep at h
  split at h
  · rename_i w hw
    split at h
    · rename_i msg hst
      split at h
      · simp only [Option.some.injEq] at h
        subst h
        exact ⟨f1, f2⟩
      · rename_i err _
        simp only [Option.some.injEq] at h
        subst h
        have h1 := handlingCount_set s.workers i w
          { w with status := WorkerStatus.idle, completed := w.completed ++ [msg] } hw
        have h2 := completedCount_set s.workers i w
          { w with status := WorkerStatus.idle, completed := w.completed ++ [msg] } hw
        simp only [Worker.handling, hst] at h1
        simp only [ConsumeState.Flow] at f1 f2 ⊢
        simp at h1 h2
        constructor <;> omega
    · simp at h
  · simp at h

theorem flow_workerExitStep (s s1 : ConsumeState) (i : Nat) (n : Nat)
    (hf : s.Flow n) (h : workerExitStep s i = some s1) : s1.Flow n := by
  obtain ⟨f1, f2⟩ := hf
  unfold workerExitStep at h
  split at h
  · rename_i w hw
    split_ifs at h with hc
    simp only [Option.some.injEq] at h
    subst h
    have h1 := handlingCount_set s.workers i w { w with status := WorkerStatus.exited } hw
    have h2 := completedCount_set s.workers i w { w with status := WorkerStatus.exited } hw
    simp only [Worker.handling, hc.1] at h1
    simp only [ConsumeState.Flow] at f1 f2 ⊢
    simp at h1 h2
    constructor <;> omega
  · simp at h

/-- Every step keeps the flow bound, the count of pulled messages going up
by one at a poll that returns a message. -/
theorem flow_step (cfg : ConsumeConfig) (s s1 : ConsumeState) (a : Action) (n : Nat)
    (hf : s.Flow n) (h : step cfg s a = some s1) : s1.Flow (n + a.pulls) := by
  unfold step at h
  split_ifs at h
  cases a with
  | pump => exact flow_pumpStep cfg s s1 n hf h
  | poll r => exact flow_pollStep s s1 r n hf h
  | send i => exact flow_sendStep s s1 i n hf h
  | ctxDone err =>
    simp only at h
    split at h
    · simp only [Option.some.injEq] at h
      subst h
      exact hf
    · simp at h
  | handlerReturn i => exact flow_handlerReturnStep cfg s s1 i n hf h
  | workerExit i => exact flow_workerExitStep s s1 i n hf h

theorem flow_run (cfg : ConsumeConfig) (acts : List Action) : ∀ (s s1 : ConsumeState) (n : Nat),
    s.Flow n → run cfg s acts = some s1 → s1.Flow (n + pulled acts) := by
  induction acts with
  | nil =>
    intro s s1 n hf h
    simp only [run, Option.some.injEq] at h
    subst h
    simpa [pulled] using hf
  | cons a rest ih =>
    intro s s1 n hf h
    simp only [run] at h
    split at h
    · rename_i s2 hs
      have := ih s2 s1 (n + a.pulls) (flow_step cfg s s2 a n hf hs) h
      simpa [pulled, Nat.add_assoc] using this
    · simp at h

/-- C23. In every state `Consume` reaches with `W` workers, at most `W`
messages are inside handler calls and the pump holds at most one; every
message pulled so far has a finished handler call, is inside a handler call,
is held by the pump, or is the one message the pump may have dropped on
cancellation. So the messages pulled whose handler call has not finished
number at most `W + 1`. While the pump holds a message it does not poll. -/
theorem unfinished_messages_bounded (cfg : ConsumeConfig) (acts : List Action) (s : ConsumeState)
    (hrun : run cfg (ConsumeState.init cfg) acts = some s) :
    handlingCount s.workers ≤ cfg.workerCount.toNat ∧ s.pc.held ≤ 1 ∧
    completedCount s.workers + handlingCount s.workers + s.pc.held ≤ pulled acts ∧
    pulled acts ≤ completedCount s.workers + handlingCount s.workers + 1 ∧
    pulled acts - completedCount s.workers ≤ cfg.workerCount.toNat + 1 ∧
    (∀ msg r, s.pc = PumpPC.handoff msg → step cfg s (Action.poll r) = none) := by
  have hinit : (ConsumeState.init cfg).Flow 0 := by
    simp [ConsumeState.Flow, ConsumeState.init, completedCount, handlingCount, PumpPC.held,
      PumpPC.slack]
  obtain ⟨f1, f2⟩ := flow_run cfg acts _ s 0 hinit hrun
  obtain ⟨_, _, i3, _, _, _⟩ := inv_run cfg acts _ s (inv_init cfg) hrun
  have hlen := handlingCount_le_length s.workers
  have hheld : s.pc.held ≤ 1 := by
    cases s.pc <;> simp [PumpPC.held]
  have hslack : s.pc.slack ≤ 1 := by
    unfold PumpPC.slack
    split <;> omega
  simp only [Nat.zero_add] at f1 f2
  refine ⟨by omega, hheld, f1, by omega, by omega, ?_⟩
  intro msg r hpc
  simp only [step, pollStep, hpc]
  split_ifs <;> rfl

/-- C23 on a run with one worker that fills the pipeline: two messages were
pulled, one is inside the handler call and the pump holds the other, so the
bound `W + 1 = 2` is reached, and no poll can happen in that state. -/
theorem unfinished_messages_bounded_witness :
    run sampleConfig (ConsumeState.init sampleConfig) busyRun = some busyFinal ∧
    pulled busyRun = 2 ∧ completedCount busyFinal.workers = 0 ∧
    handlingCount busyFinal.workers = 1 ∧ busyFinal.pc.held = 1 ∧
    pulled busyRun - completedCount busyFinal.workers ≤ sampleConfig.workerCount.toNat + 1 ∧
    (∀ msg r, busyFinal.pc = PumpPC.handoff msg →
      step sampleConfig busyFinal (Action.poll r) = none) :=
  have h : run sampleConfig (ConsumeState.init sampleConfig) busyRun = some busyFinal := by
    decide
  have hb := unfinished_messages_bounded sampleConfig busyRun busyFinal h
  ⟨h, by decide, by decide, by decide, by decide, hb.2.2.2.2.1, hb.2.2.2.2.2⟩

end BackPressure

/-! ## The worker pool: the closing invariant and the handoffs -/

section WorkerPool

open Go Notifications Samples

theorem closing_init (cfg : ConsumeConfig) : (ConsumeState.init cfg).Closing := by
  constructor
  · intro w hw
    simp [ConsumeState.init] at hw
  · intro h
    simp [ConsumeState.init] at h

/-- Replacing a worker by one that has not exited keeps "exited only when closed". -/
theorem exited_closed_set (ws : List Worker) (i : Nat) (w1 : Worker) (c : Bool)
    (h : ∀ w ∈ ws, w.status = WorkerStatus.exited → c = true)
    (h1 : w1.status = WorkerStatus.exited → c = true) :
    ∀ w ∈ ws.set i w1, w.status = WorkerStatus.exited → c = true := by
  intro w hw
  rcases List.mem_or_eq_of_mem_set hw with hm | he
  · exact h w hm
  · rw [he]
    exact h1

theorem closing_pumpStep (cfg : ConsumeConfig) (s s1 : ConsumeState) (hc : s.Closing)
    (h : pumpStep cfg s = some s1) : s1.Closing := by
  obtain ⟨c1, c2⟩ := hc
  unfold pumpStep at h
  split at h
  · rename_i left hpc
    simp only [Option.some.injEq] at h
    subst h
    constructor
    · intro w hw hex
      rcases List.mem_append.mp hw with hm | hm
      · exact c1 w hm hex
      · simp at hm
        subst hm
        simp at hex
    · intro hcl
      have := c2 hcl
      simp [hpc] at this
  · rename_i hpc
    split at h <;>
      (simp only [Option.some.injEq] at h
       subst h
       refine ⟨c1, ?_⟩
       intro hcl
       have := c2 hcl
       simp [hpc] at this)
  · rename_i hpc
    split_ifs at h <;>
      (simp only [Option.some.injEq] at h
       subst h
       refine ⟨c1, ?_⟩
       intro hcl
       have := c2 hcl
       simp [hpc] at this)
  · rename_i msg hpc
    split_ifs at h
    simp only [Option.some.injEq] at h
    subst h
    refine ⟨c1, ?_⟩
    intro hcl
    have := c2 hcl
    simp [hpc] at this
  · rename_i hpc
    simp only [Option.some.injEq] at h
    subst h
    exact ⟨fun _ _ _ => rfl, fun _ => Or.inl rfl⟩
  · rename_i hpc
    split_ifs at h
    simp only [Option.some.injEq] at h
    subst h
    exact ⟨c1, fun _ => Or.inr ⟨_, rfl⟩⟩
  · simp at h

theorem closing_step (cfg : ConsumeConfig) (s s1 : ConsumeState) (a : Action) (hc : s.Closing)
    (h : step cfg s a = some s1) : s1.Closing := by
  unfold step at h
  split_ifs at h
  cases a with
  | pump => exact closing_pumpStep cfg s s1 hc h
  | poll r =>
    obtain ⟨c1, c2⟩ := hc
    simp only [pollStep] at h
    split at h
    · rename_i hpc
      have hopen : s.closed = false := by
        cases hcl : s.closed with
        | false => rfl
        | true =>
          have := c2 hcl
          simp [hpc] at this
      cases r with
      | message value =>
        simp only [Option.some.injEq] at h
        subst h
        exact ⟨c1, fun hcl => by simp [hopen] at hcl⟩
      | kafkaError code =>
        simp only at h
        split_ifs at h <;>
          (simp only [Option.some.injEq] at h
           subst h
           exact ⟨c1, fun hcl => by simp [hopen] at hcl⟩)
      | nothing =>
        simp only [Option.some.injEq] at h
        subst h
        exact ⟨c1, fun hcl => by simp [hopen] at hcl⟩
    · simp at h
  | send i =>
    obtain ⟨c1, c2⟩ := hc
    simp only [sendStep] at h
    split at h
    · rename_i msg w hpc hw
      split_ifs at h with hcond
      simp only [Option.some.injEq] at h
      subst h
      refine ⟨exited_closed_set _ _ _ _ c1 (by simp), ?_⟩
      intro hcl
      simp [hcond.2] at hcl
    · simp at h
  | ctxDone err =>
    simp only at h
    split at h
    · simp only [Option.some.injEq] at h
      subst h
      exact hc
    · simp at h
  | handlerReturn i =>
    obtain ⟨c1, c2⟩ := hc
    simp only [handlerReturnStep] at h
    split at h
    · rename_i w hw
      split at h
      · rename_i msg hst
        split at h
        · simp only [Option.some.injEq] at h
          subst h
          exact ⟨c1, c2⟩
        · simp only [Option.some.injEq] at h
          subst h
          exact ⟨exited_closed_set _ _ _ _ c1 (by simp), c2⟩
      · simp at h
    · simp at h
  | workerExit i =>
    obtain ⟨c1, c2⟩ := hc
    simp only [workerExitStep] at h
    split at h
    · rename_i w hw
      split_ifs at h with hcond
      simp only [Option.some.injEq] at h
      subst h
      exact ⟨exited_closed_set _ _ _ _ c1 (fun _ => hcond.2), c2⟩
    · simp at h

theorem closing_run (cfg : ConsumeConfig) (acts : List Action) : ∀ (s s1 : ConsumeState),
    s.Closing → run cfg s acts = some s1 → s1.Closing := by
  induction acts with
  | nil =>
    intro s s1 hc h
    simp only [run, Option.some.injEq] at h
    subst h
    exact hc
  | cons a rest ih =>
    intro s s1 hc h
    simp only [run] at h
    split at h
    · rename_i s2 hs
      exact ih s2 s1 (closing_step cfg s s2 a hc hs) h
    · simp at h

/-- With the wait-group counter's worth of live workers at zero, every worker has exited. -/
theorem all_exited_of_liveCount_zero (ws : List Worker) (h0 : liveCount ws = 0) :
    ∀ w ∈ ws, w.status = WorkerStatus.exited := by
  induction ws with
  | nil => intro w hw; simp at hw
  | cons x xs ih =>
    intro w hw
    simp only [liveCount] at h0
    have hx : x.status = WorkerStatus.exited := by
      by_contra hne
      simp [hne] at h0
    rcases List.mem_cons.mp hw with h | h
    · rw [h]; exact hx
    · exact ih (by omega) w h

/-- A worker started with nothing received does not change what any index has received. -/
theorem receivedBy_append_fresh (ws : List Worker) (w0 : Worker) (h0 : w0.received = []) :
    ∀ i, receivedBy (ws ++ [w0]) i = receivedBy ws i := by
  induction ws with
  | nil =>
    intro i
    cases i with
    | zero => simp [receivedBy, h0]
    | succ j => simp [receivedBy]
  | cons x xs ih =>
    intro i
    cases i with
    | zero => simp [receivedBy]
    | succ j =>
      have := ih j
      simp only [receivedBy, List.cons_append, List.get?_cons_succ] at this ⊢
      exact this

/-- Replacing worker `j` changes what index `j` has received and nothing else. -/
theorem receivedBy_set (ws : List Worker) : ∀ (j : Nat) (w w1 : Worker), ws.get? j = some w →
    ∀ i, receivedBy (ws.set j w1) i = if i = j then w1.received else receivedBy ws i := by
  induction ws with
  | nil => intro j w w1 h; simp at h
  | cons x xs ih =>
    intro j w w1 h i
    cases j with
    | zero =>
      cases i with
      | zero => simp [receivedBy]
      | succ k => simp [receivedBy]
    | succ j1 =>
      simp only [List.get?_cons_succ] at h
      cases i with
      | zero => simp [receivedBy]
      | succ k =>
        have := ih j1 w w1 h k
        simp only [receivedBy, List.set_cons_succ, List.get?_cons_succ] at this ⊢
        rw [this]
        simp

/-- A pump step hands nothing over: what each index has received stays. -/
theorem received_pumpStep (cfg : ConsumeConfig) (s s1 : ConsumeState)
    (h : pumpStep cfg s = some s1) (i : Nat) :
    receivedBy s1.workers i = receivedBy s.workers i ∧ s.workers.length ≤ s1.workers.length := by
  unfold pumpStep at h
  split at h
  · simp only [Option.some.injEq] at h
    subst h
    exact ⟨receivedBy_append_fresh _ _ rfl i, by simp⟩
  · split at h <;>
      (simp only [Option.some.injEq] at h
       subst h
       exact ⟨rfl, Nat.le_refl _⟩)
  · split_ifs at h <;>
      (simp only [Option.some.injEq] at h
       subst h
       exact ⟨rfl, Nat.le_refl _⟩)
  · split_ifs at h
    simp only [Option.some.injEq] at h
    subst h
    exact ⟨rfl, Nat.le_refl _⟩
  · simp only [Option.some.injEq] at h
    subst h
    exact ⟨rfl, Nat.le_refl _⟩
  · split_ifs at h
    simp only [Option.some.injEq] at h
    subst h
    exact ⟨rfl, Nat.le_refl _⟩
  · simp at h

/-- One step: what index `i` has received grows by the message handed to it
in that step, if any; no worker is lost; a handoff goes to a started worker. -/
theorem received_step (cfg : ConsumeConfig) (s s1 : ConsumeState) (a : Action)
    (h : step cfg s a = some s1) (i : Nat) :
    receivedBy s1.workers i = receivedBy s.workers i ++ handedTo cfg s [a] i ∧
    s.workers.length ≤ s1.workers.length ∧
    ∀ p ∈ handoffs cfg s [a], p.1 < s1.workers.length := by
  have hs := h
  unfold step at h
  split_ifs at h
  cases a with
  | pump =>
    obtain ⟨r1, r2⟩ := received_pumpStep cfg s s1 h i
    simp only [handedTo, handoffs, hs]
    exact ⟨by simp [r1], r2, by simp⟩
  | poll r =>
    simp only [handedTo, handoffs, hs]
    simp only [pollStep] at h
    split at h
    · cases r with
      | message value =>
        simp only [Option.some.injEq] at h
        subst h
        exact ⟨by simp, Nat.le_refl _, by simp⟩
      | kafkaError code =>
        simp only at h
        split_ifs at h <;>
          (simp only [Option.some.injEq] at h
           subst h
           exact ⟨by simp, Nat.le_refl _, by simp⟩)
      | nothing =>
        simp only [Option.some.injEq] at h
        subst h
        exact ⟨by simp, Nat.le_refl _, by simp⟩
    · simp at h
  | send j =>
    simp only [sendStep] at h
    split at h
    · rename_i msg w hpc hw
      split_ifs at h with hcond
      simp only [Option.some.injEq] at h
      subst h
      have hlt : j < s.workers.length := by
        by_contra hge
        have : s.workers.get? j = none := List.get?_eq_none.2 (by omega)
        rw [this] at hw
        simp at hw
      simp only [handedTo, handoffs, hs, hpc]
      refine ⟨?_, by simp, by simpa using hlt⟩
      rw [receivedBy_set s.workers j w _ hw i]
      by_cases hij : i = j
      · subst hij
        have hrec : receivedBy s.workers i = w.received := by simp only [receivedBy, hw]
        simp [hrec]
      · have hji : ¬ j = i := fun e => hij e.symm
        simp [hij, hji]
    · simp at h
  | ctxDone err =>
    simp only [handedTo, handoffs, hs]
    simp only at h
    split at h
    · simp only [Option.some.injEq] at h
      subst h
      exact ⟨by simp, Nat.le_refl _, by simp⟩
    · simp at h
  | handlerReturn j =>
    simp only [handedTo, handoffs, hs]
    simp only [handlerReturnStep] at h
    split at h
    · rename_i w hw
      split at h
      · split at h
        · simp only [Option.some.injEq] at h
          subst h
          exact ⟨by simp, Nat.le_refl _, by simp⟩
        · simp only [Option.some.injEq] at h
          subst h
          refine ⟨?_, by simp, by simp⟩
          rw [receivedBy_set s.workers j w _ hw i]
          by_cases hij : i = j
          · subst hij
            have hrec : receivedBy s.workers i = w.received := by simp only [receivedBy, hw]
            simp [hrec]
          · simp [hij]
      · simp at h
    · simp at h
  | workerExit j =>
    simp only [handedTo, handoffs, hs]
    simp only [workerExitStep] at h
    split at h
    · rename_i w hw
      split_ifs at h
      simp only [Option.some.injEq] at h
      subst h
      refine ⟨?_, by simp, by simp⟩
      rw [receivedBy_set s.workers j w _ hw i]
      by_cases hij : i = j
      · subst hij
        have hrec : receivedBy s.workers i = w.received := by simp only [receivedBy, hw]
        simp [hrec]
      · simp [hij]
    · simp at h

/-- The handoffs of a run are those of its first step followed by those of the rest. -/
theorem handoffs_cons (cfg : ConsumeConfig) (s s2 : ConsumeState) (a : Action)
    (rest : List Action) (hs : step cfg s a = some s2) :
    handoffs cfg s (a :: rest) = handoffs cfg s [a] ++ handoffs cfg s2 rest := by
  simp only [handoffs, hs]
  split <;> simp

theorem handedTo_cons (cfg : ConsumeConfig) (s s2 : ConsumeState) (a : Action)
    (rest : List Action) (hs : step cfg s a = some s2) (i : Nat) :
    handedTo cfg s (a :: rest) i = handedTo cfg s [a] i ++ handedTo cfg s2 rest i := by
  simp only [handedTo, handoffs_cons cfg s s2 a rest hs, List.filter_append, List.map_append]

/-- Along a run, what index `i` has received grows by exactly the messages
handed to it, in order; no worker is lost; every handoff went to a worker
that had been started. -/
theorem received_run (cfg : ConsumeConfig) (acts : List Action) : ∀ (s s1 : ConsumeState),
    run cfg s acts = some s1 →
    (∀ i, receivedBy s1.workers i = receivedBy s.workers i ++ handedTo cfg s acts i) ∧
    s.workers.length ≤ s1.workers.length ∧
    ∀ p ∈ handoffs cfg s acts, p.1 < s1.workers.length := by
  induction acts with
  | nil =>
    intro s s1 h
    simp only [run, Option.some.injEq] at h
    subst h
    exact ⟨by simp [handedTo, handoffs], Nat.le_refl _, by simp [handoffs]⟩
  | cons a rest ih =>
    intro s s1 h
    simp only [run] at h
    split at h
    · rename_i s2 hs
      obtain ⟨r1, r2, r3⟩ := ih s2 s1 h
      refine ⟨?_, ?_, ?_⟩
      · intro i
        obtain ⟨q1, _, _⟩ := received_step cfg s s2 a hs i
        rw [r1 i, q1, handedTo_cons cfg s s2 a rest hs i, List.append_assoc]
      · obtain ⟨_, q2, _⟩ := received_step cfg s s2 a hs 0
        omega
      · intro p hp
        rw [handoffs_cons cfg s s2 a rest hs] at hp
        rcases List.mem_append.mp hp with hm | hm
        · obtain ⟨_, _, q3⟩ := received_step cfg s s2 a hs 0
          have := q3 p hm
          omega
        · exact r3 p hm
    · simp at h

/-- C22. Along every run of `Consume`, whatever the handler returns: every
message handed over went to one started worker; each worker received exactly
the messages handed to it, in order; for every message a worker received its
handler call has finished or is the one running, so the handler is invoked
once per message; a worker has exited only with the handoff channel closed;
and a worker whose handler call returns an error goes back to receiving. -/
theorem workers_handle_each_message_once (cfg : ConsumeConfig) (acts : List Action)
    (s : ConsumeState) (hrun : run cfg (ConsumeState.init cfg) acts = some s) :
    (∀ p ∈ handoffs cfg (ConsumeState.init cfg) acts, p.1 < s.workers.length) ∧
    (∀ i w, s.workers.get? i = some w →
      w.received = handedTo cfg (ConsumeState.init cfg) acts i) ∧
    (∀ w ∈ s.workers, w.received = w.completed ∨
      ∃ msg, w.status = WorkerStatus.handling msg ∧ w.received = w.completed ++ [msg]) ∧
    (∀ w ∈ s.workers, w.status = WorkerStatus.exited → s.closed = true) ∧
    (∀ i w msg e, s.workers.get? i = some w → w.status = WorkerStatus.handling msg →
      cfg.handler msg = Outcome.ret (some e) → s.crashed = false →
      ∃ s1, step cfg s (Action.handlerReturn i) = some s1 ∧
        s1.workers.get? i = some { w with status := WorkerStatus.idle,
                                          completed := w.completed ++ [msg] } ∧
        s1.closed = s.closed ∧ s1.wg = s.wg ∧ s1.pc = s.pc ∧ s1.crashed = false) := by
  obtain ⟨r1, _, r3⟩ := received_run cfg acts _ s hrun
  obtain ⟨i1, _, _, _, _, _⟩ := inv_run cfg acts _ s (inv_init cfg) hrun
  obtain ⟨c1, _⟩ := closing_run cfg acts _ s (closing_init cfg) hrun
  refine ⟨r3, ?_, ?_, c1, ?_⟩
  · intro i w hw
    have := r1 i
    simp only [receivedBy, hw, ConsumeState.init, List.get?_nil, List.nil_append] at this
    exact this
  · intro w hw
    have hok := i1 w hw
    unfold Worker.OK at hok
    split at hok
    · rename_i msg hst
      exact Or.inr ⟨msg, hst, hok⟩
    · exact Or.inl hok
  · intro i w msg e hw hst hh hcr
    refine ⟨{ s with
        workers := s.workers.set i { w with status := WorkerStatus.idle,
                                            completed := w.completed ++ [msg] },
        logged := s.logged ++ [processErrorEntry e msg] }, ?_, ?_, rfl, rfl, rfl, hcr⟩
    · unfold step
      rw [if_neg (by simp [hcr])]
      simp only [handlerReturnStep, hw, hst, hh]
    · have hlt : i < s.workers.length := by
        by_contra hge
        have : s.workers.get? i = none := List.get?_eq_none.2 (by omega)
        rw [this] at hw
        simp at hw
      simp [hlt]

/-- C22 on a run with one worker whose handler fails on every message: both
messages were handed to that worker, it finished the handler call for each,
both failures were logged, and the worker is back at receiving with the
channel open. -/
theorem workers_handle_each_message_once_witness :
    run erringConfig (ConsumeState.init erringConfig) erringRun = some erringFinal ∧
    handoffs erringConfig (ConsumeState.init erringConfig) erringRun
      = [(0, str "m1"), (0, str "m2")] ∧
    erringFinal.workers = [{ status := WorkerStatus.idle, received := [str "m1", str "m2"],
                             completed := [str "m1", str "m2"] }] ∧
    (∀ i w, erringFinal.workers.get? i = some w →
      w.received = handedTo erringConfig (ConsumeState.init erringConfig) erringRun i) ∧
    erringFinal.closed = false :=
  have h : run erringConfig (ConsumeState.init erringConfig) erringRun = some erringFinal := by
    decide
  ⟨h, by decide, rfl,
    (workers_handle_each_message_once erringConfig erringRun erringFinal h).2.1, rfl⟩

end WorkerPool

/-! ## Shutdown: the connection is closed after the drain -/

section Shutdown

open Go Notifications Samples

/-- A quiet state is not busy. -/
theorem quiet_not_busy (s : ConsumeState) (hq : s.Quiet) : s.busy = false := by
  obtain ⟨_, q2, _, q4⟩ := hq
  simp only [ConsumeState.busy, Bool.or_eq_false_iff, decide_eq_false_iff_not]
  refine ⟨q2, ?_⟩
  rw [List.any_eq_false]
  intro w hw
  simp [q4 w hw]

theorem quiet_set (ws : List Worker) (i : Nat) (w1 : Worker)
    (h : ∀ w ∈ ws, w.handling = false) (h1 : w1.handling = false) :
    ∀ w ∈ ws.set i w1, w.handling = false := by
  intro w hw
  rcases List.mem_or_eq_of_mem_set hw with hm | he
  · exact h w hm
  · rw [he]
    exact h1

/-- From a quiet state the only steps are the pump's way out of `Consume`
and workers exiting; the state stays quiet. -/
theorem quiet_step (cfg : ConsumeConfig) (s s1 : ConsumeState) (a : Action) (hq : s.Quiet)
    (h : step cfg s a = some s1) :
    s1.Quiet ∧ a.pulls = 0 ∧ handoffs cfg s [a] = [] := by
  obtain ⟨q1, q2, q3, q4⟩ := hq
  have hs := h
  unfold step at h
  split_ifs at h
  cases a with
  | pump =>
    refine ⟨?_, rfl, by simp [handoffs, hs]⟩
    have h : pumpStep cfg s = some s1 := h
    unfold pumpStep at h
    split at h
    · simp only [Option.some.injEq] at h
      subst h
      refine ⟨q1, by simp, by simp, ?_⟩
      intro w hw
      rcases List.mem_append.mp hw with hm | hm
      · exact q4 w hm
      · simp at hm
        subst hm
        rfl
    · split at h <;>
        (simp only [Option.some.injEq] at h
         subst h
         exact ⟨q1, by simp, by simp, q4⟩)
    · split_ifs at h
      simp only [Option.some.injEq] at h
      subst h
      exact ⟨q1, by simp, by simp, q4⟩
    · rename_i msg hpc
      exact absurd hpc (q3 msg)
    · simp only [Option.some.injEq] at h
      subst h
      exact ⟨q1, by simp, by simp, q4⟩
    · split_ifs at h
      simp only [Option.some.injEq] at h
      subst h
      exact ⟨q1, by simp, by simp, q4⟩
    · simp at h
  | poll r =>
    have h : pollStep s r = some s1 := h
    unfold pollStep at h
    split at h
    · rename_i hpc
      exact absurd hpc q2
    · simp at h
  | send i =>
    have h : sendStep s i = some s1 := h
    unfold sendStep at h
    split at h
    · rename_i msg w hpc hw
      exact absurd hpc (q3 msg)
    · simp at h
  | ctxDone err =>
    simp only at h
    split at h
    · rename_i hnone
      rw [hnone] at q1
      simp at q1
    · simp at h
  | handlerReturn i =>
    have h : handlerReturnStep cfg s i = some s1 := h
    unfold handlerReturnStep at h
    split at h
    · rename_i w hw
      split at h
      · rename_i msg hst
        have := q4 w (List.get?_mem hw)
        simp [Worker.handling, hst] at this
      · simp at h
    · simp at h
  | workerExit i =>
    refine ⟨?_, rfl, by simp [handoffs, hs]⟩
    have h : workerExitStep s i = some s1 := h
    unfold workerExitStep at h
    split at h
    · rename_i w hw
      split_ifs at h
      simp only [Option.some.injEq] at h
      subst h
      exact ⟨q1, q2, q3, quiet_set _ _ _ q4 rfl⟩
    · simp at h

theorem quiet_run (cfg : ConsumeConfig) (acts : List Action) : ∀ (s s1 : ConsumeState),
    s.Quiet → run cfg s acts = some s1 →
    s1.Quiet ∧ pulled acts = 0 ∧ handoffs cfg s acts = [] := by
  induction acts with
  | nil =>
    intro s s1 hq h
    simp only [run, Option.some.injEq] at h
    subst h
    exact ⟨hq, rfl, rfl⟩
  | cons a rest ih =>
    intro s s1 hq h
    simp only [run] at h
    split at h
    · rename_i s2 hs
      obtain ⟨k1, k2, k3⟩ := quiet_step cfg s s2 a hq hs
      obtain ⟨j1, j2, j3⟩ := ih s2 s1 k1 h
      refine ⟨j1, by simp [pulled, k2, j2], ?_⟩
      rw [handoffs_cons cfg s s2 a rest hs, k3, j3]
      rfl
    · simp at h

/-- With at least one worker asked for, a state in which the context is done
and the wait-group counter is zero is quiet: either no worker has been
started yet and the pump is still in its spawn loop, or every worker has
exited and the pump is past `close(tasks)`. -/
theorem quiet_of_wait_returns (cfg : ConsumeConfig) (s : ConsumeState)
    (hW : 1 ≤ cfg.workerCount) (hinv : s.Inv cfg) (hcl : s.Closing)
    (hctx : s.ctxErr.isSome = true) (hwait : closeWaitReturns s) :
    s.Quiet ∧ ∀ w ∈ s.workers, w.status = WorkerStatus.exited ∧ w.completed = w.received := by
  obtain ⟨i1, i2, i3, _, _, _⟩ := hinv
  obtain ⟨c1, c2⟩ := hcl
  unfold closeWaitReturns at hwait
  have hzero : liveCount s.workers = 0 := by
    rw [i2] at hwait
    exact_mod_cast hwait
  have hex := all_exited_of_liveCount_zero s.workers hzero
  have hWn : 1 ≤ cfg.workerCount.toNat := by omega
  have hpc : s.pc ≠ PumpPC.polling ∧ ∀ msg, s.pc ≠ PumpPC.handoff msg := by
    cases hws : s.workers with
    | nil =>
      rw [hws] at i3
      simp only [List.length_nil, Nat.zero_add] at i3
      constructor
      · intro hp
        rw [hp] at i3
        simp [PumpPC.spawnLeft] at i3
        omega
      · intro msg hp
        rw [hp] at i3
        simp [PumpPC.spawnLeft] at i3
        omega
    | cons x xs =>
      have hx : x ∈ s.workers := by rw [hws]; exact List.mem_cons_self x xs
      have hclosed := c1 x hx (hex x hx)
      constructor
      · intro hp
        have := c2 hclosed
        simp [hp] at this
      · intro msg hp
        have := c2 hclosed
        simp [hp] at this
  refine ⟨⟨hctx, hpc.1, hpc.2, ?_⟩, ?_⟩
  · intro w hw
    simp [Worker.handling, hex w hw]
  · intro w hw
    have hok := i1 w hw
    simp only [Worker.OK, hex w hw] at hok
    exact ⟨hex w hw, hok.symm⟩

/-- C21, amended. For every worker count of at least one: in any state
`Consume` reaches, once the context is cancelled and the `wg.Wait()` of
`KafkaConsumer.Close` can return, the pump is not inside `ReadMessage`, no
worker is inside a handler call, every worker started has exited with the
handler call finished for each message it received, and from then on, in
every continuation, no message is pulled, none is handed over and the
connection is never in use by the pump's poll or a handler call. -/
theorem connection_closed_after_drain (cfg : ConsumeConfig) (acts : List Action)
    (s : ConsumeState) (hW : 1 ≤ cfg.workerCount)
    (hrun : run cfg (ConsumeState.init cfg) acts = some s)
    (hctx : s.ctxErr.isSome = true) (hwait : closeWaitReturns s) :
    s.busy = false ∧
    (∀ w ∈ s.workers, w.status = WorkerStatus.exited ∧ w.completed = w.received) ∧
    ∀ acts1 s1, run cfg s acts1 = some s1 →
      s1.busy = false ∧ pulled acts1 = 0 ∧ handoffs cfg s acts1 = [] ∧
      ∀ r, step cfg s1 (Action.poll r) = none := by
  have hinv := inv_run cfg acts _ s (inv_init cfg) hrun
  have hcl := closing_run cfg acts _ s (closing_init cfg) hrun
  obtain ⟨hq, hdrain⟩ := quiet_of_wait_returns cfg s hW hinv hcl hctx hwait
  refine ⟨quiet_not_busy s hq, hdrain, ?_⟩
  intro acts1 s1 h1
  obtain ⟨k1, k2, k3⟩ := quiet_run cfg acts1 s s1 hq h1
  refine ⟨quiet_not_busy s1 k1, k2, k3, ?_⟩
  intro r
  cases hstep : step cfg s1 (Action.poll r) with
  | none => rfl
  | some s2 =>
    have hp : pollStep s1 r = some s2 := by
      unfold step at hstep
      split_ifs at hstep
      exact hstep
    unfold pollStep at hp
    split at hp
    · rename_i hpc
      exact absurd hpc k1.2.1
    · simp at hp

/-- C21, amended, on the run with one worker in which the context is
cancelled while a handler call runs: when `Consume` has returned the wait
group is at zero, nothing is in use and the worker has exited. -/
theorem connection_closed_after_drain_witness :
    (1 : Int) ≤ sampleConfig.workerCount ∧
    run sampleConfig (ConsumeState.init sampleConfig) sampleRun = some sampleFinal ∧
    sampleFinal.ctxErr.isSome = true ∧ closeWaitReturns sampleFinal ∧
    sampleFinal.busy = false ∧
    (∀ w ∈ sampleFinal.workers, w.status = WorkerStatus.exited ∧ w.completed = w.received) :=
  have hW : (1 : Int) ≤ sampleConfig.workerCount := by decide
  have h : run sampleConfig (ConsumeState.init sampleConfig) sampleRun = some sampleFinal := by
    decide
  have hw : closeWaitReturns sampleFinal := by
    unfold closeWaitReturns
    decide
  have hc := connection_closed_after_drain sampleConfig sampleRun sampleFinal hW h rfl hw
  ⟨hW, h, rfl, hw, hc.1, hc.2.1⟩

/-- C21 as stated fails for a worker count of zero: after the pump has
subscribed and entered `ReadMessage`, the context is cancelled; the wait
group was never incremented, so the `wg.Wait()` of `Close` returns at once
and the connection is closed while the pump is inside `ReadMessage`, which
can still return a message. -/
theorem close_with_no_workers_meets_polling_pump :
    run zeroConfig (ConsumeState.init zeroConfig) zeroRun = some zeroFinal ∧
    zeroFinal.ctxErr = some Error.canceled ∧ closeWaitReturns zeroFinal ∧
    zeroFinal.pc = PumpPC.polling ∧ zeroFinal.busy = true ∧
    step zeroConfig zeroFinal (Action.poll (PollResult.message (str "m")))
      = some { zeroFinal with pc := PumpPC.handoff (str "m") } := by
  refine ⟨by decide, rfl, ?_, rfl, by decide, by decide⟩
  unfold closeWaitReturns
  decide

end Shutdown
